import Mathlib

/-!
The tinyrpc header codec and server codec.

A shallow embedding of `header/header.go` and `codec/server.go`.

Conventions of the embedding.

* A Go byte is a `Fin 256`; the conversion `byte(x)` is `byte x`.
* A Go `[]byte` value is a `Slice`: the `len` elements that can be indexed
  (`elems`) and the elements of the backing array between `len` and `cap`
  (`spare`), which a two-index slice expression may still reach.
* Unsigned machine integers are natural numbers reduced modulo `2 ^ w` where
  the source converts or overflows; `int` is the 64-bit signed integer.
* A run-time panic (index or slice bound out of range) is `none`.
-/

namespace TinyRpc

/-! ## Bytes and slices -/

abbrev Byte := Fin 256

/-- The Go conversion `byte(x)`: the low eight bits. -/
def byte (n : Nat) : Byte := ⟨n % 256, Nat.mod_lt n (by decide)⟩

/-- A Go `[]byte`: `elems` are the `len(s)` indexable elements, `spare` the
`cap(s) - len(s)` elements of the backing array behind them. -/
structure Slice where
  elems : List Byte
  spare : List Byte
deriving DecidableEq, Repr

/-- The slice `[]byte{...}` whose capacity equals its length. -/
def Slice.ofList (l : List Byte) : Slice := ⟨l, []⟩

def Slice.len (s : Slice) : Nat := s.elems.length

def Slice.cap (s : Slice) : Nat := s.elems.length + s.spare.length

/-- The expression `s[idx:]` for an `int` index: panics unless
`0 ≤ idx ≤ len(s)`; the capacity behind the slice is kept. -/
def Slice.sliceFrom (s : Slice) (idx : Int) : Option Slice :=
  if 0 ≤ idx ∧ idx ≤ s.len then some ⟨s.elems.drop idx.toNat, s.spare⟩ else none

/-- The bytes of `s[lo:hi]` for `int` bounds: panics unless
`0 ≤ lo ≤ hi ≤ cap(s)`. -/
def Slice.sliceRange (s : Slice) (lo hi : Int) : Option (List Byte) :=
  if 0 ≤ lo ∧ lo ≤ hi ∧ hi ≤ s.cap then
    some (((s.elems ++ s.spare).drop lo.toNat).take (hi.toNat - lo.toNat))
  else none

/-- The conversion `int(x)` of a `uint64` on a 64-bit platform. -/
def toInt64 (x : Nat) : Int :=
  if x % 2 ^ 64 < 2 ^ 63 then ((x % 2 ^ 64 : Nat) : Int) else ((x % 2 ^ 64 : Nat) : Int) - 2 ^ 64

/-- Wrap-around of a 64-bit signed `int` result. -/
def wrapInt64 (z : Int) : Int := toInt64 (z % 2 ^ 64).toNat

/-! ## encoding/binary -/

def MaxVarintLen64 : Nat := 10

/-- The loop of `binary.PutUvarint`: `i` is the write index, `x` the value
still to be written.  Ten rounds are enough for every `uint64`. -/
def PutUvarint.loop : Nat → List Byte → Nat → Nat → Option (List Byte × Nat)
  | 0, _, _, _ => none
  | fuel + 1, buf, x, i =>
    if 0x80 ≤ x then
      if i < buf.length then
        PutUvarint.loop fuel (buf.set i (byte ((byte x).val ||| 0x80))) (x >>> 7) (i + 1)
      else none
    else
      if i < buf.length then some (buf.set i (byte x), i + 1) else none

/-- The function `binary.PutUvarint(buf, x)`: the buffer after the writes and the
number of bytes written, or a panic when `buf` is too small. -/
def PutUvarint (buf : List Byte) (x : Nat) : Option (List Byte × Nat) :=
  PutUvarint.loop MaxVarintLen64 buf (x % 2 ^ 64) 0

/-- The loop of `binary.Uvarint`: `i` is the index of the head of the list,
`x` the value accumulated so far and `s` the shift. -/
def Uvarint.loop : List Byte → Nat → Nat → Nat → Nat × Int
  | [], _, _, _ => (0, 0)
  | b :: rest, i, x, s =>
    if i = MaxVarintLen64 then (0, -((i : Int) + 1))
    else if b.val < 0x80 then
      if i = MaxVarintLen64 - 1 ∧ 1 < b.val then (0, -((i : Int) + 1))
      else (x ||| (b.val <<< s) % 2 ^ 64, (i : Int) + 1)
    else Uvarint.loop rest (i + 1) (x ||| ((b.val &&& 0x7f) <<< s) % 2 ^ 64) (s + 7)

/-- The function `binary.Uvarint(buf)`: the decoded value and the number of bytes
read; `(0, 0)` when the buffer ends inside the varint and `(0, -n)` on a
64-bit overflow met at byte `n`. -/
def Uvarint (buf : List Byte) : Nat × Int := Uvarint.loop buf 0 0 0

/-- The method `binary.LittleEndian.PutUint16(b, v)`. -/
def PutUint16 (b : List Byte) (v : Nat) : Option (List Byte) :=
  if 1 < b.length then some ((b.set 0 (byte v)).set 1 (byte (v >>> 8))) else none

/-- The method `binary.LittleEndian.PutUint32(b, v)`. -/
def PutUint32 (b : List Byte) (v : Nat) : Option (List Byte) :=
  if 3 < b.length then
    some ((((b.set 0 (byte v)).set 1 (byte (v >>> 8))).set 2 (byte (v >>> 16))).set 3
      (byte (v >>> 24)))
  else none

/-- The method `binary.LittleEndian.Uint16(b)`. -/
def Uint16 (b : List Byte) : Option Nat :=
  match b with
  | b0 :: b1 :: _ => some (b0.val ||| b1.val <<< 8)
  | _ => none

/-- The method `binary.LittleEndian.Uint32(b)`. -/
def Uint32 (b : List Byte) : Option Nat :=
  match b with
  | b0 :: b1 :: b2 :: b3 :: _ => some (b0.val ||| b1.val <<< 8 ||| b2.val <<< 16 ||| b3.val <<< 24)
  | _ => none

/-! ## header/header.go -/

def MaxHeaderSize : Nat := 36

def Uint32Size : Nat := 4

def Uint16Size : Nat := 2

/-- The buffer `buf` with `f` run on the sub-slice `buf[idx:]`, which shares the
backing array: a panic when `idx` exceeds the length. -/
def onTail {α : Type} (buf : List Byte) (idx : Nat)
    (f : List Byte → Option (List Byte × α)) : Option (List Byte × α) :=
  if idx ≤ buf.length then
    match f (buf.drop idx) with
    | some (t, a) => some (buf.take idx ++ t, a)
    | none => none
  else none

/-- The built-in `copy(dst, src)`: the first `min(len(dst), len(src))` elements of
`dst` are overwritten. -/
def copyInto (dst src : List Byte) : List Byte :=
  src.take dst.length ++ dst.drop src.length

/-- The function `writeString(data, str)`. -/
def writeString (data : List Byte) (str : List Byte) : Option (List Byte × Nat) :=
  match PutUvarint data str.length with
  | none => none
  | some (data, idx) =>
    if idx ≤ data.length then
      some (data.take idx ++ copyInto (data.drop idx) str, idx + str.length)
    else none

/-- The function `readString(data)`: the string and the number of bytes it took. -/
def readString (data : Slice) : Option (List Byte × Int) :=
  let (length, size) := Uvarint data.elems
  let idx : Int := size
  match data.sliceRange idx (wrapInt64 (idx + toInt64 length)) with
  | none => none
  | some str => some (str, idx + str.length)

/-- Modelled from the spec: the error values `UnexpectedChecksumError`,
`NotFoundCompressorError` and `InvalidSequenceError` of the codec package,
whose declarations are not among the sources and which the spec describes as
distinct errors.  `UnmarshalError` is the value declared in
`header/header.go`, and `other` stands for every error that comes from outside
the two packages (the stream, a compressor, the serializer). -/
inductive Error where
  | UnmarshalError
  | UnexpectedChecksumError
  | NotFoundCompressorError
  | InvalidSequenceError
  | other (code : Nat)
deriving DecidableEq, Repr

structure RequestHeader where
  CompressType : Nat
  Method : List Byte
  ID : Nat
  RequestLen : Nat
  Checksum : Nat
deriving DecidableEq, Repr

/-- The field values are in the range of their Go types (`uint16`, `string`,
`uint64`, `uint32`, `uint32`); for the string this means that the buffer of
`MaxHeaderSize + len(Method)` bytes that `Marshal` makes has an `int` length,
as every Go allocation does. -/
def RequestHeader.valid (h : RequestHeader) : Prop :=
  h.CompressType < 2 ^ 16 ∧ MaxHeaderSize + h.Method.length < 2 ^ 63 ∧ h.ID < 2 ^ 64 ∧
    h.RequestLen < 2 ^ 32 ∧ h.Checksum < 2 ^ 32

instance (h : RequestHeader) : Decidable h.valid := by
  unfold RequestHeader.valid; infer_instance

/-- The method `(*RequestHeader).Marshal`: the returned slice `header[:idx]`, which keeps
the rest of the allocated buffer as spare capacity, or a panic. -/
def RequestHeader.Marshal (r : RequestHeader) : Option Slice :=
  let header : List Byte := List.replicate (MaxHeaderSize + r.Method.length) 0
  match onTail header 0 (fun b => (PutUint16 b r.CompressType).map (fun b => (b, ()))) with
  | none => none
  | some (header, _) =>
    let idx := Uint16Size
    match onTail header idx (fun b => writeString b r.Method) with
    | none => none
    | some (header, n) =>
      let idx := idx + n
      match onTail header idx (fun b => PutUvarint b r.ID) with
      | none => none
      | some (header, n) =>
        let idx := idx + n
        match onTail header idx (fun b => PutUvarint b (r.RequestLen % 2 ^ 64)) with
        | none => none
        | some (header, n) =>
          let idx := idx + n
          match onTail header idx (fun b => (PutUint32 b r.Checksum).map (fun b => (b, ()))) with
          | none => none
          | some (header, _) =>
            let idx := idx + Uint32Size
            if idx ≤ header.length then some ⟨header.take idx, header.drop idx⟩ else none

/-- The method `(*RequestHeader).Unmarshal`: the header after the call and the returned
error.  Every panic is recovered into `UnmarshalError`; the fields assigned
before the panic keep their new values. -/
def RequestHeader.Unmarshal (r : RequestHeader) (data : Slice) :
    RequestHeader × Option Error :=
  if data.len = 0 then (r, some Error.UnmarshalError)
  else
    match (data.sliceFrom 0).bind (fun d => Uint16 d.elems) with
    | none => (r, some Error.UnmarshalError)
    | some ct =>
      let r := { r with CompressType := ct }
      let idx : Int := Uint16Size
      match (data.sliceFrom idx).bind readString with
      | none => (r, some Error.UnmarshalError)
      | some (str, size) =>
        let r := { r with Method := str }
        let idx := idx + size
        match data.sliceFrom idx with
        | none => (r, some Error.UnmarshalError)
        | some d =>
          let (id, size) := Uvarint d.elems
          let r := { r with ID := id }
          let idx := idx + size
          match data.sliceFrom idx with
          | none => (r, some Error.UnmarshalError)
          | some d =>
            let (length, size) := Uvarint d.elems
            let r := { r with RequestLen := length % 2 ^ 32 }
            let idx := idx + size
            match (data.sliceFrom idx).bind (fun d => Uint32 d.elems) with
            | none => (r, some Error.UnmarshalError)
            | some ck => ({ r with Checksum := ck }, none)

/-- The method `(*RequestHeader).ResetHeader`. -/
def RequestHeader.ResetHeader (_r : RequestHeader) : RequestHeader :=
  { CompressType := 0, Method := [], ID := 0, RequestLen := 0, Checksum := 0 }

structure ResponseHeader where
  CompressType : Nat
  ID : Nat
  Error : List Byte
  ResponseLen : Nat
  Checksum : Nat
deriving DecidableEq, Repr

/-- The field values are in the range of their Go types; the buffer of
`MaxHeaderSize + len(Error)` bytes that `Marshal` makes has an `int` length. -/
def ResponseHeader.valid (h : ResponseHeader) : Prop :=
  h.CompressType < 2 ^ 16 ∧ h.ID < 2 ^ 64 ∧ MaxHeaderSize + h.Error.length < 2 ^ 63 ∧
    h.ResponseLen < 2 ^ 32 ∧ h.Checksum < 2 ^ 32

instance (h : ResponseHeader) : Decidable h.valid := by
  unfold ResponseHeader.valid; infer_instance

/-- The method `(*ResponseHeader).Marshal`. -/
def ResponseHeader.Marshal (r : ResponseHeader) : Option Slice :=
  let header : List Byte := List.replicate (MaxHeaderSize + r.Error.length) 0
  match onTail header 0 (fun b => (PutUint16 b r.CompressType).map (fun b => (b, ()))) with
  | none => none
  | some (header, _) =>
    let idx := Uint16Size
    match onTail header idx (fun b => PutUvarint b r.ID) with
    | none => none
    | some (header, n) =>
      let idx := idx + n
      match onTail header idx (fun b => writeString b r.Error) with
      | none => none
      | some (header, n) =>
        let idx := idx + n
        match onTail header idx (fun b => PutUvarint b (r.ResponseLen % 2 ^ 64)) with
        | none => none
        | some (header, n) =>
          let idx := idx + n
          match onTail header idx (fun b => (PutUint32 b r.Checksum).map (fun b => (b, ()))) with
          | none => none
          | some (header, _) =>
            let idx := idx + Uint32Size
            if idx ≤ header.length then some ⟨header.take idx, header.drop idx⟩ else none

/-- The method `(*ResponseHeader).Unmarshal`. -/
def ResponseHeader.Unmarshal (r : ResponseHeader) (data : Slice) :
    ResponseHeader × Option TinyRpc.Error :=
  if data.len = 0 then (r, some TinyRpc.Error.UnmarshalError)
  else
    match (data.sliceFrom 0).bind (fun d => Uint16 d.elems) with
    | none => (r, some TinyRpc.Error.UnmarshalError)
    | some ct =>
      let r := { r with CompressType := ct }
      let idx : Int := Uint16Size
      match data.sliceFrom idx with
      | none => (r, some TinyRpc.Error.UnmarshalError)
      | some d =>
        let (id, size) := Uvarint d.elems
        let r := { r with ID := id }
        let idx := idx + size
        match (data.sliceFrom idx).bind readString with
        | none => (r, some TinyRpc.Error.UnmarshalError)
        | some (str, size) =>
          let r := { r with Error := str }
          let idx := idx + size
          match data.sliceFrom idx with
          | none => (r, some TinyRpc.Error.UnmarshalError)
          | some d =>
            let (length, size) := Uvarint d.elems
            let r := { r with ResponseLen := length % 2 ^ 32 }
            let idx := idx + size
            match (data.sliceFrom idx).bind (fun d => Uint32 d.elems) with
            | none => (r, some TinyRpc.Error.UnmarshalError)
            | some ck => ({ r with Checksum := ck }, none)

/-- The method `(*ResponseHeader).ResetHeader`. -/
def ResponseHeader.ResetHeader (_r : ResponseHeader) : ResponseHeader :=
  { CompressType := 0, ID := 0, Error := [], ResponseLen := 0, Checksum := 0 }

/-! ## hash/crc32 -/

/-- One bit of the reflected CRC-32 division by the IEEE polynomial. -/
def crc32Bit (crc : Nat) : Nat :=
  if crc % 2 = 1 then (crc >>> 1) ^^^ 0xEDB88320 else crc >>> 1

/-- One byte of the CRC-32 update. -/
def crc32Byte (crc : Nat) (b : Byte) : Nat :=
  crc32Bit (crc32Bit (crc32Bit (crc32Bit (crc32Bit (crc32Bit (crc32Bit (crc32Bit
    (crc ^^^ b.val))))))))

/-- The function `crc32.ChecksumIEEE`. -/
def ChecksumIEEE (data : List Byte) : Nat :=
  (data.foldl crc32Byte 0xFFFFFFFF) ^^^ 0xFFFFFFFF

/-! ## codec/server.go

The collaborators of the codec that are not part of `codec/server.go` (the
frame transport, the compressor registry, the serializer and the buffered
connection) are parameters, collected in `Env`.  Every call that the codec
makes to one of them is recorded, in order, in a list of `Call`s. -/

/-- A registered compressor.  Its errors are its own: `code` becomes
`Error.other code`.  The compressor and serializer packages are imported by
the codec package and so cannot return the error values that the codec
package declares. -/
structure Compressor where
  Zip : List Byte → Except Nat (List Byte)
  Unzip : List Byte → Except Nat (List Byte)

/-- The collaborators of a server codec over values `V`, a reader state `R` and
a writer state `W`. -/
structure Env (V R W : Type) where
  /-- The registry `compressor.Compressors`. -/
  Compressors : Nat → Option Compressor
  /-- The call `serializer.Marshal(value)`. -/
  serializerMarshal : V → Except Nat (List Byte)
  /-- The call `serializer.Unmarshal(bytes, target)`. -/
  serializerUnmarshal : List Byte → V → Option Nat
  /-- The call `recvFrame(r)`. -/
  recvFrame : R → Except Error Slice × R
  /-- The call `read(r, buf)` for a buffer of the given length. -/
  read : R → Nat → Except Error (List Byte) × R
  /-- The call `sendFrame(w, payload)`. -/
  sendFrame : W → List Byte → Option Error × W
  /-- The call `write(w, bytes)`. -/
  write : W → List Byte → Option Error × W
  /-- The call `w.Flush()`. -/
  Flush : W → Option Error × W

/-- A call made by the codec to one of its collaborators. -/
inductive Call (V : Type) where
  | recvFrame
  | read (n : Nat)
  | ChecksumIEEE (body : List Byte)
  | Unzip (compressType : Nat) (body : List Byte)
  | serializerUnmarshal (body : List Byte) (target : V)
  | serializerMarshal (value : V)
  | Zip (compressType : Nat) (body : List Byte)
  | sendFrame (payload : List Byte)
  | write (body : List Byte)
  | Flush
deriving DecidableEq, Repr

/-- The descriptor `rpc.Request`. -/
structure Request where
  ServiceMethod : List Byte
  Seq : Nat
deriving DecidableEq, Repr

/-- The descriptor `rpc.Response`. -/
structure Response where
  ServiceMethod : List Byte
  Seq : Nat
  Error : List Byte
deriving DecidableEq, Repr

/-- The map `pending`, from sequence number to wire ID. -/
abbrev Pending := Nat → Option Nat

/-- The assignment `pending[k] = v`. -/
def Pending.insert (m : Pending) (k v : Nat) : Pending :=
  fun j => if j = k then some v else m j

/-- The statement `delete(pending, k)`. -/
def Pending.delete (m : Pending) (k : Nat) : Pending :=
  fun j => if j = k then none else m j

/-- The state of a `serverCodec`. -/
structure serverCodec (R W : Type) where
  r : R
  w : W
  request : RequestHeader
  seq : Nat
  pending : Pending

/-- The function `NewServerCodec`. -/
def NewServerCodec {R W : Type} (r : R) (w : W) : serverCodec R W :=
  { r := r, w := w, request := ⟨0, [], 0, 0, 0⟩, seq := 0, pending := fun _ => none }

/-- How a call ended: it returned an error value (`none` is `nil`), or a
panic left it. -/
inductive Outcome where
  | returned (err : Option Error)
  | panicked
deriving DecidableEq, Repr

section Codec

variable {V R W : Type}

/-- The method `(*serverCodec).ReadRequestHeader`: the codec and the descriptor after the
call, the returned error and the calls made. -/
def serverCodec.ReadRequestHeader (env : Env V R W) (s : serverCodec R W) (r : Request) :
    serverCodec R W × Request × Option Error × List (Call V) :=
  let s := { s with request := s.request.ResetHeader }
  match env.recvFrame s.r with
  | (Except.error err, rd) => ({ s with r := rd }, r, some err, [Call.recvFrame])
  | (Except.ok data, rd) =>
    let s := { s with r := rd }
    match s.request.Unmarshal data with
    | (h, some err) => ({ s with request := h }, r, some err, [Call.recvFrame])
    | (h, none) =>
      let s := { s with request := h }
      let s := { s with seq := (s.seq + 1) % 2 ^ 64 }
      let s := { s with pending := s.pending.insert s.seq s.request.ID }
      (s, { r with ServiceMethod := s.request.Method, Seq := s.seq }, none, [Call.recvFrame])

/-- The method `(*serverCodec).ReadRequestBody`; `param` is `none` for a nil target. -/
def serverCodec.ReadRequestBody (env : Env V R W) (s : serverCodec R W) (param : Option V) :
    serverCodec R W × Option Error × List (Call V) :=
  match param with
  | none =>
    if s.request.RequestLen ≠ 0 then
      match env.read s.r s.request.RequestLen with
      | (Except.error err, rd) => ({ s with r := rd }, some err, [Call.read s.request.RequestLen])
      | (Except.ok _, rd) => ({ s with r := rd }, none, [Call.read s.request.RequestLen])
    else (s, none, [])
  | some target =>
    match env.read s.r s.request.RequestLen with
    | (Except.error err, rd) => ({ s with r := rd }, some err, [Call.read s.request.RequestLen])
    | (Except.ok reqBody, rd) =>
      let s := { s with r := rd }
      let t : List (Call V) := [Call.read s.request.RequestLen]
      if s.request.Checksum ≠ 0 ∧ ChecksumIEEE reqBody ≠ s.request.Checksum then
        (s, some Error.UnexpectedChecksumError, t ++ [Call.ChecksumIEEE reqBody])
      else
        let t := if s.request.Checksum ≠ 0 then t ++ [Call.ChecksumIEEE reqBody] else t
        match env.Compressors s.request.CompressType with
        | none => (s, some Error.NotFoundCompressorError, t)
        | some c =>
          let t := t ++ [Call.Unzip s.request.CompressType reqBody]
          match c.Unzip reqBody with
          | Except.error code => (s, some (Error.other code), t)
          | Except.ok req =>
            (s, (env.serializerUnmarshal req target).map Error.other,
              t ++ [Call.serializerUnmarshal req target])

/-- The response header that `WriteResponse` fills in for the wire ID `id`,
the descriptor `r` and the compressed body. -/
def responseHeader (s : serverCodec R W) (id : Nat) (r : Response)
    (compressedRespBody : List Byte) : ResponseHeader :=
  { ID := id, Error := r.Error, ResponseLen := compressedRespBody.length % 2 ^ 32,
    Checksum := ChecksumIEEE compressedRespBody, CompressType := s.request.CompressType }

/-- The method `(*serverCodec).WriteResponse`; `param` is `none` for a nil value. -/
def serverCodec.WriteResponse (env : Env V R W) (s : serverCodec R W) (r : Response)
    (param : Option V) : serverCodec R W × Outcome × List (Call V) :=
  match s.pending r.Seq with
  | none => (s, Outcome.returned (some Error.InvalidSequenceError), [])
  | some id =>
    let s := { s with pending := s.pending.delete r.Seq }
    let param := if r.Error ≠ [] then none else param
    match env.Compressors s.request.CompressType with
    | none => (s, Outcome.returned (some Error.NotFoundCompressorError), [])
    | some c =>
      let marshalled : Except Nat (List Byte) × List (Call V) :=
        match param with
        | some v => (env.serializerMarshal v, [Call.serializerMarshal v])
        | none => (Except.ok [], [])
      match marshalled with
      | (Except.error code, t) => (s, Outcome.returned (some (Error.other code)), t)
      | (Except.ok respBody, t) =>
        let t := t ++ [Call.Zip s.request.CompressType respBody]
        match c.Zip respBody with
        | Except.error code => (s, Outcome.returned (some (Error.other code)), t)
        | Except.ok compressedRespBody =>
          match (responseHeader s id r compressedRespBody).Marshal with
          | none => (s, Outcome.panicked, t)
          | some frame =>
            let t := t ++ [Call.sendFrame frame.elems]
            match env.sendFrame s.w frame.elems with
            | (some err, wr) => ({ s with w := wr }, Outcome.returned (some err), t)
            | (none, wr) =>
              let s := { s with w := wr }
              let t := t ++ [Call.write compressedRespBody]
              match env.write s.w compressedRespBody with
              | (some err, wr) => ({ s with w := wr }, Outcome.returned (some err), t)
              | (none, wr) =>
                let s := { s with w := wr }
                ({ s with w := (env.Flush s.w).2 }, Outcome.returned none, t ++ [Call.Flush])

/-- A call of one of the three codec methods. -/
inductive Op (V : Type) where
  | ReadRequestHeader (r : Request)
  | ReadRequestBody (param : Option V)
  | WriteResponse (r : Response) (param : Option V)

/-- The codec after one call. -/
def serverCodec.step (env : Env V R W) (s : serverCodec R W) : Op V → serverCodec R W
  | Op.ReadRequestHeader r => (s.ReadRequestHeader env r).1
  | Op.ReadRequestBody param => (s.ReadRequestBody env param).1
  | Op.WriteResponse r param => (s.WriteResponse env r param).1

/-- The codec after a sequence of calls. -/
def serverCodec.run (env : Env V R W) (s : serverCodec R W) (ops : List (Op V)) :
    serverCodec R W :=
  ops.foldl (serverCodec.step env) s

/-- The call `op`, made in state `s`, concerns a sequence number other than
`S`: it is not a `WriteResponse` for `S` and not a `ReadRequestHeader` that
succeeds with `Seq = S`. -/
def serverCodec.otherSeq (env : Env V R W) (S : Nat) (s : serverCodec R W) : Op V → Prop
  | Op.ReadRequestHeader r =>
    ¬ ((s.ReadRequestHeader env r).2.2.1 = none ∧ (s.ReadRequestHeader env r).2.1.Seq = S)
  | Op.ReadRequestBody _ => True
  | Op.WriteResponse r _ => r.Seq ≠ S

/-- Every call of the sequence `ops`, started in state `s`, concerns a sequence
number other than `S`. -/
def serverCodec.allOtherSeq (env : Env V R W) (S : Nat) :
    serverCodec R W → List (Op V) → Prop
  | _, [] => True
  | s, op :: ops => s.otherSeq env S op ∧ serverCodec.allOtherSeq env S (s.step env op) ops

end Codec

section Decidability

variable {V R W : Type}

instance (env : Env V R W) (S : Nat) (s : serverCodec R W) (op : Op V) :
    Decidable (s.otherSeq env S op) := by
  cases op <;> unfold serverCodec.otherSeq <;> infer_instance

/-- Decision procedure for `allOtherSeq`, by recursion on the calls. -/
def serverCodec.decAllOtherSeq (env : Env V R W) (S : Nat) :
    (s : serverCodec R W) → (ops : List (Op V)) → Decidable (serverCodec.allOtherSeq env S s ops)
  | _, [] => isTrue trivial
  | s, op :: ops =>
    match (inferInstance : Decidable (s.otherSeq env S op)),
      serverCodec.decAllOtherSeq env S (s.step env op) ops with
    | isTrue h1, isTrue h2 => isTrue ⟨h1, h2⟩
    | isFalse h1, _ => isFalse (fun h => h1 h.1)
    | _, isFalse h2 => isFalse (fun h => h2 h.2)

instance (env : Env V R W) (S : Nat) (s : serverCodec R W) (ops : List (Op V)) :
    Decidable (serverCodec.allOtherSeq env S s ops) :=
  serverCodec.decAllOtherSeq env S s ops

end Decidability

/-! ## A concrete environment

Used to run the codec on concrete inputs.  The reader is a queue of chunks:
`recvFrame` takes the next chunk as the frame, `read` takes the next chunk as
the body and fails unless it has the requested length.  The writer is the list
of chunks written.  Compressor 0 is the identity, compressor 1 puts the byte
`0x78` in front; no other compressor is registered.  The serializer writes a
value as one byte. -/

def exampleCompressors (compressType : Nat) : Option Compressor :=
  if compressType = 0 then
    some { Zip := fun b => Except.ok b, Unzip := fun b => Except.ok b }
  else if compressType = 1 then
    some { Zip := fun b => Except.ok (0x78 :: b),
           Unzip := fun b =>
             match b with
             | [] => Except.error 1
             | c :: rest => if c = 0x78 then Except.ok rest else Except.error 1 }
  else none

def exampleEnv : Env Nat (List (List Byte)) (List (List Byte)) where
  Compressors := exampleCompressors
  serializerMarshal := fun v => Except.ok [byte v]
  serializerUnmarshal := fun b _ => if b.length = 1 then none else some 2
  recvFrame := fun q =>
    match q with
    | [] => (Except.error (Error.other 0), [])
    | f :: rest => (Except.ok (Slice.ofList f), rest)
  read := fun q n =>
    match q with
    | [] => (Except.error (Error.other 0), [])
    | b :: rest => if b.length = n then (Except.ok b, rest) else (Except.error (Error.other 0), rest)
  sendFrame := fun w payload => (none, w ++ [payload])
  write := fun w body => (none, w ++ [body])
  Flush := fun w => (none, w)

/-- The frame of request A: compressType 0, method `A`, wire ID 7. -/
def frameA : List Byte := [0, 0, 1, 65, 7, 0, 0, 0, 0, 0]

/-- The frame of request B: compressType 1, method `B`, wire ID 8. -/
def frameB : List Byte := [1, 0, 1, 66, 8, 0, 0, 0, 0, 0]

/-- The concrete environment with a buffered writer whose `Flush` fails. -/
def flushFailEnv : Env Nat (List (List Byte)) (List (List Byte)) :=
  { exampleEnv with Flush := fun w => (some (Error.other 1), w) }

/-! ## A byte stream as the reader -/

/-- Modelled from the spec: the helper `read(r, buf)` of the codec package, which
is not among the sources.  It reads exactly `len(buf)` bytes from the stream:
with `n` bytes available it returns them and leaves the rest of the stream,
otherwise it fails. -/
def streamRead (stream : List Byte) (n : Nat) : Except Error (List Byte) × List Byte :=
  if n ≤ stream.length then (Except.ok (stream.take n), stream.drop n)
  else (Except.error (Error.other 0), [])

/-! ## Varint encodings -/

/-- The bytes `B` are a complete varint that `binary.Uvarint` decodes to `v`,
whatever follows them. -/
def encodesUvarint (B : List Byte) (v : Nat) : Prop :=
  ∀ rest : List Byte, Uvarint (B ++ rest) = (v, (B.length : Int))

/-! ## The steps of WriteResponse -/

/-- The value that `WriteResponse` serializes: none when the descriptor carries
an error string. -/
def effectiveParam {V : Type} (r : Response) (param : Option V) : Option V :=
  if r.Error ≠ [] then none else param

/-- The serialization step of `WriteResponse`: the serializer is called for a
present value only; its result and the calls made. -/
def marshalStep {V R W : Type} (env : Env V R W) (param : Option V) :
    Except Nat (List Byte) × List (Call V) :=
  match param with
  | some v => (env.serializerMarshal v, [Call.serializerMarshal v])
  | none => (Except.ok [], [])

/-! ## The history of a run -/

section History

variable {V R W : Type}

/-- The sequence numbers returned by the successful `ReadRequestHeader` calls
of a run, in order. -/
def serverCodec.readSeqs (env : Env V R W) : serverCodec R W → List (Op V) → List Nat
  | _, [] => []
  | s, Op.ReadRequestHeader req :: ops =>
    (if (s.ReadRequestHeader env req).2.2.1 = none then [(s.ReadRequestHeader env req).2.1.Seq]
      else []) ++ serverCodec.readSeqs env (s.ReadRequestHeader env req).1 ops
  | s, Op.ReadRequestBody param :: ops =>
    serverCodec.readSeqs env (s.ReadRequestBody env param).1 ops
  | s, Op.WriteResponse r param :: ops =>
    serverCodec.readSeqs env (s.WriteResponse env r param).1 ops

/-- The sequence numbers returned by successful `ReadRequestHeader` calls of a
run that were already keys of the pending table when the call was made. -/
def serverCodec.staleInserts (env : Env V R W) : serverCodec R W → List (Op V) → List Nat
  | _, [] => []
  | s, Op.ReadRequestHeader req :: ops =>
    (if (s.ReadRequestHeader env req).2.2.1 = none ∧
        (s.pending (s.ReadRequestHeader env req).2.1.Seq).isSome then
        [(s.ReadRequestHeader env req).2.1.Seq]
      else []) ++ serverCodec.staleInserts env (s.ReadRequestHeader env req).1 ops
  | s, Op.ReadRequestBody param :: ops =>
    serverCodec.staleInserts env (s.ReadRequestBody env param).1 ops
  | s, Op.WriteResponse r param :: ops =>
    serverCodec.staleInserts env (s.WriteResponse env r param).1 ops

/-- The keys removed from the pending table by the `WriteResponse` calls of a
run, in order: one entry for every call that found its sequence number in the
table. -/
def serverCodec.removedKeys (env : Env V R W) : serverCodec R W → List (Op V) → List Nat
  | _, [] => []
  | s, Op.ReadRequestHeader req :: ops =>
    serverCodec.removedKeys env (s.ReadRequestHeader env req).1 ops
  | s, Op.ReadRequestBody param :: ops =>
    serverCodec.removedKeys env (s.ReadRequestBody env param).1 ops
  | s, Op.WriteResponse r param :: ops =>
    (if (s.pending r.Seq).isSome then [r.Seq] else []) ++
      serverCodec.removedKeys env (s.WriteResponse env r param).1 ops

end History

/-! ## The documented wire layout -/

/-- Little-endian encoding of a 16-bit value. -/
def LE16 (v : Nat) : List Byte := [byte (v % 256), byte (v / 256 % 256)]

/-- Little-endian encoding of a 32-bit value. -/
def LE32 (v : Nat) : List Byte :=
  [byte (v % 256), byte (v / 2 ^ 8 % 256), byte (v / 2 ^ 16 % 256), byte (v / 2 ^ 24 % 256)]

/-- Unsigned LEB128 with a bound on the number of continuation bytes. -/
def uvarintAux : Nat → Nat → List Byte
  | 0, x => [byte x]
  | fuel + 1, x =>
    if x < 128 then [byte x] else byte (x % 128 + 128) :: uvarintAux fuel (x / 128)

/-- Unsigned LEB128: seven bits per byte, least significant group first, the
high bit set on every byte but the last. -/
def uvarint (x : Nat) : List Byte := uvarintAux x x

/-- The documented request layout
`[compressType:2][method-len:varint][method:bytes][id:varint][requestLen:varint][checksum:4]`. -/
def requestLayout (h : RequestHeader) : List Byte :=
  LE16 h.CompressType ++ uvarint h.Method.length ++ h.Method ++ uvarint h.ID ++
    uvarint h.RequestLen ++ LE32 h.Checksum

/-- The documented response layout
`[compressType:2][id:varint][error-len:varint][error:bytes][responseLen:varint][checksum:4]`. -/
def responseLayout (h : ResponseHeader) : List Byte :=
  LE16 h.CompressType ++ uvarint h.ID ++ uvarint h.Error.length ++ h.Error ++
    uvarint h.ResponseLen ++ LE32 h.Checksum

/-! ## The decoding steps as a partial function -/

/-- The steps of `(*RequestHeader).Unmarshal` without the target: the decoded fields, or
`none` when the input is empty or a step panics. -/
def RequestHeader.decode (d : Slice) : Option RequestHeader :=
  if d.len = 0 then none
  else
    ((d.sliceFrom 0).bind fun d0 => Uint16 d0.elems).bind fun ct =>
    ((d.sliceFrom 2).bind readString).bind fun strSize =>
    (d.sliceFrom (2 + strSize.2)).bind fun d1 =>
    (d.sliceFrom (2 + strSize.2 + (Uvarint d1.elems).2)).bind fun d2 =>
    ((d.sliceFrom (2 + strSize.2 + (Uvarint d1.elems).2 + (Uvarint d2.elems).2)).bind
      fun d3 => Uint32 d3.elems).map fun ck =>
    { CompressType := ct, Method := strSize.1, ID := (Uvarint d1.elems).1,
      RequestLen := (Uvarint d2.elems).1 % 2 ^ 32, Checksum := ck }

/-- The steps of `(*ResponseHeader).Unmarshal` without the target. -/
def ResponseHeader.decode (d : Slice) : Option ResponseHeader :=
  if d.len = 0 then none
  else
    ((d.sliceFrom 0).bind fun d0 => Uint16 d0.elems).bind fun ct =>
    (d.sliceFrom 2).bind fun d1 =>
    ((d.sliceFrom (2 + (Uvarint d1.elems).2)).bind readString).bind fun strSize =>
    (d.sliceFrom (2 + (Uvarint d1.elems).2 + strSize.2)).bind fun d2 =>
    ((d.sliceFrom (2 + (Uvarint d1.elems).2 + strSize.2 + (Uvarint d2.elems).2)).bind
      fun d3 => Uint32 d3.elems).map fun ck =>
    { CompressType := ct, ID := (Uvarint d1.elems).1, Error := strSize.1,
      ResponseLen := (Uvarint d2.elems).1 % 2 ^ 32, Checksum := ck }

/-- The cut of the request encoding of `h` after `k` bytes falls four or more
bytes into an unfinished varint field (method length, id or requestLen). -/
def RequestHeader.cutInsideVarint (h : RequestHeader) (k : Nat) : Prop :=
  (2 + 4 ≤ k ∧ k < 2 + (uvarint h.Method.length).length) ∨
  (2 + (uvarint h.Method.length).length + h.Method.length + 4 ≤ k ∧
    k < 2 + (uvarint h.Method.length).length + h.Method.length + (uvarint h.ID).length) ∨
  (2 + (uvarint h.Method.length).length + h.Method.length + (uvarint h.ID).length + 4 ≤ k ∧
    k < 2 + (uvarint h.Method.length).length + h.Method.length + (uvarint h.ID).length +
      (uvarint h.RequestLen).length)

instance (h : RequestHeader) (k : Nat) : Decidable (h.cutInsideVarint k) := by
  unfold RequestHeader.cutInsideVarint; infer_instance

/-! ## Varints -/

theorem uvarintAux_fuel : ∀ (f g x : Nat), x ≤ f → x ≤ g → uvarintAux f x = uvarintAux g x := by
  intro f
  induction f with
  | zero =>
    intro g x hf _
    obtain rfl : x = 0 := by omega
    cases g <;> simp [uvarintAux]
  | succ f ih =>
    intro g x hf hg
    cases g with
    | zero =>
      obtain rfl : x = 0 := by omega
      simp [uvarintAux]
    | succ g =>
      simp only [uvarintAux]
      split
      · rfl
      · rw [ih g (x / 128) (by omega) (by omega)]

theorem uvarint_eq (x : Nat) :
    uvarint x = if x < 128 then [byte x] else byte (x % 128 + 128) :: uvarint (x / 128) := by
  cases x with
  | zero => simp [uvarint, uvarintAux]
  | succ n =>
    simp only [uvarint, uvarintAux]
    split
    · rfl
    · rw [uvarintAux_fuel n ((n + 1) / 128) ((n + 1) / 128) (by omega) (le_refl _)]

theorem pow7_succ (k : Nat) : (2 : Nat) ^ (7 * (k + 1)) = 2 ^ (7 * k) * 128 := by
  rw [show 7 * (k + 1) = 7 * k + 7 by ring, pow_add]; norm_num

theorem uvarint_length_pos (x : Nat) : 0 < (uvarint x).length := by
  rw [uvarint_eq]; split <;> simp

theorem uvarint_length_le : ∀ (k x : Nat), x < 2 ^ (7 * (k + 1)) → (uvarint x).length ≤ k + 1 := by
  intro k
  induction k with
  | zero =>
    intro x hx
    rw [uvarint_eq, if_pos (by simpa using hx)]
    simp
  | succ k ih =>
    intro x hx
    rw [uvarint_eq]
    split
    · simp
    · have hq : x / 128 < 2 ^ (7 * (k + 1)) := by
        rw [pow7_succ] at hx
        exact Nat.div_lt_of_lt_mul (by rw [Nat.mul_comm]; exact hx)
      have := ih (x / 128) hq
      simp only [List.length_cons]
      omega

set_option maxRecDepth 100000 in
theorem lor_128 : ∀ y : Fin 256, y.val ||| 128 = y.val % 128 + 128 := by decide

set_option maxRecDepth 100000 in
theorem land_127 : ∀ y : Fin 256, y.val &&& 127 = y.val % 128 := by decide

theorem byte_val (n : Nat) : (byte n).val = n % 256 := rfl

theorem byte_continuation (x : Nat) : byte ((byte x).val ||| 0x80) = byte (x % 128 + 128) := by
  apply Fin.ext
  have h := lor_128 (byte x)
  simp only [byte_val] at h ⊢
  rw [h]
  omega

theorem lor_shiftLeft (acc d s : Nat) (h : acc < 2 ^ s) : acc ||| d <<< s = acc + d * 2 ^ s := by
  rw [Nat.shiftLeft_eq, Nat.lor_comm, Nat.mul_comm, ← Nat.mul_add_lt_is_or h, Nat.add_comm]

theorem PutUvarint_loop_eq : ∀ (fuel x : Nat) (pre zs : List Byte), 0 < fuel → x < 2 ^ (7 * fuel) →
    (uvarint x).length ≤ zs.length →
    PutUvarint.loop fuel (pre ++ zs) x pre.length =
      some (pre ++ uvarint x ++ zs.drop (uvarint x).length, pre.length + (uvarint x).length) := by
  intro fuel
  induction fuel with
  | zero => intro x pre zs h; omega
  | succ fuel ih =>
    intro x pre zs _ hx hlen
    rw [uvarint_eq] at hlen ⊢
    cases zs with
    | nil => split at hlen <;> simp at hlen
    | cons z zs =>
      simp only [PutUvarint.loop]
      by_cases h128 : x < 128
      · rw [if_neg (by omega), if_pos (by simp), if_pos h128]
        simp
      · rw [if_pos (by omega), if_pos (by simp), if_neg h128]
        rw [if_neg h128] at hlen
        have hq : x / 128 < 2 ^ (7 * fuel) := by
          rw [pow7_succ] at hx
          exact Nat.div_lt_of_lt_mul (by rw [Nat.mul_comm]; exact hx)
        have hf : 0 < fuel := by
          rcases Nat.eq_zero_or_pos fuel with h0 | h0
          · subst h0; simp at hq; omega
          · exact h0
        have hset : (pre ++ z :: zs).set pre.length (byte ((byte x).val ||| 0x80)) =
            (pre ++ [byte (x % 128 + 128)]) ++ zs := by
          rw [byte_continuation]; simp
        rw [hset, Nat.shiftRight_eq_div_pow]
        have := ih (x / 128) (pre ++ [byte (x % 128 + 128)]) zs hf hq
          (by simp only [List.length_cons] at hlen; omega)
        simp only [List.length_append, List.length_singleton] at this
        rw [show (2:Nat) ^ 7 = 128 by norm_num, this]
        simp [Nat.add_assoc, Nat.add_comm 1]

theorem byte_val_of_lt {n : Nat} (h : n < 256) : (byte n).val = n := by
  rw [byte_val]; exact Nat.mod_eq_of_lt h

theorem Uvarint_loop_uvarint (x : Nat) : ∀ (i acc : Nat) (rest : List Byte), i ≤ 9 →
    acc < 2 ^ (7 * i) → acc + x * 2 ^ (7 * i) < 2 ^ 64 →
    Uvarint.loop (uvarint x ++ rest) i acc (7 * i) =
      (acc + x * 2 ^ (7 * i), (i : Int) + ((uvarint x).length : Nat)) := by
  induction x using Nat.strong_induction_on with
  | _ x ih =>
    intro i acc rest hi hacc hlt
    have hP : 0 < 2 ^ (7 * i) := Nat.pow_pos (by decide)
    rw [uvarint_eq]
    by_cases h128 : x < 128
    · rw [if_pos h128]
      simp only [List.singleton_append, Uvarint.loop, MaxVarintLen64]
      rw [if_neg (by omega), byte_val_of_lt (by omega), if_pos h128]
      have h9 : ¬ (i = 10 - 1 ∧ 1 < x) := by
        rintro ⟨h9, h1⟩
        have h9 : i = 9 := by omega
        subst h9
        norm_num at hlt
        omega
      rw [if_neg h9]
      have hm : x <<< (7 * i) % 2 ^ 64 = x <<< (7 * i) := by
        apply Nat.mod_eq_of_lt
        rw [Nat.shiftLeft_eq]; omega
      rw [hm, lor_shiftLeft _ _ _ hacc]
      simp
    · rw [if_neg h128]
      simp only [List.cons_append, Uvarint.loop, MaxVarintLen64]
      have hb : (byte (x % 128 + 128)).val = x % 128 + 128 := byte_val_of_lt (by omega)
      have hland : (byte (x % 128 + 128)).val &&& 0x7f = x % 128 := by
        have := land_127 (byte (x % 128 + 128))
        rw [this, hb]; omega
      rw [if_neg (by omega), hland, hb, if_neg (by omega)]
      have hx : x = 128 * (x / 128) + x % 128 := (Nat.div_add_mod x 128).symm
      have hpow : (2 : Nat) ^ (7 * (i + 1)) = 2 ^ (7 * i) * 128 := pow7_succ i
      have hmul : x * 2 ^ (7 * i) = (x / 128) * (2 ^ (7 * i) * 128) + (x % 128) * 2 ^ (7 * i) := by
        conv_lhs => rw [hx]
        ring
      have hle : (x % 128) * 2 ^ (7 * i) ≤ 127 * 2 ^ (7 * i) :=
        Nat.mul_le_mul_right _ (by omega)
      have hi8 : i ≤ 8 := by
        by_contra hc
        have h9 : i = 9 := by omega
        subst h9
        norm_num at hlt
        omega
      have hm : (x % 128) <<< (7 * i) % 2 ^ 64 = (x % 128) <<< (7 * i) := by
        apply Nat.mod_eq_of_lt
        rw [Nat.shiftLeft_eq]; omega
      rw [hm, lor_shiftLeft _ _ _ hacc]
      have hrec := ih (x / 128) (by omega) (i + 1) (acc + x % 128 * 2 ^ (7 * i)) rest (by omega)
        (by rw [hpow]; omega) (by rw [hpow]; omega)
      rw [show 7 * i + 7 = 7 * (i + 1) by ring, List.append_eq, hrec, hpow]
      simp only [List.length_cons, Prod.mk.injEq]
      constructor
      · omega
      · push_cast; ring

theorem Uvarint_uvarint (x : Nat) (rest : List Byte) (hx : x < 2 ^ 64) :
    Uvarint (uvarint x ++ rest) = (x, (((uvarint x).length : Nat) : Int)) := by
  have := Uvarint_loop_uvarint x 0 0 rest (by omega) (by simp) (by simpa using hx)
  simpa [Uvarint] using this

/-! ## Marshal writes the documented layout -/

theorem onTail_append {α : Type} (pre zs : List Byte) (idx : Nat)
    (f : List Byte → Option (List Byte × α)) (h : idx = pre.length) :
    onTail (pre ++ zs) idx f =
      match f zs with
      | some (t, a) => some (pre ++ t, a)
      | none => none := by
  subst h
  simp [onTail]

theorem byte_mod (v : Nat) : byte (v % 256) = byte v := by
  apply Fin.ext; simp [byte_val]

theorem PutUint16_eq (zs : List Byte) (v : Nat) (h : 2 ≤ zs.length) :
    PutUint16 zs v = some (LE16 v ++ zs.drop 2) := by
  match zs, h with
  | a :: b :: zs, _ =>
    simp only [PutUint16, LE16, Nat.shiftRight_eq_div_pow]
    rw [if_pos (by simp)]
    simp [byte_mod]

theorem PutUint32_eq (zs : List Byte) (v : Nat) (h : 4 ≤ zs.length) :
    PutUint32 zs v = some (LE32 v ++ zs.drop 4) := by
  match zs, h with
  | a :: b :: c :: d :: zs, _ =>
    simp only [PutUint32, LE32, Nat.shiftRight_eq_div_pow]
    rw [if_pos (by simp)]
    simp [byte_mod]

theorem PutUvarint_eq (zs : List Byte) (x : Nat) (hx : x < 2 ^ 64)
    (h : (uvarint x).length ≤ zs.length) :
    PutUvarint zs x = some (uvarint x ++ zs.drop (uvarint x).length, (uvarint x).length) := by
  have := PutUvarint_loop_eq MaxVarintLen64 x [] zs (by decide)
    (lt_of_lt_of_le hx (by norm_num [MaxVarintLen64])) h
  rw [PutUvarint, Nat.mod_eq_of_lt hx]
  simpa using this

theorem writeString_eq (zs str : List Byte) (hs : str.length < 2 ^ 64)
    (h : (uvarint str.length).length + str.length ≤ zs.length) :
    writeString zs str =
      some (uvarint str.length ++ str ++ zs.drop ((uvarint str.length).length + str.length),
        (uvarint str.length).length + str.length) := by
  simp only [writeString]
  rw [PutUvarint_eq zs str.length hs (by omega)]
  simp only [copyInto]
  rw [if_pos (by simp)]
  have h1 : List.take (uvarint str.length).length
      (uvarint str.length ++ List.drop (uvarint str.length).length zs) = uvarint str.length := by
    simp
  have h2 : List.drop (uvarint str.length).length
      (uvarint str.length ++ List.drop (uvarint str.length).length zs) =
        List.drop (uvarint str.length).length zs := by
    simp
  rw [h1, h2, List.take_of_length_le (by simp; omega), List.drop_drop]
  simp [List.append_assoc, Nat.add_comm]

theorem LE16_length (v : Nat) : (LE16 v).length = 2 := rfl

theorem LE32_length (v : Nat) : (LE32 v).length = 4 := rfl

theorem RequestHeader.Marshal_eq (h : RequestHeader) (hv : h.valid) :
    h.Marshal = some ⟨requestLayout h,
      List.replicate (MaxHeaderSize + h.Method.length - (requestLayout h).length) 0⟩ := by
  obtain ⟨_, hL, hid, hrl, _⟩ := hv
  simp only [MaxHeaderSize] at hL
  have ha := uvarint_length_le 8 h.Method.length (by norm_num; omega)
  have hb := uvarint_length_le 9 h.ID (lt_of_lt_of_le hid (by norm_num))
  have hc := uvarint_length_le 4 h.RequestLen (lt_of_lt_of_le hrl (by norm_num))
  simp only [RequestHeader.Marshal, MaxHeaderSize, Uint16Size, Uint32Size]
  have e1 : onTail (List.replicate (36 + h.Method.length) (0 : Byte)) 0
      (fun b => (PutUint16 b h.CompressType).map (fun b => (b, ()))) =
      some (LE16 h.CompressType ++ List.replicate (34 + h.Method.length) 0, ()) := by
    have := onTail_append [] (List.replicate (36 + h.Method.length) (0 : Byte)) 0
      (fun b => (PutUint16 b h.CompressType).map (fun b => (b, ()))) rfl
    rw [List.nil_append] at this
    rw [this]
    beta_reduce
    rw [PutUint16_eq _ _ (by simp; omega)]
    simp
    omega
  rw [e1]
  simp only []
  have e2 : onTail (LE16 h.CompressType ++ List.replicate (34 + h.Method.length) 0) 2
      (fun b => writeString b h.Method) =
      some ((LE16 h.CompressType ++ uvarint h.Method.length ++ h.Method) ++
        List.replicate (34 - (uvarint h.Method.length).length) 0,
        (uvarint h.Method.length).length + h.Method.length) := by
    rw [onTail_append _ _ _ _ (LE16_length _).symm]
    rw [writeString_eq _ _ (by omega) (by simp; omega)]
    simp
    omega
  rw [e2]
  simp only []
  have e3 : onTail ((LE16 h.CompressType ++ uvarint h.Method.length ++ h.Method) ++
        List.replicate (34 - (uvarint h.Method.length).length) 0)
      (2 + ((uvarint h.Method.length).length + h.Method.length))
      (fun b => PutUvarint b h.ID) =
      some ((LE16 h.CompressType ++ uvarint h.Method.length ++ h.Method ++ uvarint h.ID) ++
        List.replicate (34 - (uvarint h.Method.length).length - (uvarint h.ID).length) 0,
        (uvarint h.ID).length) := by
    rw [onTail_append _ _ _ _ (by simp [LE16_length])]
    rw [PutUvarint_eq _ _ hid (by simp; omega)]
    simp
  rw [e3]
  simp only []
  have e4 : onTail ((LE16 h.CompressType ++ uvarint h.Method.length ++ h.Method ++ uvarint h.ID) ++
        List.replicate (34 - (uvarint h.Method.length).length - (uvarint h.ID).length) 0)
      (2 + ((uvarint h.Method.length).length + h.Method.length) + (uvarint h.ID).length)
      (fun b => PutUvarint b (h.RequestLen % 2 ^ 64)) =
      some ((LE16 h.CompressType ++ uvarint h.Method.length ++ h.Method ++ uvarint h.ID ++
          uvarint h.RequestLen) ++
        List.replicate (34 - (uvarint h.Method.length).length - (uvarint h.ID).length -
          (uvarint h.RequestLen).length) 0,
        (uvarint h.RequestLen).length) := by
    rw [Nat.mod_eq_of_lt (lt_of_lt_of_le hrl (by norm_num)),
      onTail_append _ _ _ _ (by simp [LE16_length]; omega)]
    rw [PutUvarint_eq _ _ (lt_of_lt_of_le hrl (by norm_num)) (by simp; omega)]
    simp
  rw [e4]
  simp only []
  have e5 : onTail ((LE16 h.CompressType ++ uvarint h.Method.length ++ h.Method ++ uvarint h.ID ++
          uvarint h.RequestLen) ++
        List.replicate (34 - (uvarint h.Method.length).length - (uvarint h.ID).length -
          (uvarint h.RequestLen).length) 0)
      (2 + ((uvarint h.Method.length).length + h.Method.length) + (uvarint h.ID).length +
        (uvarint h.RequestLen).length)
      (fun b => (PutUint32 b h.Checksum).map (fun b => (b, ()))) =
      some (requestLayout h ++
        List.replicate (30 - (uvarint h.Method.length).length - (uvarint h.ID).length -
          (uvarint h.RequestLen).length) 0, ()) := by
    rw [onTail_append _ _ _ _ (by simp [LE16_length]; omega)]
    rw [PutUint32_eq _ _ (by simp; omega)]
    simp [requestLayout]
    omega
  rw [e5]
  simp only []
  have hlen : (requestLayout h).length = 2 + ((uvarint h.Method.length).length + h.Method.length) +
      (uvarint h.ID).length + (uvarint h.RequestLen).length + 4 := by
    simp [requestLayout, LE16_length, LE32_length]; omega
  rw [← hlen, if_pos (by simp)]
  simp
  omega

theorem ResponseHeader.Marshal_eq_of (h : ResponseHeader) (hid : h.ID < 2 ^ 64)
    (hL : MaxHeaderSize + h.Error.length < 2 ^ 63) (hrl : h.ResponseLen < 2 ^ 32) :
    h.Marshal = some ⟨responseLayout h,
      List.replicate (MaxHeaderSize + h.Error.length - (responseLayout h).length) 0⟩ := by
  simp only [MaxHeaderSize] at hL
  have ha := uvarint_length_le 8 h.Error.length (by norm_num; omega)
  have hb := uvarint_length_le 9 h.ID (lt_of_lt_of_le hid (by norm_num))
  have hc := uvarint_length_le 4 h.ResponseLen (lt_of_lt_of_le hrl (by norm_num))
  simp only [ResponseHeader.Marshal, MaxHeaderSize, Uint16Size, Uint32Size]
  have e1 : onTail (List.replicate (36 + h.Error.length) (0 : Byte)) 0
      (fun b => (PutUint16 b h.CompressType).map (fun b => (b, ()))) =
      some (LE16 h.CompressType ++ List.replicate (34 + h.Error.length) 0, ()) := by
    have := onTail_append [] (List.replicate (36 + h.Error.length) (0 : Byte)) 0
      (fun b => (PutUint16 b h.CompressType).map (fun b => (b, ()))) rfl
    rw [List.nil_append] at this
    rw [this]
    beta_reduce
    rw [PutUint16_eq _ _ (by simp; omega)]
    simp
    omega
  rw [e1]
  simp only []
  have e2 : onTail (LE16 h.CompressType ++ List.replicate (34 + h.Error.length) 0) 2
      (fun b => PutUvarint b h.ID) =
      some ((LE16 h.CompressType ++ uvarint h.ID) ++
        List.replicate (34 + h.Error.length - (uvarint h.ID).length) 0,
        (uvarint h.ID).length) := by
    rw [onTail_append _ _ _ _ (LE16_length _).symm]
    rw [PutUvarint_eq _ _ hid (by simp; omega)]
    simp
  rw [e2]
  simp only []
  have e3 : onTail ((LE16 h.CompressType ++ uvarint h.ID) ++
        List.replicate (34 + h.Error.length - (uvarint h.ID).length) 0)
      (2 + (uvarint h.ID).length)
      (fun b => writeString b h.Error) =
      some ((LE16 h.CompressType ++ uvarint h.ID ++ uvarint h.Error.length ++ h.Error) ++
        List.replicate (34 - (uvarint h.ID).length - (uvarint h.Error.length).length) 0,
        (uvarint h.Error.length).length + h.Error.length) := by
    rw [onTail_append _ _ _ _ (by simp [LE16_length])]
    rw [writeString_eq _ _ (by omega) (by simp; omega)]
    simp
    omega
  rw [e3]
  simp only []
  have e4 : onTail ((LE16 h.CompressType ++ uvarint h.ID ++ uvarint h.Error.length ++ h.Error) ++
        List.replicate (34 - (uvarint h.ID).length - (uvarint h.Error.length).length) 0)
      (2 + (uvarint h.ID).length + ((uvarint h.Error.length).length + h.Error.length))
      (fun b => PutUvarint b (h.ResponseLen % 2 ^ 64)) =
      some ((LE16 h.CompressType ++ uvarint h.ID ++ uvarint h.Error.length ++ h.Error ++
          uvarint h.ResponseLen) ++
        List.replicate (34 - (uvarint h.ID).length - (uvarint h.Error.length).length -
          (uvarint h.ResponseLen).length) 0,
        (uvarint h.ResponseLen).length) := by
    rw [Nat.mod_eq_of_lt (lt_of_lt_of_le hrl (by norm_num)),
      onTail_append _ _ _ _ (by simp [LE16_length]; omega)]
    rw [PutUvarint_eq _ _ (lt_of_lt_of_le hrl (by norm_num)) (by simp; omega)]
    simp
  rw [e4]
  simp only []
  have e5 : onTail ((LE16 h.CompressType ++ uvarint h.ID ++ uvarint h.Error.length ++ h.Error ++
          uvarint h.ResponseLen) ++
        List.replicate (34 - (uvarint h.ID).length - (uvarint h.Error.length).length -
          (uvarint h.ResponseLen).length) 0)
      (2 + (uvarint h.ID).length + ((uvarint h.Error.length).length + h.Error.length) +
        (uvarint h.ResponseLen).length)
      (fun b => (PutUint32 b h.Checksum).map (fun b => (b, ()))) =
      some (responseLayout h ++
        List.replicate (30 - (uvarint h.ID).length - (uvarint h.Error.length).length -
          (uvarint h.ResponseLen).length) 0, ()) := by
    rw [onTail_append _ _ _ _ (by simp [LE16_length]; omega)]
    rw [PutUint32_eq _ _ (by simp; omega)]
    simp [responseLayout]
    omega
  rw [e5]
  simp only []
  have hlen : (responseLayout h).length = 2 + (uvarint h.ID).length +
      ((uvarint h.Error.length).length + h.Error.length) + (uvarint h.ResponseLen).length + 4 := by
    simp [responseLayout, LE16_length, LE32_length]; omega
  rw [← hlen, if_pos (by simp)]
  simp
  omega

theorem ResponseHeader.respMarshal_eq (h : ResponseHeader) (hv : h.valid) :
    h.Marshal = some ⟨responseLayout h,
      List.replicate (MaxHeaderSize + h.Error.length - (responseLayout h).length) 0⟩ :=
  ResponseHeader.Marshal_eq_of h hv.2.1 hv.2.2.1 hv.2.2.2.1

/-! ## Unmarshal reads the documented layout -/

theorem sliceFrom_append (pre rest spare : List Byte) (z : Int) (hz : z = (pre.length : Int)) :
    Slice.sliceFrom ⟨pre ++ rest, spare⟩ z = some ⟨rest, spare⟩ := by
  subst hz
  simp [Slice.sliceFrom, Slice.len]

theorem Uint16_LE16 (v : Nat) (rest : List Byte) (hv : v < 2 ^ 16) :
    Uint16 (LE16 v ++ rest) = some v := by
  simp only [LE16, Uint16, List.cons_append, List.nil_append, byte_val]
  rw [lor_shiftLeft _ _ _ (by omega)]
  congr 1
  omega

theorem Uint32_LE32 (v : Nat) (rest : List Byte) (hv : v < 2 ^ 32) :
    Uint32 (LE32 v ++ rest) = some v := by
  simp only [LE32, Uint32, List.cons_append, List.nil_append, byte_val]
  rw [lor_shiftLeft _ _ 8 (by omega), lor_shiftLeft _ _ 16 (by omega),
    lor_shiftLeft _ _ 24 (by omega)]
  congr 1
  omega

theorem toInt64_of_lt {x : Nat} (h : x < 2 ^ 63) : toInt64 x = (x : Int) := by
  have h2 : x % 2 ^ 64 = x := Nat.mod_eq_of_lt (by omega)
  simp only [toInt64, h2]
  rw [if_pos h]

theorem wrapInt64_of_lt {z : Int} (h0 : 0 ≤ z) (h : z < 2 ^ 63) : wrapInt64 z = z := by
  have h2 : z % 2 ^ 64 = z := Int.emod_eq_of_lt h0 (by omega)
  have h3 : z.toNat < 2 ^ 63 := by omega
  rw [wrapInt64, h2, toInt64_of_lt h3]
  omega

theorem readString_layout (str rest spare : List Byte) (hs : str.length + 10 < 2 ^ 63) :
    readString ⟨uvarint str.length ++ str ++ rest, spare⟩ =
      some (str, (((uvarint str.length).length + str.length : Nat) : Int)) := by
  have ha := uvarint_length_le 8 str.length (by norm_num; omega)
  simp only [readString]
  rw [List.append_assoc, Uvarint_uvarint _ _ (by omega)]
  simp only []
  rw [toInt64_of_lt (by omega), wrapInt64_of_lt (by omega) (by omega)]
  simp only [Slice.sliceRange, Slice.cap]
  rw [if_pos (by simp; omega)]
  have : (((uvarint str.length).length : Int) + (str.length : Int)).toNat -
      ((uvarint str.length).length : Int).toNat = str.length := by omega
  rw [this]
  simp

theorem RequestHeader.Unmarshal_layout (r h : RequestHeader) (hv : h.valid)
    (spare : List Byte) :
    r.Unmarshal ⟨requestLayout h, spare⟩ = (h, none) := by
  obtain ⟨hct, hL, hid, hrl, hck⟩ := hv
  simp only [MaxHeaderSize] at hL
  have hlen : (Slice.mk (requestLayout h) spare).len ≠ 0 := by
    simp [Slice.len, requestLayout, LE16_length]
  simp only [RequestHeader.Unmarshal]
  rw [if_neg hlen]
  have s0 : (Slice.sliceFrom ⟨requestLayout h, spare⟩ 0).bind (fun d => Uint16 d.elems) =
      some h.CompressType := by
    have := sliceFrom_append [] (requestLayout h) spare 0 rfl
    rw [List.nil_append] at this
    rw [this]
    simp only [Option.some_bind, requestLayout, List.append_assoc]
    exact Uint16_LE16 _ _ hct
  rw [s0]
  simp only []
  have s1 : (Slice.sliceFrom ⟨requestLayout h, spare⟩ ((Uint16Size : Nat) : Int)).bind readString =
      some (h.Method, (((uvarint h.Method.length).length + h.Method.length : Nat) : Int)) := by
    have e : requestLayout h = LE16 h.CompressType ++ (uvarint h.Method.length ++ h.Method ++
        (uvarint h.ID ++ uvarint h.RequestLen ++ LE32 h.Checksum)) := by
      simp [requestLayout, List.append_assoc]
    rw [e, sliceFrom_append _ _ _ _ (by simp [LE16_length, Uint16Size])]
    simp only [Option.some_bind]
    exact readString_layout _ _ _ (by omega)
  rw [s1]
  simp only []
  have s2 : Slice.sliceFrom ⟨requestLayout h, spare⟩
      (((Uint16Size : Nat) : Int) +
        (((uvarint h.Method.length).length + h.Method.length : Nat) : Int)) =
      some ⟨uvarint h.ID ++ (uvarint h.RequestLen ++ LE32 h.Checksum), spare⟩ := by
    have e : requestLayout h = (LE16 h.CompressType ++ uvarint h.Method.length ++ h.Method) ++
        (uvarint h.ID ++ (uvarint h.RequestLen ++ LE32 h.Checksum)) := by
      simp [requestLayout, List.append_assoc]
    rw [e, sliceFrom_append _ _ _ _ (by simp [LE16_length, Uint16Size])]
  rw [s2]
  simp only []
  rw [Uvarint_uvarint _ _ hid]
  simp only []
  have s3 : Slice.sliceFrom ⟨requestLayout h, spare⟩
      (((Uint16Size : Nat) : Int) +
        (((uvarint h.Method.length).length + h.Method.length : Nat) : Int) +
        (((uvarint h.ID).length : Nat) : Int)) =
      some ⟨uvarint h.RequestLen ++ LE32 h.Checksum, spare⟩ := by
    have e : requestLayout h = (LE16 h.CompressType ++ uvarint h.Method.length ++ h.Method ++
        uvarint h.ID) ++ (uvarint h.RequestLen ++ LE32 h.Checksum) := by
      simp [requestLayout, List.append_assoc]
    rw [e, sliceFrom_append _ _ _ _ (by simp [LE16_length, Uint16Size]; omega)]
  rw [s3]
  simp only []
  rw [Uvarint_uvarint _ _ (lt_of_lt_of_le hrl (by norm_num))]
  simp only []
  have s4 : (Slice.sliceFrom ⟨requestLayout h, spare⟩
      (((Uint16Size : Nat) : Int) +
        (((uvarint h.Method.length).length + h.Method.length : Nat) : Int) +
        (((uvarint h.ID).length : Nat) : Int) +
        (((uvarint h.RequestLen).length : Nat) : Int))).bind (fun d => Uint32 d.elems) =
      some h.Checksum := by
    have e : requestLayout h = (LE16 h.CompressType ++ uvarint h.Method.length ++ h.Method ++
        uvarint h.ID ++ uvarint h.RequestLen) ++ (LE32 h.Checksum ++ []) := by
      simp [requestLayout, List.append_assoc]
    rw [e, sliceFrom_append _ _ _ _ (by simp [LE16_length, Uint16Size]; omega)]
    simp only [Option.some_bind]
    exact Uint32_LE32 _ _ hck
  rw [s4]
  simp only [Nat.mod_eq_of_lt hrl]

theorem ResponseHeader.respUnmarshal_layout (r h : ResponseHeader) (hv : h.valid)
    (spare : List Byte) :
    r.Unmarshal ⟨responseLayout h, spare⟩ = (h, none) := by
  obtain ⟨hct, hid, hL, hrl, hck⟩ := hv
  simp only [MaxHeaderSize] at hL
  have hlen : (Slice.mk (responseLayout h) spare).len ≠ 0 := by
    simp [Slice.len, responseLayout, LE16_length]
  simp only [ResponseHeader.Unmarshal]
  rw [if_neg hlen]
  have s0 : (Slice.sliceFrom ⟨responseLayout h, spare⟩ 0).bind (fun d => Uint16 d.elems) =
      some h.CompressType := by
    have := sliceFrom_append [] (responseLayout h) spare 0 rfl
    rw [List.nil_append] at this
    rw [this]
    simp only [Option.some_bind, responseLayout, List.append_assoc]
    exact Uint16_LE16 _ _ hct
  rw [s0]
  simp only []
  have s1 : Slice.sliceFrom ⟨responseLayout h, spare⟩ ((Uint16Size : Nat) : Int) =
      some ⟨uvarint h.ID ++ (uvarint h.Error.length ++ h.Error ++
        (uvarint h.ResponseLen ++ LE32 h.Checksum)), spare⟩ := by
    have e : responseLayout h = LE16 h.CompressType ++ (uvarint h.ID ++
        (uvarint h.Error.length ++ h.Error ++ (uvarint h.ResponseLen ++ LE32 h.Checksum))) := by
      simp [responseLayout, List.append_assoc]
    rw [e, sliceFrom_append _ _ _ _ (by simp [LE16_length, Uint16Size])]
  rw [s1]
  simp only []
  rw [Uvarint_uvarint _ _ hid]
  simp only []
  have s2 : (Slice.sliceFrom ⟨responseLayout h, spare⟩
      (((Uint16Size : Nat) : Int) + (((uvarint h.ID).length : Nat) : Int))).bind readString =
      some (h.Error, (((uvarint h.Error.length).length + h.Error.length : Nat) : Int)) := by
    have e : responseLayout h = (LE16 h.CompressType ++ uvarint h.ID) ++
        (uvarint h.Error.length ++ h.Error ++ (uvarint h.ResponseLen ++ LE32 h.Checksum)) := by
      simp [responseLayout, List.append_assoc]
    rw [e, sliceFrom_append _ _ _ _ (by simp [LE16_length, Uint16Size])]
    simp only [Option.some_bind]
    exact readString_layout _ _ _ (by omega)
  rw [s2]
  simp only []
  have s3 : Slice.sliceFrom ⟨responseLayout h, spare⟩
      (((Uint16Size : Nat) : Int) + (((uvarint h.ID).length : Nat) : Int) +
        (((uvarint h.Error.length).length + h.Error.length : Nat) : Int)) =
      some ⟨uvarint h.ResponseLen ++ LE32 h.Checksum, spare⟩ := by
    have e : responseLayout h = (LE16 h.CompressType ++ uvarint h.ID ++ uvarint h.Error.length ++
        h.Error) ++ (uvarint h.ResponseLen ++ LE32 h.Checksum) := by
      simp [responseLayout, List.append_assoc]
    rw [e, sliceFrom_append _ _ _ _ (by simp [LE16_length, Uint16Size]; omega)]
  rw [s3]
  simp only []
  rw [Uvarint_uvarint _ _ (lt_of_lt_of_le hrl (by norm_num))]
  simp only []
  have s4 : (Slice.sliceFrom ⟨responseLayout h, spare⟩
      (((Uint16Size : Nat) : Int) + (((uvarint h.ID).length : Nat) : Int) +
        (((uvarint h.Error.length).length + h.Error.length : Nat) : Int) +
        (((uvarint h.ResponseLen).length : Nat) : Int))).bind (fun d => Uint32 d.elems) =
      some h.Checksum := by
    have e : responseLayout h = (LE16 h.CompressType ++ uvarint h.ID ++ uvarint h.Error.length ++
        h.Error ++ uvarint h.ResponseLen) ++ (LE32 h.Checksum ++ []) := by
      simp [responseLayout, List.append_assoc]
    rw [e, sliceFrom_append _ _ _ _ (by simp [LE16_length, Uint16Size]; omega)]
    simp only [Option.some_bind]
    exact Uint32_LE32 _ _ hck
  rw [s4]
  simp only [Nat.mod_eq_of_lt hrl]

/-! ## Decoding arbitrary input -/

theorem Uvarint_loop_bounds : ∀ (l : List Byte) (i x s : Nat), i ≤ 10 → x < 2 ^ 64 →
    (Uvarint.loop l i x s).1 < 2 ^ 64 ∧ -11 ≤ (Uvarint.loop l i x s).2 ∧
      (Uvarint.loop l i x s).2 ≤ 10 := by
  intro l
  induction l with
  | nil => intro i x s _ _; simp [Uvarint.loop]
  | cons b rest ih =>
    intro i x s hi hx
    simp only [Uvarint.loop, MaxVarintLen64]
    by_cases h10 : i = 10
    · rw [if_pos h10]; subst h10; simp
    · rw [if_neg h10]
      by_cases hb : b.val < 0x80
      · rw [if_pos hb]
        split
        · refine ⟨by simp, ?_, ?_⟩ <;> simp only [] <;> omega
        · refine ⟨Nat.or_lt_two_pow hx (Nat.mod_lt _ (by norm_num)), ?_, ?_⟩ <;>
            simp only [] <;> omega
      · rw [if_neg hb]
        exact ih (i + 1) _ (s + 7) (by omega)
          (Nat.or_lt_two_pow hx (Nat.mod_lt _ (by norm_num)))

theorem Uvarint_bounds (l : List Byte) :
    (Uvarint l).1 < 2 ^ 64 ∧ -11 ≤ (Uvarint l).2 ∧ (Uvarint l).2 ≤ 10 :=
  Uvarint_loop_bounds l 0 0 0 (by omega) (by norm_num)

theorem Uvarint_loop_neg_le : ∀ (l : List Byte) (i x s : Nat),
    0 ≤ (Uvarint.loop l i x s).2 ∨ (Uvarint.loop l i x s).2 ≤ -10 := by
  intro l
  induction l with
  | nil => intro i x s; simp [Uvarint.loop]
  | cons b rest ih =>
    intro i x s
    simp only [Uvarint.loop, MaxVarintLen64]
    split
    · right; simp only []; omega
    · split
      · split
        · right; simp only []; omega
        · left; simp only []; omega
      · exact ih _ _ _

theorem Uvarint_neg_le (l : List Byte) : 0 ≤ (Uvarint l).2 ∨ (Uvarint l).2 ≤ -10 :=
  Uvarint_loop_neg_le l 0 0 0

theorem sliceRange_some {s : Slice} {lo hi : Int} {str : List Byte}
    (h : s.sliceRange lo hi = some str) :
    0 ≤ lo ∧ lo ≤ hi ∧ hi ≤ s.cap ∧ (str.length : Int) = hi - lo := by
  simp only [Slice.sliceRange] at h
  split at h
  · rename_i hc
    obtain ⟨h0, h1, h2⟩ := hc
    simp only [Option.some.injEq] at h
    subst h
    refine ⟨h0, h1, h2, ?_⟩
    simp only [Slice.cap] at h2
    simp only [List.length_take, List.length_drop, List.length_append]
    omega
  · simp at h

theorem toInt64_eq (x : Nat) (hx : x < 2 ^ 64) :
    toInt64 x = if x < 2 ^ 63 then (x : Int) else (x : Int) - 2 ^ 64 := by
  simp only [toInt64, Nat.mod_eq_of_lt hx]

theorem wrapInt64_eq (z : Int) (h1 : -2 ^ 63 ≤ z) (h2 : z < 2 ^ 64) :
    wrapInt64 z = if z < 2 ^ 63 then z else z - 2 ^ 64 := by
  unfold wrapInt64
  have hx : (z % 2 ^ 64).toNat < 2 ^ 64 := by omega
  rw [toInt64_eq _ hx]
  split <;> split <;> omega

theorem readString_some {sub : Slice} {str : List Byte} {n : Int}
    (h : readString sub = some (str, n)) :
    0 ≤ (Uvarint sub.elems).2 ∧ str.length = (Uvarint sub.elems).1 ∧
      n = (Uvarint sub.elems).2 + ((Uvarint sub.elems).1 : Int) ∧
      (Uvarint sub.elems).2 + ((Uvarint sub.elems).1 : Int) ≤ sub.cap := by
  obtain ⟨hv, hlo, hhi⟩ := Uvarint_bounds sub.elems
  simp only [readString] at h
  split at h
  · simp at h
  · rename_i str2 hs
    simp only [Option.some.injEq, Prod.mk.injEq] at h
    obtain ⟨h1, h2⟩ := h
    subst h1
    obtain ⟨h0, hle, hcap, hlen⟩ := sliceRange_some hs
    have hT := toInt64_eq _ hv
    generalize toInt64 (Uvarint sub.elems).1 = T at hT hle hcap hlen
    have hTb : -2 ^ 63 ≤ T ∧ T < 2 ^ 63 := by
      split at hT <;> omega
    have hW := wrapInt64_eq ((Uvarint sub.elems).2 + T) (by omega) (by omega)
    generalize wrapInt64 ((Uvarint sub.elems).2 + T) = Wv at hW hle hcap hlen
    split at hT <;> split at hW <;> omega

theorem sliceFrom_some {d sub : Slice} {z : Int} (h : d.sliceFrom z = some sub) :
    0 ≤ z ∧ z ≤ d.len ∧ sub.elems = d.elems.drop z.toNat ∧ sub.spare = d.spare ∧
      (sub.len : Int) = d.len - z := by
  simp only [Slice.sliceFrom] at h
  split at h
  · rename_i hc
    simp only [Option.some.injEq] at h
    subst h
    refine ⟨hc.1, hc.2, rfl, rfl, ?_⟩
    simp only [Slice.len, List.length_drop] at hc ⊢
    omega
  · simp at h

theorem sliceFrom_none {d : Slice} {z : Int} (h : z < 0 ∨ (d.len : Int) < z) :
    d.sliceFrom z = none := by
  simp only [Slice.sliceFrom]
  rw [if_neg (by omega)]

theorem RequestHeader.Unmarshal_decode (r : RequestHeader) (d : Slice) :
    (r.Unmarshal d).2 = (match RequestHeader.decode d with
      | some _ => none
      | none => some Error.UnmarshalError) ∧
    ∀ h, RequestHeader.decode d = some h → (r.Unmarshal d).1 = h := by
  unfold RequestHeader.Unmarshal RequestHeader.decode
  by_cases h0 : d.len = 0
  · simp [h0]
  · rw [if_neg h0, if_neg h0]
    simp only [Uint16Size, Nat.cast_ofNat]
    rcases (d.sliceFrom 0).bind (fun d0 => Uint16 d0.elems) with _ | ct
    · simp
    · rcases (d.sliceFrom 2).bind readString with _ | ⟨str, size⟩
      · simp
      · simp only [Option.some_bind]
        rcases d.sliceFrom (2 + size) with _ | d1
        · simp
        · simp only [Option.some_bind]
          rcases d.sliceFrom (2 + size + (Uvarint d1.elems).2) with _ | d2
          · simp
          · simp only [Option.some_bind]
            rcases (d.sliceFrom (2 + size + (Uvarint d1.elems).2 + (Uvarint d2.elems).2)).bind
              (fun d3 => Uint32 d3.elems) with _ | ck
            · simp
            · simp

theorem ResponseHeader.respUnmarshal_decode (r : ResponseHeader) (d : Slice) :
    (r.Unmarshal d).2 = (match ResponseHeader.decode d with
      | some _ => none
      | none => some TinyRpc.Error.UnmarshalError) ∧
    ∀ h, ResponseHeader.decode d = some h → (r.Unmarshal d).1 = h := by
  unfold ResponseHeader.Unmarshal ResponseHeader.decode
  by_cases h0 : d.len = 0
  · simp [h0]
  · rw [if_neg h0, if_neg h0]
    simp only [Uint16Size, Nat.cast_ofNat]
    rcases (d.sliceFrom 0).bind (fun d0 => Uint16 d0.elems) with _ | ct
    · simp
    · simp only [Option.some_bind]
      rcases d.sliceFrom 2 with _ | d1
      · simp
      · simp only [Option.some_bind]
        rcases (d.sliceFrom (2 + (Uvarint d1.elems).2)).bind readString with _ | ⟨str, size⟩
        · simp
        · simp only [Option.some_bind]
          rcases d.sliceFrom (2 + (Uvarint d1.elems).2 + size) with _ | d2
          · simp
          · simp only [Option.some_bind]
            rcases (d.sliceFrom (2 + (Uvarint d1.elems).2 + size + (Uvarint d2.elems).2)).bind
              (fun d3 => Uint32 d3.elems) with _ | ck
            · simp
            · simp

theorem RequestHeader.Unmarshal_of_decode_none (r : RequestHeader) (d : Slice)
    (h : RequestHeader.decode d = none) : (r.Unmarshal d).2 = some Error.UnmarshalError := by
  rw [(RequestHeader.Unmarshal_decode r d).1, h]

theorem ResponseHeader.respUnmarshal_of_decode_none (r : ResponseHeader) (d : Slice)
    (h : ResponseHeader.decode d = none) :
    (r.Unmarshal d).2 = some TinyRpc.Error.UnmarshalError := by
  rw [(ResponseHeader.respUnmarshal_decode r d).1, h]

theorem RequestHeader.Unmarshal_of_decode_some (r : RequestHeader) (d : Slice) (h : RequestHeader)
    (hd : RequestHeader.decode d = some h) : r.Unmarshal d = (h, none) := by
  have h1 := (RequestHeader.Unmarshal_decode r d).1
  have h2 := (RequestHeader.Unmarshal_decode r d).2 h hd
  rw [hd] at h1
  exact Prod.ext h2 h1

theorem ResponseHeader.respUnmarshal_of_decode_some (r : ResponseHeader) (d : Slice)
    (h : ResponseHeader) (hd : ResponseHeader.decode d = some h) : r.Unmarshal d = (h, none) := by
  have h1 := (ResponseHeader.respUnmarshal_decode r d).1
  have h2 := (ResponseHeader.respUnmarshal_decode r d).2 h hd
  rw [hd] at h1
  exact Prod.ext h2 h1

theorem RequestHeader.decode_string_overrun (d sub : Slice) (hsub : d.sliceFrom 2 = some sub)
    (hover : (Uvarint sub.elems).2 < 0 ∨
      (sub.len : Int) - (Uvarint sub.elems).2 < ((Uvarint sub.elems).1 : Int)) :
    RequestHeader.decode d = none := by
  unfold RequestHeader.decode
  split
  · rfl
  · rcases (d.sliceFrom 0).bind (fun d0 => Uint16 d0.elems) with _ | ct
    · rfl
    · simp only [Option.some_bind, hsub]
      rcases hr : readString sub with _ | ⟨str, size⟩
      · rfl
      · obtain ⟨h0, _, hn, _⟩ := readString_some hr
        obtain ⟨_, _, _, _, hlen⟩ := sliceFrom_some hsub
        rcases hover with hneg | hover
        · omega
        · simp only [Option.some_bind]
          rw [sliceFrom_none (Or.inr (by omega))]
          rfl

theorem ResponseHeader.respDecode_string_overrun (d d1 sub : Slice) (hd1 : d.sliceFrom 2 = some d1)
    (hsub : d.sliceFrom (2 + (Uvarint d1.elems).2) = some sub)
    (hover : (Uvarint sub.elems).2 < 0 ∨
      (sub.len : Int) - (Uvarint sub.elems).2 < ((Uvarint sub.elems).1 : Int)) :
    ResponseHeader.decode d = none := by
  unfold ResponseHeader.decode
  split
  · rfl
  · rcases (d.sliceFrom 0).bind (fun d0 => Uint16 d0.elems) with _ | ct
    · rfl
    · simp only [Option.some_bind, hd1, hsub]
      rcases hr : readString sub with _ | ⟨str, size⟩
      · rfl
      · obtain ⟨h0, _, hn, _⟩ := readString_some hr
        obtain ⟨_, _, _, _, hlen⟩ := sliceFrom_some hsub
        rcases hover with hneg | hover
        · omega
        · simp only [Option.some_bind]
          rw [sliceFrom_none (Or.inr (by omega))]
          rfl

/-! ## Truncated encodings -/

theorem Uvarint_loop_take (x : Nat) : ∀ (i acc s j : Nat), i + (uvarint x).length ≤ 10 →
    j < (uvarint x).length → Uvarint.loop ((uvarint x).take j) i acc s = (0, 0) := by
  induction x using Nat.strong_induction_on with
  | _ x ih =>
    intro i acc s j hi hj
    rw [uvarint_eq] at hi hj ⊢
    by_cases h128 : x < 128
    · rw [if_pos h128] at hj ⊢
      simp only [List.length_singleton] at hj
      obtain rfl : j = 0 := by omega
      rfl
    · rw [if_neg h128] at hi hj ⊢
      cases j with
      | zero => rfl
      | succ j =>
        simp only [List.length_cons] at hi hj
        have hb : (byte (x % 128 + 128)).val = x % 128 + 128 := byte_val_of_lt (by omega)
        simp only [List.take_succ_cons, Uvarint.loop, MaxVarintLen64]
        have hpos := uvarint_length_pos (x / 128)
        rw [if_neg (by omega), hb, if_neg (by omega)]
        exact ih (x / 128) (by omega) (i + 1) _ _ j (by omega) (by omega)

theorem Uvarint_take (x j : Nat) (hx : x < 2 ^ 64) (hj : j < (uvarint x).length) :
    Uvarint ((uvarint x).take j) = (0, 0) := by
  have hlen := uvarint_length_le 9 x (lt_of_lt_of_le hx (by norm_num))
  exact Uvarint_loop_take x 0 0 0 j (by omega) hj

theorem Uint32_eq_none {l : List Byte} (h : l.length < 4) : Uint32 l = none := by
  match l, h with
  | [], _ => rfl
  | [_], _ => rfl
  | [_, _], _ => rfl
  | [_, _, _], _ => rfl

theorem Uint32_isSome {l : List Byte} (h : 4 ≤ l.length) : (Uint32 l).isSome := by
  match l, h with
  | _ :: _ :: _ :: _ :: _, _ => rfl

theorem readString_stalled (T spare : List Byte) (hT : Uvarint T = (0, 0)) :
    readString ⟨T, spare⟩ = some ([], 0) := by
  simp only [readString, hT]
  have h1 : wrapInt64 (((0 : Int)) + toInt64 0) = 0 := by decide
  simp only [h1, Slice.sliceRange]
  simp

/-- After the two compressType bytes the input ends inside the method-length
varint: all three varints read as `(0, 0)` at the same offset. -/
theorem RequestHeader.decode_cut_methodLen (ct : Nat) (T spare : List Byte) (hct : ct < 2 ^ 16)
    (hT : Uvarint T = (0, 0)) :
    RequestHeader.decode ⟨LE16 ct ++ T, spare⟩ =
      (Uint32 T).map fun ck => ⟨ct, [], 0, 0, ck⟩ := by
  have hlen : (Slice.mk (LE16 ct ++ T) spare).len ≠ 0 := by simp [Slice.len, LE16_length]
  have s0 : Slice.sliceFrom ⟨LE16 ct ++ T, spare⟩ 0 = some ⟨LE16 ct ++ T, spare⟩ := by
    have := sliceFrom_append [] (LE16 ct ++ T) spare 0 rfl
    simpa using this
  have s2 : Slice.sliceFrom ⟨LE16 ct ++ T, spare⟩ 2 = some ⟨T, spare⟩ :=
    sliceFrom_append _ _ _ _ (by simp [LE16_length])
  unfold RequestHeader.decode
  rw [if_neg hlen, s0]
  simp only [Option.some_bind, Uint16_LE16 _ _ hct, s2, readString_stalled T spare hT, hT,
    add_zero]
  simp

/-- The input ends inside the id varint: the id and the requestLen both read as
`(0, 0)` at the offset behind the method. -/
theorem RequestHeader.decode_cut_id (ct : Nat) (M T spare : List Byte) (hct : ct < 2 ^ 16)
    (hM : M.length + 10 < 2 ^ 63) (hT : Uvarint T = (0, 0)) :
    RequestHeader.decode ⟨LE16 ct ++ (uvarint M.length ++ M ++ T), spare⟩ =
      (Uint32 T).map fun ck => ⟨ct, M, 0, 0, ck⟩ := by
  have hlen : (Slice.mk (LE16 ct ++ (uvarint M.length ++ M ++ T)) spare).len ≠ 0 := by
    simp [Slice.len, LE16_length]
  have s0 : Slice.sliceFrom ⟨LE16 ct ++ (uvarint M.length ++ M ++ T), spare⟩ 0 =
      some ⟨LE16 ct ++ (uvarint M.length ++ M ++ T), spare⟩ := by
    have := sliceFrom_append [] (LE16 ct ++ (uvarint M.length ++ M ++ T)) spare 0 rfl
    simpa using this
  have s2 : Slice.sliceFrom ⟨LE16 ct ++ (uvarint M.length ++ M ++ T), spare⟩ 2 =
      some ⟨uvarint M.length ++ M ++ T, spare⟩ :=
    sliceFrom_append _ _ _ _ (by simp [LE16_length])
  have s3 : Slice.sliceFrom ⟨LE16 ct ++ (uvarint M.length ++ M ++ T), spare⟩
      (2 + (((uvarint M.length).length + M.length : Nat) : Int)) = some ⟨T, spare⟩ := by
    have e : LE16 ct ++ (uvarint M.length ++ M ++ T) =
        (LE16 ct ++ uvarint M.length ++ M) ++ T := by simp [List.append_assoc]
    rw [e]
    exact sliceFrom_append _ _ _ _ (by simp [LE16_length])
  unfold RequestHeader.decode
  rw [if_neg hlen, s0]
  simp only [Option.some_bind, Uint16_LE16 _ _ hct, s2, readString_layout M T spare hM, s3, hT,
    add_zero]
  simp

/-- The input ends inside the requestLen varint, which reads as `(0, 0)`. -/
theorem RequestHeader.decode_cut_requestLen (ct id : Nat) (M T spare : List Byte)
    (hct : ct < 2 ^ 16) (hM : M.length + 10 < 2 ^ 63) (hid : id < 2 ^ 64)
    (hT : Uvarint T = (0, 0)) :
    RequestHeader.decode ⟨LE16 ct ++ (uvarint M.length ++ M ++ (uvarint id ++ T)), spare⟩ =
      (Uint32 T).map fun ck => ⟨ct, M, id, 0, ck⟩ := by
  have hlen : (Slice.mk (LE16 ct ++ (uvarint M.length ++ M ++ (uvarint id ++ T))) spare).len ≠ 0 := by
    simp [Slice.len, LE16_length]
  have s0 : Slice.sliceFrom ⟨LE16 ct ++ (uvarint M.length ++ M ++ (uvarint id ++ T)), spare⟩ 0 =
      some ⟨LE16 ct ++ (uvarint M.length ++ M ++ (uvarint id ++ T)), spare⟩ := by
    have := sliceFrom_append [] (LE16 ct ++ (uvarint M.length ++ M ++ (uvarint id ++ T))) spare 0 rfl
    simpa using this
  have s2 : Slice.sliceFrom ⟨LE16 ct ++ (uvarint M.length ++ M ++ (uvarint id ++ T)), spare⟩ 2 =
      some ⟨uvarint M.length ++ M ++ (uvarint id ++ T), spare⟩ :=
    sliceFrom_append _ _ _ _ (by simp [LE16_length])
  have s3 : Slice.sliceFrom ⟨LE16 ct ++ (uvarint M.length ++ M ++ (uvarint id ++ T)), spare⟩
      (2 + (((uvarint M.length).length + M.length : Nat) : Int)) =
      some ⟨uvarint id ++ T, spare⟩ := by
    have e : LE16 ct ++ (uvarint M.length ++ M ++ (uvarint id ++ T)) =
        (LE16 ct ++ uvarint M.length ++ M) ++ (uvarint id ++ T) := by simp [List.append_assoc]
    rw [e]
    exact sliceFrom_append _ _ _ _ (by simp [LE16_length])
  have s4 : Slice.sliceFrom ⟨LE16 ct ++ (uvarint M.length ++ M ++ (uvarint id ++ T)), spare⟩
      (2 + (((uvarint M.length).length + M.length : Nat) : Int) +
        (((uvarint id).length : Nat) : Int)) = some ⟨T, spare⟩ := by
    have e : LE16 ct ++ (uvarint M.length ++ M ++ (uvarint id ++ T)) =
        (LE16 ct ++ uvarint M.length ++ M ++ uvarint id) ++ T := by simp [List.append_assoc]
    rw [e]
    exact sliceFrom_append _ _ _ _ (by simp [LE16_length]; omega)
  unfold RequestHeader.decode
  rw [if_neg hlen, s0]
  simp only [Option.some_bind, Uint16_LE16 _ _ hct, s2, readString_layout M _ spare hM, s3,
    Uvarint_uvarint _ _ hid, s4, hT, add_zero]
  simp

/-- The three varints are complete: what is left is read as the checksum. -/
theorem RequestHeader.decode_cut_checksum (ct id len : Nat) (M T spare : List Byte)
    (hct : ct < 2 ^ 16) (hM : M.length + 10 < 2 ^ 63) (hid : id < 2 ^ 64) (hl : len < 2 ^ 32) :
    RequestHeader.decode
        ⟨LE16 ct ++ (uvarint M.length ++ M ++ (uvarint id ++ (uvarint len ++ T))), spare⟩ =
      (Uint32 T).map fun ck => ⟨ct, M, id, len, ck⟩ := by
  have hl64 : len < 2 ^ 64 := lt_of_lt_of_le hl (by norm_num)
  have hlen : (Slice.mk
      (LE16 ct ++ (uvarint M.length ++ M ++ (uvarint id ++ (uvarint len ++ T)))) spare).len ≠ 0 := by
    simp [Slice.len, LE16_length]
  have s0 : Slice.sliceFrom
      ⟨LE16 ct ++ (uvarint M.length ++ M ++ (uvarint id ++ (uvarint len ++ T))), spare⟩ 0 =
      some ⟨LE16 ct ++ (uvarint M.length ++ M ++ (uvarint id ++ (uvarint len ++ T))), spare⟩ := by
    have := sliceFrom_append []
      (LE16 ct ++ (uvarint M.length ++ M ++ (uvarint id ++ (uvarint len ++ T)))) spare 0 rfl
    simpa using this
  have s2 : Slice.sliceFrom
      ⟨LE16 ct ++ (uvarint M.length ++ M ++ (uvarint id ++ (uvarint len ++ T))), spare⟩ 2 =
      some ⟨uvarint M.length ++ M ++ (uvarint id ++ (uvarint len ++ T)), spare⟩ :=
    sliceFrom_append _ _ _ _ (by simp [LE16_length])
  have s3 : Slice.sliceFrom
      ⟨LE16 ct ++ (uvarint M.length ++ M ++ (uvarint id ++ (uvarint len ++ T))), spare⟩
      (2 + (((uvarint M.length).length + M.length : Nat) : Int)) =
      some ⟨uvarint id ++ (uvarint len ++ T), spare⟩ := by
    have e : LE16 ct ++ (uvarint M.length ++ M ++ (uvarint id ++ (uvarint len ++ T))) =
        (LE16 ct ++ uvarint M.length ++ M) ++ (uvarint id ++ (uvarint len ++ T)) := by
      simp [List.append_assoc]
    rw [e]
    exact sliceFrom_append _ _ _ _ (by simp [LE16_length])
  have s4 : Slice.sliceFrom
      ⟨LE16 ct ++ (uvarint M.length ++ M ++ (uvarint id ++ (uvarint len ++ T))), spare⟩
      (2 + (((uvarint M.length).length + M.length : Nat) : Int) +
        (((uvarint id).length : Nat) : Int)) = some ⟨uvarint len ++ T, spare⟩ := by
    have e : LE16 ct ++ (uvarint M.length ++ M ++ (uvarint id ++ (uvarint len ++ T))) =
        (LE16 ct ++ uvarint M.length ++ M ++ uvarint id) ++ (uvarint len ++ T) := by
      simp [List.append_assoc]
    rw [e]
    exact sliceFrom_append _ _ _ _ (by simp [LE16_length]; omega)
  have s5 : Slice.sliceFrom
      ⟨LE16 ct ++ (uvarint M.length ++ M ++ (uvarint id ++ (uvarint len ++ T))), spare⟩
      (2 + (((uvarint M.length).length + M.length : Nat) : Int) +
        (((uvarint id).length : Nat) : Int) + (((uvarint len).length : Nat) : Int)) =
      some ⟨T, spare⟩ := by
    have e : LE16 ct ++ (uvarint M.length ++ M ++ (uvarint id ++ (uvarint len ++ T))) =
        (LE16 ct ++ uvarint M.length ++ M ++ uvarint id ++ uvarint len) ++ T := by
      simp [List.append_assoc]
    rw [e]
    exact sliceFrom_append _ _ _ _ (by simp [LE16_length]; omega)
  unfold RequestHeader.decode
  rw [if_neg hlen, s0]
  simp only [Option.some_bind, Uint16_LE16 _ _ hct, s2, readString_layout M _ spare hM, s3,
    Uvarint_uvarint _ _ hid, s4, Uvarint_uvarint _ _ hl64, s5, Nat.mod_eq_of_lt hl]

theorem take_append_le (l1 l2 : List Byte) (n : Nat) (h : n ≤ l1.length) :
    (l1 ++ l2).take n = l1.take n := by
  rw [List.take_append_eq_append_take]
  simp [Nat.sub_eq_zero_of_le h]

theorem take_append_ge (l1 l2 : List Byte) (n : Nat) (h : l1.length ≤ n) :
    (l1 ++ l2).take n = l1 ++ l2.take (n - l1.length) := by
  rw [List.take_append_eq_append_take, List.take_of_length_le h]

theorem Uint32_eq_none_iff (l : List Byte) : Uint32 l = none ↔ l.length < 4 := by
  constructor
  · intro h
    by_contra hc
    have := Uint32_isSome (l := l) (by omega)
    rw [h] at this
    simp at this
  · exact Uint32_eq_none

theorem RequestHeader.Unmarshal_error_iff (r : RequestHeader) (d : Slice) :
    (r.Unmarshal d).2 = some Error.UnmarshalError ↔ RequestHeader.decode d = none := by
  rw [(RequestHeader.Unmarshal_decode r d).1]
  cases RequestHeader.decode d <;> simp

theorem RequestHeader.decode_short (l spare : List Byte) (h : l.length < 2) :
    RequestHeader.decode ⟨l, spare⟩ = none := by
  unfold RequestHeader.decode
  split
  · rfl
  · have s0 : Slice.sliceFrom ⟨l, spare⟩ 0 = some ⟨l, spare⟩ := by
      have := sliceFrom_append [] l spare 0 rfl
      simpa using this
    have hu : Uint16 l = none := by
      match l, h with
      | [], _ => rfl
      | [_], _ => rfl
    rw [s0]
    simp [hu]

theorem RequestHeader.truncated_iff (h r : RequestHeader) (hv : h.valid) (k : Nat)
    (hk : k < (requestLayout h).length) (spare : List Byte) :
    (r.Unmarshal ⟨(requestLayout h).take k, spare⟩).2 = some Error.UnmarshalError ↔
      ¬ h.cutInsideVarint k := by
  obtain ⟨hct, hL, hid, hrl, hck⟩ := hv
  simp only [MaxHeaderSize] at hL
  have hrl64 : h.RequestLen < 2 ^ 64 := lt_of_lt_of_le hrl (by norm_num)
  have ha := uvarint_length_pos h.Method.length
  have hb := uvarint_length_pos h.ID
  have hc := uvarint_length_pos h.RequestLen
  have e : requestLayout h = LE16 h.CompressType ++ (uvarint h.Method.length ++ h.Method ++
      (uvarint h.ID ++ (uvarint h.RequestLen ++ LE32 h.Checksum))) := by
    simp [requestLayout, List.append_assoc]
  have hlen : (requestLayout h).length = 2 + (uvarint h.Method.length).length + h.Method.length +
      (uvarint h.ID).length + (uvarint h.RequestLen).length + 4 := by
    simp [requestLayout, LE16_length, LE32_length]; omega
  rw [hlen] at hk
  rw [RequestHeader.Unmarshal_error_iff, e]
  simp only [RequestHeader.cutInsideVarint]
  by_cases h2 : k < 2
  · rw [RequestHeader.decode_short _ _ (by simp; omega)]
    simp only [true_iff]
    omega
  · rw [take_append_ge _ _ _ (by simp [LE16_length]; omega), LE16_length]
    by_cases hk1 : k - 2 < (uvarint h.Method.length).length
    · rw [List.append_assoc, take_append_le _ _ _ (by omega),
        RequestHeader.decode_cut_methodLen _ _ _ hct
          (Uvarint_take _ _ (by omega) hk1)]
      simp only [Option.map_eq_none', Uint32_eq_none_iff, List.length_take]
      omega
    · by_cases hk2 : k - 2 < (uvarint h.Method.length).length + h.Method.length
      · rw [take_append_le _ _ _ (by simp; omega),
          take_append_ge _ _ _ (by omega)]
        rw [RequestHeader.decode_string_overrun _
          ⟨uvarint h.Method.length ++ List.take (k - 2 - (uvarint h.Method.length).length) h.Method,
            spare⟩ (sliceFrom_append _ _ _ _ (by simp [LE16_length]))]
        · simp only [true_iff]
          omega
        · right
          rw [Uvarint_uvarint _ _ (by omega)]
          simp only [Slice.len, List.length_append, List.length_take]
          omega
      · rw [take_append_ge _ _ _ (by simp; omega)]
        simp only [List.length_append]
        by_cases hk3 : k - 2 - ((uvarint h.Method.length).length + h.Method.length) <
            (uvarint h.ID).length
        · rw [take_append_le _ _ _ (by omega),
            RequestHeader.decode_cut_id _ _ _ _ hct (by omega)
              (Uvarint_take _ _ hid hk3)]
          simp only [Option.map_eq_none', Uint32_eq_none_iff, List.length_take]
          omega
        · rw [take_append_ge _ _ _ (by omega)]
          by_cases hk4 : k - 2 - ((uvarint h.Method.length).length + h.Method.length) -
              (uvarint h.ID).length < (uvarint h.RequestLen).length
          · rw [take_append_le _ _ _ (by omega),
              RequestHeader.decode_cut_requestLen _ _ _ _ _ hct (by omega) hid
                (Uvarint_take _ _ hrl64 hk4)]
            simp only [Option.map_eq_none', Uint32_eq_none_iff, List.length_take]
            omega
          · rw [take_append_ge _ _ _ (by omega),
              RequestHeader.decode_cut_checksum _ _ _ _ _ _ hct (by omega) hid hrl]
            simp only [Option.map_eq_none', Uint32_eq_none_iff, List.length_take, LE32_length]
            omega

/-! ## Malformed varints -/

theorem Uint16_isSome {l : List Byte} (h : 2 ≤ l.length) : (Uint16 l).isSome := by
  match l, h with
  | _ :: _ :: _, _ => rfl

theorem RequestHeader.decode_head (d sub : Slice) (hsub : d.sliceFrom 2 = some sub) :
    d.len ≠ 0 ∧ ∃ ct, ((d.sliceFrom 0).bind fun d0 => Uint16 d0.elems) = some ct := by
  obtain ⟨_, h2, _, _, _⟩ := sliceFrom_some hsub
  have hlen : 2 ≤ d.elems.length := by
    simp only [Slice.len] at h2; omega
  refine ⟨by simp only [Slice.len]; omega, ?_⟩
  have s0 : d.sliceFrom 0 = some d := by
    have := sliceFrom_append [] d.elems d.spare 0 rfl
    simpa using this
  rw [s0]
  simp only [Option.some_bind]
  exact Option.isSome_iff_exists.mp (Uint16_isSome hlen)

theorem RequestHeader.decode_bad_id (d sub sub1 : Slice) (str : List Byte) (size : Int)
    (hsub : d.sliceFrom 2 = some sub) (hr : readString sub = some (str, size))
    (hsub1 : d.sliceFrom (2 + size) = some sub1)
    (hneg : 2 + size + (Uvarint sub1.elems).2 < 0) :
    RequestHeader.decode d = none := by
  obtain ⟨hlen, ct, hct⟩ := RequestHeader.decode_head d sub hsub
  unfold RequestHeader.decode
  rw [if_neg hlen, hct]
  simp only [Option.some_bind, hsub, hr, hsub1]
  rw [sliceFrom_none (Or.inl hneg)]
  rfl

theorem RequestHeader.decode_bad_requestLen (d sub sub1 sub2 : Slice) (str : List Byte)
    (size : Int) (hsub : d.sliceFrom 2 = some sub) (hr : readString sub = some (str, size))
    (hsub1 : d.sliceFrom (2 + size) = some sub1)
    (hsub2 : d.sliceFrom (2 + size + (Uvarint sub1.elems).2) = some sub2)
    (hbad : (Uvarint sub2.elems).2 < 0) :
    RequestHeader.decode d = none ↔
      2 + size + (Uvarint sub1.elems).2 + (Uvarint sub2.elems).2 < 0 := by
  obtain ⟨hlen, ct, hct⟩ := RequestHeader.decode_head d sub hsub
  obtain ⟨_, hlo, _⟩ := Uvarint_bounds sub2.elems
  have hv : (Uvarint sub2.elems).2 ≤ -10 := by
    have hb := Uvarint_neg_le sub2.elems
    omega
  unfold RequestHeader.decode
  rw [if_neg hlen, hct]
  simp only [Option.some_bind, hsub, hr, hsub1, hsub2]
  by_cases hneg : 2 + size + (Uvarint sub1.elems).2 + (Uvarint sub2.elems).2 < 0
  · rw [sliceFrom_none (Or.inl hneg)]
    simp [hneg]
  · obtain ⟨_, hle, _, _, _⟩ := sliceFrom_some hsub2
    have hs : d.sliceFrom (2 + size + (Uvarint sub1.elems).2 + (Uvarint sub2.elems).2) =
        some ⟨d.elems.drop
          (2 + size + (Uvarint sub1.elems).2 + (Uvarint sub2.elems).2).toNat, d.spare⟩ := by
      simp only [Slice.sliceFrom]
      rw [if_pos (by omega)]
    rw [hs]
    simp only [Option.some_bind, Option.map_eq_none', hneg, iff_false]
    have h4 := Uint32_isSome (l := d.elems.drop
      (2 + size + (Uvarint sub1.elems).2 + (Uvarint sub2.elems).2).toNat) (by
        simp only [List.length_drop, Slice.len] at hle ⊢
        omega)
    intro hc
    rw [hc] at h4
    simp at h4

theorem LE16_mod (v : Nat) : LE16 (v % 2 ^ 16) = LE16 v := by
  simp only [LE16, List.cons.injEq, and_true]
  constructor <;> apply Fin.ext <;> simp only [byte_val] <;> omega

theorem LE32_mod (v : Nat) : LE32 (v % 2 ^ 32) = LE32 v := by
  simp only [LE32, List.cons.injEq, and_true]
  refine ⟨?_, ?_, ?_, ?_⟩ <;> apply Fin.ext <;> simp only [byte_val] <;> omega

/-- Decoding the layout of any response header whose varint fields are in
range: the fixed-width fields come back reduced to their width. -/
theorem ResponseHeader.Unmarshal_layout_of (r h : ResponseHeader) (hid : h.ID < 2 ^ 64)
    (hL : MaxHeaderSize + h.Error.length < 2 ^ 63) (hrl : h.ResponseLen < 2 ^ 32)
    (spare : List Byte) :
    r.Unmarshal ⟨responseLayout h, spare⟩ =
      ({ h with CompressType := h.CompressType % 2 ^ 16, Checksum := h.Checksum % 2 ^ 32 },
        none) := by
  have e : responseLayout h = responseLayout
      { h with CompressType := h.CompressType % 2 ^ 16, Checksum := h.Checksum % 2 ^ 32 } := by
    simp only [responseLayout, LE16_mod, LE32_mod]
  rw [e]
  have h16 : h.CompressType % 2 ^ 16 < 2 ^ 16 := Nat.mod_lt _ (by norm_num)
  have h32 : h.Checksum % 2 ^ 32 < 2 ^ 32 := Nat.mod_lt _ (by norm_num)
  exact ResponseHeader.respUnmarshal_layout r
    { h with CompressType := h.CompressType % 2 ^ 16, Checksum := h.Checksum % 2 ^ 32 }
    ⟨h16, hid, hL, hrl, h32⟩ spare

theorem RequestHeader.decode_ID_lt {d : Slice} {h : RequestHeader}
    (hd : RequestHeader.decode d = some h) : h.ID < 2 ^ 64 := by
  unfold RequestHeader.decode at hd
  split at hd
  · simp at hd
  · simp only [Option.bind_eq_some, Option.map_eq_some'] at hd
    obtain ⟨ct, _, strSize, _, d1, _, d2, _, ck, _, rfl⟩ := hd
    exact (Uvarint_bounds d1.elems).1

theorem RequestHeader.Unmarshal_ID_lt {r h : RequestHeader} {d : Slice}
    (hu : r.Unmarshal d = (h, none)) : h.ID < 2 ^ 64 := by
  have h1 := (RequestHeader.Unmarshal_decode r d).1
  have h2 := (RequestHeader.Unmarshal_decode r d).2
  rw [hu] at h1 h2
  cases hd : RequestHeader.decode d with
  | none => rw [hd] at h1; simp at h1
  | some h' =>
    have := h2 h' hd
    simp only [] at this
    subst this
    exact RequestHeader.decode_ID_lt hd

/-! ## The server codec -/

section CodecLemmas

variable {V R W : Type}

theorem Pending.delete_eq_of_none (m : Pending) (k : Nat) (h : m k = none) : m.delete k = m := by
  funext j
  simp only [Pending.delete]
  split
  · rename_i hj; rw [hj, h]
  · rfl

theorem Pending.delete_self (m : Pending) (k : Nat) : m.delete k k = none := by
  simp [Pending.delete]

theorem Pending.delete_other (m : Pending) (k j : Nat) (h : j ≠ k) : m.delete k j = m j := by
  simp [Pending.delete, h]

theorem Pending.insert_self (m : Pending) (k v : Nat) : m.insert k v k = some v := by
  simp [Pending.insert]

theorem Pending.insert_other (m : Pending) (k v j : Nat) (h : j ≠ k) : m.insert k v j = m j := by
  simp [Pending.insert, h]

/-- What `WriteResponse` leaves of the codec: the entry of `r.Seq` is gone, the
counter, the held request header and the reader are as before. -/
theorem serverCodec.WriteResponse_state (env : Env V R W) (s : serverCodec R W) (r : Response)
    (param : Option V) :
    (s.WriteResponse env r param).1.pending = s.pending.delete r.Seq ∧
    (s.WriteResponse env r param).1.seq = s.seq ∧
    (s.WriteResponse env r param).1.request = s.request ∧
    (s.WriteResponse env r param).1.r = s.r := by
  unfold serverCodec.WriteResponse
  cases hp : s.pending r.Seq with
  | none => exact ⟨(Pending.delete_eq_of_none _ _ hp).symm, rfl, rfl, rfl⟩
  | some id =>
    simp only []
    cases env.Compressors s.request.CompressType with
    | none => exact ⟨rfl, rfl, rfl, rfl⟩
    | some c =>
      simp only []
      split
      · exact ⟨rfl, rfl, rfl, rfl⟩
      · split
        · exact ⟨rfl, rfl, rfl, rfl⟩
        · split
          · exact ⟨rfl, rfl, rfl, rfl⟩
          · split
            · exact ⟨rfl, rfl, rfl, rfl⟩
            · split
              · exact ⟨rfl, rfl, rfl, rfl⟩
              · exact ⟨rfl, rfl, rfl, rfl⟩

theorem serverCodec.ReadRequestBody_state (env : Env V R W) (s : serverCodec R W)
    (param : Option V) :
    (s.ReadRequestBody env param).1.pending = s.pending ∧
    (s.ReadRequestBody env param).1.seq = s.seq ∧
    (s.ReadRequestBody env param).1.request = s.request ∧
    (s.ReadRequestBody env param).1.w = s.w := by
  unfold serverCodec.ReadRequestBody
  cases param with
  | none =>
    simp only []
    split
    · split <;> exact ⟨rfl, rfl, rfl, rfl⟩
    · exact ⟨rfl, rfl, rfl, rfl⟩
  | some target =>
    simp only []
    split
    · exact ⟨rfl, rfl, rfl, rfl⟩
    · split
      · exact ⟨rfl, rfl, rfl, rfl⟩
      · split
        · exact ⟨rfl, rfl, rfl, rfl⟩
        · split <;> exact ⟨rfl, rfl, rfl, rfl⟩

theorem serverCodec.ReadRequestHeader_ok (env : Env V R W) (s : serverCodec R W) (req : Request)
    (data : Slice) (rd : R) (h : RequestHeader)
    (hrecv : env.recvFrame s.r = (Except.ok data, rd))
    (hdec : s.request.ResetHeader.Unmarshal data = (h, none)) :
    s.ReadRequestHeader env req =
      ({ r := rd, w := s.w, request := h, seq := (s.seq + 1) % 2 ^ 64,
         pending := s.pending.insert ((s.seq + 1) % 2 ^ 64) h.ID },
       { req with ServiceMethod := h.Method, Seq := (s.seq + 1) % 2 ^ 64 }, none,
       [Call.recvFrame]) := by
  simp only [serverCodec.ReadRequestHeader, hrecv, hdec]

/-- A call of `ReadRequestHeader` either fails and leaves counter and table as
they were, or succeeds, steps the counter and inserts the new number. -/
theorem serverCodec.ReadRequestHeader_cases (env : Env V R W) (s : serverCodec R W)
    (req : Request) :
    ((s.ReadRequestHeader env req).2.2.1 ≠ none ∧
      (s.ReadRequestHeader env req).1.pending = s.pending ∧
      (s.ReadRequestHeader env req).1.seq = s.seq ∧
      (s.ReadRequestHeader env req).2.1 = req) ∨
    ((s.ReadRequestHeader env req).2.2.1 = none ∧
      (s.ReadRequestHeader env req).1.seq = (s.seq + 1) % 2 ^ 64 ∧
      (s.ReadRequestHeader env req).2.1.Seq = (s.seq + 1) % 2 ^ 64 ∧
      (s.ReadRequestHeader env req).1.pending =
        s.pending.insert ((s.seq + 1) % 2 ^ 64) (s.ReadRequestHeader env req).1.request.ID) := by
  unfold serverCodec.ReadRequestHeader
  simp only []
  split
  · left; exact ⟨by simp, rfl, rfl, rfl⟩
  · split
    · left; exact ⟨by simp, rfl, rfl, rfl⟩
    · right; exact ⟨rfl, rfl, rfl, rfl⟩

theorem serverCodec.step_pending_other (env : Env V R W) (S : Nat) (s : serverCodec R W)
    (op : Op V) (h : s.otherSeq env S op) : (s.step env op).pending S = s.pending S := by
  cases op with
  | ReadRequestHeader req =>
    simp only [serverCodec.step]
    simp only [serverCodec.otherSeq] at h
    rcases serverCodec.ReadRequestHeader_cases env s req with ⟨_, hp, _, _⟩ | ⟨hn, _, hs, hp⟩
    · rw [hp]
    · rw [hp]
      apply Pending.insert_other
      intro hS
      exact h ⟨hn, by rw [hs, hS]⟩
  | ReadRequestBody param =>
    simp only [serverCodec.step]
    rw [(serverCodec.ReadRequestBody_state env s param).1]
  | WriteResponse r param =>
    simp only [serverCodec.step]
    simp only [serverCodec.otherSeq] at h
    rw [(serverCodec.WriteResponse_state env s r param).1]
    exact Pending.delete_other _ _ _ (fun hS => h hS.symm)

theorem serverCodec.run_pending_other (env : Env V R W) (S : Nat) (ops : List (Op V)) :
    ∀ (s : serverCodec R W), serverCodec.allOtherSeq env S s ops →
      (s.run env ops).pending S = s.pending S := by
  induction ops with
  | nil => intro s _; rfl
  | cons op ops ih =>
    intro s h
    obtain ⟨h1, h2⟩ := h
    simp only [serverCodec.run, List.foldl_cons]
    have := ih (s.step env op) h2
    simp only [serverCodec.run] at this
    rw [this, serverCodec.step_pending_other env S s op h1]

/-- Every frame that `WriteResponse` hands to `sendFrame` is the marshalled
response header built from the pending entry of `r.Seq`. -/
theorem serverCodec.WriteResponse_sendFrame (env : Env V R W) (s : serverCodec R W)
    (r : Response) (param : Option V) (payload : List Byte)
    (hmem : Call.sendFrame payload ∈ (s.WriteResponse env r param).2.2) :
    ∃ id z frame, s.pending r.Seq = some id ∧
      (responseHeader s id r z).Marshal = some frame ∧ payload = frame.elems := by
  unfold serverCodec.WriteResponse at hmem
  cases hp : s.pending r.Seq with
  | none => rw [hp] at hmem; simp at hmem
  | some id =>
    rw [hp] at hmem
    simp only [] at hmem
    cases hc : env.Compressors s.request.CompressType with
    | none => rw [hc] at hmem; simp at hmem
    | some c =>
      rw [hc] at hmem
      simp only [] at hmem
      split at hmem
      · rename_i code t hm
        have ht : Call.sendFrame payload ∉ t := by
          split at hm <;> simp only [Prod.mk.injEq] at hm <;> obtain ⟨_, rfl⟩ := hm <;> simp
        exact absurd hmem ht
      · rename_i body t hm
        have ht : Call.sendFrame payload ∉ t := by
          split at hm <;> simp only [Prod.mk.injEq] at hm <;> obtain ⟨_, rfl⟩ := hm <;> simp
        split at hmem
        · simp [ht] at hmem
        · rename_i z hz
          cases hf : (responseHeader { s with pending := s.pending.delete r.Seq } id r z).Marshal with
          | none => rw [hf] at hmem; simp [ht] at hmem
          | some frame =>
            rw [hf] at hmem
            simp only [] at hmem
            refine ⟨id, z, frame, rfl, hf, ?_⟩
            split at hmem
            · simpa [ht] using hmem
            · split at hmem
              · simpa [ht] using hmem
              · simpa [ht] using hmem

/-- A `WriteResponse` that returns nil has handed a frame to `sendFrame`. -/
theorem serverCodec.WriteResponse_nil (env : Env V R W) (s : serverCodec R W)
    (r : Response) (param : Option V)
    (hnil : (s.WriteResponse env r param).2.1 = Outcome.returned none) :
    ∃ payload, Call.sendFrame payload ∈ (s.WriteResponse env r param).2.2 := by
  revert hnil
  unfold serverCodec.WriteResponse
  cases s.pending r.Seq with
  | none => intro hnil; simp at hnil
  | some id =>
    simp only []
    cases env.Compressors s.request.CompressType with
    | none => intro hnil; simp at hnil
    | some c =>
      simp only []
      split
      · intro hnil; simp at hnil
      · split
        · intro hnil; simp at hnil
        · split
          · intro hnil; simp at hnil
          · rename_i frame hf
            intro _
            refine ⟨frame.elems, ?_⟩
            split
            · simp
            · split <;> simp

end CodecLemmas

/-! ## Header round trips and layout -/

/-- C1. Request-header round trip: for every request header `h` whose fields
are in the range of their Go types and for any prior contents `r` of the
target, `h.Marshal()` returns a slice and `r.Unmarshal` of that slice returns
no error and leaves the target with all five fields equal to those of `h`. -/
theorem C1_request_roundtrip (h r : RequestHeader) (hv : h.valid) :
    ∃ data, h.Marshal = some data ∧ (r.Unmarshal data).2 = none ∧
      (r.Unmarshal data).1.CompressType = h.CompressType ∧
      (r.Unmarshal data).1.Method = h.Method ∧
      (r.Unmarshal data).1.ID = h.ID ∧
      (r.Unmarshal data).1.RequestLen = h.RequestLen ∧
      (r.Unmarshal data).1.Checksum = h.Checksum := by
  refine ⟨_, RequestHeader.Marshal_eq h hv, ?_⟩
  rw [RequestHeader.Unmarshal_layout r h hv]
  simp

theorem C1_request_roundtrip_witness :
    RequestHeader.valid ⟨1, [65, 100, 100], 7, 300, 0xCBF43926⟩ ∧
    ∃ data, RequestHeader.Marshal ⟨1, [65, 100, 100], 7, 300, 0xCBF43926⟩ = some data ∧
      (RequestHeader.Unmarshal ⟨9, [1], 9, 9, 9⟩ data).2 = none ∧
      (RequestHeader.Unmarshal ⟨9, [1], 9, 9, 9⟩ data).1.CompressType = 1 ∧
      (RequestHeader.Unmarshal ⟨9, [1], 9, 9, 9⟩ data).1.Method = [65, 100, 100] ∧
      (RequestHeader.Unmarshal ⟨9, [1], 9, 9, 9⟩ data).1.ID = 7 ∧
      (RequestHeader.Unmarshal ⟨9, [1], 9, 9, 9⟩ data).1.RequestLen = 300 ∧
      (RequestHeader.Unmarshal ⟨9, [1], 9, 9, 9⟩ data).1.Checksum = 0xCBF43926 :=
  ⟨by decide, C1_request_roundtrip ⟨1, [65, 100, 100], 7, 300, 0xCBF43926⟩ ⟨9, [1], 9, 9, 9⟩
    (by decide)⟩

/-- C2. Response-header round trip: for every response header `h` whose fields
are in the range of their Go types and for any prior contents `r` of the
target, `h.Marshal()` returns a slice and `r.Unmarshal` of that slice returns
no error and leaves the target with all five fields equal to those of `h`. -/
theorem C2_response_roundtrip (h r : ResponseHeader) (hv : h.valid) :
    ∃ data, h.Marshal = some data ∧ (r.Unmarshal data).2 = none ∧
      (r.Unmarshal data).1.CompressType = h.CompressType ∧
      (r.Unmarshal data).1.ID = h.ID ∧
      (r.Unmarshal data).1.Error = h.Error ∧
      (r.Unmarshal data).1.ResponseLen = h.ResponseLen ∧
      (r.Unmarshal data).1.Checksum = h.Checksum := by
  refine ⟨_, ResponseHeader.respMarshal_eq h hv, ?_⟩
  rw [ResponseHeader.respUnmarshal_layout r h hv]
  simp

theorem C2_response_roundtrip_witness :
    ResponseHeader.valid ⟨1, 7, [111, 111, 112, 115], 300, 0xCBF43926⟩ ∧
    ∃ data, ResponseHeader.Marshal ⟨1, 7, [111, 111, 112, 115], 300, 0xCBF43926⟩ = some data ∧
      (ResponseHeader.Unmarshal ⟨9, 9, [1], 9, 9⟩ data).2 = none ∧
      (ResponseHeader.Unmarshal ⟨9, 9, [1], 9, 9⟩ data).1.CompressType = 1 ∧
      (ResponseHeader.Unmarshal ⟨9, 9, [1], 9, 9⟩ data).1.ID = 7 ∧
      (ResponseHeader.Unmarshal ⟨9, 9, [1], 9, 9⟩ data).1.Error = [111, 111, 112, 115] ∧
      (ResponseHeader.Unmarshal ⟨9, 9, [1], 9, 9⟩ data).1.ResponseLen = 300 ∧
      (ResponseHeader.Unmarshal ⟨9, 9, [1], 9, 9⟩ data).1.Checksum = 0xCBF43926 :=
  ⟨by decide, C2_response_roundtrip ⟨1, 7, [111, 111, 112, 115], 300, 0xCBF43926⟩
    ⟨9, 9, [1], 9, 9⟩ (by decide)⟩

/-- C9. Marshal is byte-exact to the documented layout: for every request
header and every response header whose fields are in the range of their Go
types, `Marshal` does not panic, the bytes of the returned slice are exactly
the documented layout (little-endian fixed-width fields, unsigned LEB128
varints), and the returned slice together with its spare capacity is the
allocated buffer of `MaxHeaderSize + len(string)` bytes, so the result is at
most that long. -/
theorem C9_marshal_layout (h : RequestHeader) (g : ResponseHeader) (hv : h.valid)
    (gv : g.valid) :
    (∃ data, h.Marshal = some data ∧ data.elems = requestLayout h ∧
      data.elems.length + data.spare.length = MaxHeaderSize + h.Method.length ∧
      data.elems.length ≤ MaxHeaderSize + h.Method.length) ∧
    (∃ data, g.Marshal = some data ∧ data.elems = responseLayout g ∧
      data.elems.length + data.spare.length = MaxHeaderSize + g.Error.length ∧
      data.elems.length ≤ MaxHeaderSize + g.Error.length) := by
  have hreq : (requestLayout h).length ≤ MaxHeaderSize + h.Method.length := by
    obtain ⟨_, hL, hid, hrl, _⟩ := hv
    simp only [MaxHeaderSize] at hL ⊢
    have ha := uvarint_length_le 8 h.Method.length (by norm_num; omega)
    have hb := uvarint_length_le 9 h.ID (lt_of_lt_of_le hid (by norm_num))
    have hc := uvarint_length_le 4 h.RequestLen (lt_of_lt_of_le hrl (by norm_num))
    simp [requestLayout, LE16_length, LE32_length]
    omega
  have hresp : (responseLayout g).length ≤ MaxHeaderSize + g.Error.length := by
    obtain ⟨_, hid, hL, hrl, _⟩ := gv
    simp only [MaxHeaderSize] at hL ⊢
    have ha := uvarint_length_le 8 g.Error.length (by norm_num; omega)
    have hb := uvarint_length_le 9 g.ID (lt_of_lt_of_le hid (by norm_num))
    have hc := uvarint_length_le 4 g.ResponseLen (lt_of_lt_of_le hrl (by norm_num))
    simp [responseLayout, LE16_length, LE32_length]
    omega
  refine ⟨⟨_, RequestHeader.Marshal_eq h hv, rfl, ?_, hreq⟩,
    ⟨_, ResponseHeader.respMarshal_eq g gv, rfl, ?_, hresp⟩⟩
  · simp only [List.length_replicate]; omega
  · simp only [List.length_replicate]; omega

theorem C9_marshal_layout_witness :
    RequestHeader.valid ⟨1, [65, 100, 100], 7, 300, 0xCBF43926⟩ ∧
    ResponseHeader.valid ⟨1, 7, [111, 111, 112, 115], 300, 0xCBF43926⟩ ∧
    (∃ data, RequestHeader.Marshal ⟨1, [65, 100, 100], 7, 300, 0xCBF43926⟩ = some data ∧
      data.elems = requestLayout ⟨1, [65, 100, 100], 7, 300, 0xCBF43926⟩ ∧
      data.elems.length + data.spare.length = MaxHeaderSize + 3 ∧
      data.elems.length ≤ MaxHeaderSize + 3) ∧
    (∃ data, ResponseHeader.Marshal ⟨1, 7, [111, 111, 112, 115], 300, 0xCBF43926⟩ = some data ∧
      data.elems = responseLayout ⟨1, 7, [111, 111, 112, 115], 300, 0xCBF43926⟩ ∧
      data.elems.length + data.spare.length = MaxHeaderSize + 4 ∧
      data.elems.length ≤ MaxHeaderSize + 4) :=
  ⟨by decide, by decide,
    C9_marshal_layout ⟨1, [65, 100, 100], 7, 300, 0xCBF43926⟩
      ⟨1, 7, [111, 111, 112, 115], 300, 0xCBF43926⟩ (by decide) (by decide)⟩

/-- C6 fails on the code.  The request header with an empty method, ID `2 ^ 28`
and zero length and checksum encodes to thirteen bytes; its proper prefix of
seven bytes ends four bytes into the five-byte id varint.  `binary.Uvarint`
reports the unfinished varint as `(0, 0)` and `Unmarshal` does not look at
the count: the id and the requestLen read as zero, the four id bytes present
are taken as the checksum, and the call returns nil instead of
`UnmarshalError`, both on a fresh slice and on the reslice `h.Marshal()[:7]`
of the marshalled buffer. -/
theorem C6_code_evaluation :
    RequestHeader.valid ⟨0, [], 2 ^ 28, 0, 0⟩ ∧
    (RequestHeader.Marshal ⟨0, [], 2 ^ 28, 0, 0⟩).map (fun m => m.elems) =
      some [0, 0, 0, 0x80, 0x80, 0x80, 0x80, 1, 0, 0, 0, 0, 0] ∧
    Uvarint [0x80, 0x80, 0x80, 0x80] = (0, 0) ∧
    RequestHeader.Unmarshal ⟨9, [1], 9, 9, 9⟩ (Slice.ofList [0, 0, 0, 0x80, 0x80, 0x80, 0x80]) =
      (⟨0, [], 0, 0, 0x80808080⟩, none) ∧
    (RequestHeader.Marshal ⟨0, [], 2 ^ 28, 0, 0⟩).map (fun m =>
        RequestHeader.Unmarshal ⟨9, [1], 9, 9, 9⟩ ⟨m.elems.take 7, m.elems.drop 7 ++ m.spare⟩) =
      some (⟨0, [], 0, 0, 0x80808080⟩, none) := by
  decide

/-- The extent of the unchecked count on truncated encodings.  For every
request header `h` in the range of its Go types and every proper prefix of
`h.Marshal()` (cut after `k` bytes, with any spare capacity behind it),
`Unmarshal` returns `UnmarshalError` exactly when the cut does not fall four
or more bytes into an unfinished varint field, and returns nil at the
remaining cuts. -/
theorem RequestHeader.truncated_outcome (h r : RequestHeader) (hv : h.valid) (m : Slice)
    (hm : h.Marshal = some m) (k : Nat) (hk : k < m.elems.length) (spare : List Byte) :
    ((r.Unmarshal ⟨m.elems.take k, spare⟩).2 = some Error.UnmarshalError ↔
      ¬ h.cutInsideVarint k) ∧
    ((r.Unmarshal ⟨m.elems.take k, spare⟩).2 = none ↔ h.cutInsideVarint k) := by
  rw [RequestHeader.Marshal_eq h hv] at hm
  simp only [Option.some.injEq] at hm
  subst hm
  have key := RequestHeader.truncated_iff h r hv k hk spare
  refine ⟨key, ?_⟩
  rcases (RequestHeader.Unmarshal_decode r ⟨(requestLayout h).take k, spare⟩).1 with hd
  constructor
  · intro hnil
    by_contra hc
    rw [key.mpr hc] at hnil
    simp at hnil
  · intro hc
    by_contra hnil
    have : (r.Unmarshal ⟨(requestLayout h).take k, spare⟩).2 = some Error.UnmarshalError := by
      revert hnil
      rw [hd]
      cases RequestHeader.decode ⟨(requestLayout h).take k, spare⟩ <;> simp
    exact key.mp this hc

/-- C7 fails on the code.  In the input below the method-length varint `8` and
the eight method bytes are followed, at the position of the id, by eleven
continuation bytes, which `binary.Uvarint` reports as an overflow `(0, -11)`.
`Unmarshal` does not look at the count and adds it to the offset, which
steps back from 11 to 0; the requestLen is read from the first byte and the
checksum from bytes 1 to 4, and the call returns nil instead of
`UnmarshalError`. -/
theorem C7_code_evaluation :
    Uvarint [0x80, 0x80, 0x80, 0x80, 0x80, 0x80, 0x80, 0x80, 0x80, 0x80, 0x80] = (0, -11) ∧
    RequestHeader.Unmarshal ⟨9, [], 9, 9, 9⟩
      (Slice.ofList [0, 0, 8, 1, 2, 3, 4, 5, 6, 7, 8,
        0x80, 0x80, 0x80, 0x80, 0x80, 0x80, 0x80, 0x80, 0x80, 0x80, 0x80]) =
      (⟨0, [1, 2, 3, 4, 5, 6, 7, 8], 0, 0, 0x02010800⟩, none) := by
  decide

/-- The extent of the unchecked count on overflowing varints, those for which
`binary.Uvarint` reports a negative count `-n` with `n` 10 or 11.  For every
input slice `d`: an overflowing method-length varint yields `UnmarshalError`;
an overflowing id varint yields `UnmarshalError` when it begins fewer than
`n` bytes into the input, so that the offset becomes negative; and behind an
overflowing requestLen varint `Unmarshal` returns `UnmarshalError` exactly
when that varint begins fewer than `n` bytes into the input. -/
theorem RequestHeader.malformed_varint_outcome (r : RequestHeader) (d sub : Slice)
    (hsub : d.sliceFrom 2 = some sub) :
    ((Uvarint sub.elems).2 < 0 → (r.Unmarshal d).2 = some Error.UnmarshalError) ∧
    (∀ (str : List Byte) (size : Int) (sub1 : Slice), readString sub = some (str, size) →
      d.sliceFrom (2 + size) = some sub1 →
      ((Uvarint sub1.elems).2 < 0 → 2 + size + (Uvarint sub1.elems).2 < 0 →
        (r.Unmarshal d).2 = some Error.UnmarshalError) ∧
      (∀ sub2 : Slice, d.sliceFrom (2 + size + (Uvarint sub1.elems).2) = some sub2 →
        (Uvarint sub2.elems).2 < 0 →
        ((r.Unmarshal d).2 = some Error.UnmarshalError ↔
          2 + size + (Uvarint sub1.elems).2 + (Uvarint sub2.elems).2 < 0))) := by
  refine ⟨?_, ?_⟩
  · intro hneg
    exact RequestHeader.Unmarshal_of_decode_none r d
      (RequestHeader.decode_string_overrun d sub hsub (Or.inl hneg))
  · intro str size sub1 hr hsub1
    refine ⟨?_, ?_⟩
    · intro _ hneg
      exact RequestHeader.Unmarshal_of_decode_none r d
        (RequestHeader.decode_bad_id d sub sub1 str size hsub hr hsub1 hneg)
    · intro sub2 hsub2 hbad
      rw [RequestHeader.Unmarshal_error_iff]
      exact RequestHeader.decode_bad_requestLen d sub sub1 sub2 str size hsub hr hsub1 hsub2 hbad

/-- C8. Decode faults are normalized: for every byte slice `d` (any contents,
any spare capacity) both `Unmarshal` methods return either nil or exactly
`UnmarshalError`; for the empty slice the result is `UnmarshalError` with
the target unchanged; and a string-length varint that makes the offset
negative, or that declares more bytes than remain in the slice, yields
`UnmarshalError`. -/
theorem C8_decode_faults_normalized :
    (∀ (r : RequestHeader) (d : Slice),
      (r.Unmarshal d).2 = none ∨ (r.Unmarshal d).2 = some Error.UnmarshalError) ∧
    (∀ (r : ResponseHeader) (d : Slice),
      (r.Unmarshal d).2 = none ∨ (r.Unmarshal d).2 = some Error.UnmarshalError) ∧
    (∀ (r : RequestHeader) (spare : List Byte),
      r.Unmarshal ⟨[], spare⟩ = (r, some Error.UnmarshalError)) ∧
    (∀ (r : ResponseHeader) (spare : List Byte),
      r.Unmarshal ⟨[], spare⟩ = (r, some Error.UnmarshalError)) ∧
    (∀ (r : RequestHeader) (d sub : Slice), d.sliceFrom 2 = some sub →
      ((Uvarint sub.elems).2 < 0 ∨
        (sub.len : Int) - (Uvarint sub.elems).2 < ((Uvarint sub.elems).1 : Int)) →
      (r.Unmarshal d).2 = some Error.UnmarshalError) ∧
    (∀ (r : ResponseHeader) (d d1 sub : Slice), d.sliceFrom 2 = some d1 →
      d.sliceFrom (2 + (Uvarint d1.elems).2) = some sub →
      ((Uvarint sub.elems).2 < 0 ∨
        (sub.len : Int) - (Uvarint sub.elems).2 < ((Uvarint sub.elems).1 : Int)) →
      (r.Unmarshal d).2 = some Error.UnmarshalError) := by
  refine ⟨?_, ?_, ?_, ?_, ?_, ?_⟩
  · intro r d
    rw [(RequestHeader.Unmarshal_decode r d).1]
    cases RequestHeader.decode d <;> simp
  · intro r d
    rw [(ResponseHeader.respUnmarshal_decode r d).1]
    cases ResponseHeader.decode d <;> simp
  · intro r spare
    simp [RequestHeader.Unmarshal, Slice.len]
  · intro r spare
    simp [ResponseHeader.Unmarshal, Slice.len]
  · intro r d sub hsub hover
    exact RequestHeader.Unmarshal_of_decode_none r d
      (RequestHeader.decode_string_overrun d sub hsub hover)
  · intro r d d1 sub hd1 hsub hover
    exact ResponseHeader.respUnmarshal_of_decode_none r d
      (ResponseHeader.respDecode_string_overrun d d1 sub hd1 hsub hover)

theorem C8_decode_faults_normalized_witness :
    (RequestHeader.Unmarshal ⟨9, [1], 9, 9, 9⟩ (Slice.ofList [0, 0, 5, 65, 66])).2 =
        some Error.UnmarshalError ∧
    (ResponseHeader.Unmarshal ⟨9, 9, [1], 9, 9⟩ (Slice.ofList [0, 0, 7, 5, 65, 66])).2 =
        some Error.UnmarshalError :=
  ⟨C8_decode_faults_normalized.2.2.2.2.1 ⟨9, [1], 9, 9, 9⟩ (Slice.ofList [0, 0, 5, 65, 66])
      (Slice.ofList [5, 65, 66]) (by decide) (by decide),
    C8_decode_faults_normalized.2.2.2.2.2 ⟨9, 9, [1], 9, 9⟩ (Slice.ofList [0, 0, 7, 5, 65, 66])
      (Slice.ofList [7, 5, 65, 66]) (Slice.ofList [5, 65, 66]) (by decide) (by decide)
      (by decide)⟩

/-! ## Server codec claims -/

/-- C4. Stale or duplicate write is rejected: when `r.Seq` is not a key of the
pending table, `WriteResponse` returns `InvalidSequenceError`, makes no call to
the serializer, a compressor or the connection, and leaves the codec
(counter and table included) unchanged; and after any `WriteResponse` for a
sequence number, a later `WriteResponse` for the same number returns
`InvalidSequenceError`, whatever calls for other sequence numbers were made in
between. -/
theorem C4_stale_write_rejected {V R W : Type} (env : Env V R W) (s : serverCodec R W)
    (r : Response) (param : Option V) :
    (s.pending r.Seq = none →
      s.WriteResponse env r param =
        (s, Outcome.returned (some Error.InvalidSequenceError), [])) ∧
    (∀ (ops : List (Op V)) (r2 : Response) (param2 : Option V), r2.Seq = r.Seq →
      serverCodec.allOtherSeq env r.Seq (s.WriteResponse env r param).1 ops →
      (((s.WriteResponse env r param).1.run env ops).WriteResponse env r2 param2).2 =
        (Outcome.returned (some Error.InvalidSequenceError), [])) := by
  have key : ∀ (t : serverCodec R W) (q : Response) (p : Option V), t.pending q.Seq = none →
      t.WriteResponse env q p = (t, Outcome.returned (some Error.InvalidSequenceError), []) := by
    intro t q p hp
    simp only [serverCodec.WriteResponse, hp]
  refine ⟨key s r param, ?_⟩
  intro ops r2 param2 hseq hother
  have hp : ((s.WriteResponse env r param).1.run env ops).pending r2.Seq = none := by
    rw [hseq, serverCodec.run_pending_other env _ ops _ hother,
      (serverCodec.WriteResponse_state env s r param).1]
    exact Pending.delete_self _ _
  rw [key _ r2 param2 hp]

theorem C4_stale_write_rejected_witness :
    ((NewServerCodec [frameA, frameB] ([] : List (List Byte))).WriteResponse exampleEnv
        ⟨[], 1, []⟩ (some 5)).2 =
      (Outcome.returned (some Error.InvalidSequenceError), []) ∧
    ((((((NewServerCodec [frameA, frameB] ([] : List (List Byte))).ReadRequestHeader exampleEnv
          ⟨[], 0⟩).1.WriteResponse exampleEnv ⟨[], 1, []⟩ (some 5)).1.run exampleEnv
            [Op.ReadRequestHeader ⟨[], 0⟩]).WriteResponse exampleEnv ⟨[], 1, []⟩ (some 6)).2 =
      (Outcome.returned (some Error.InvalidSequenceError), [])) :=
  ⟨by
      rw [(C4_stale_write_rejected exampleEnv (NewServerCodec [frameA, frameB] []) ⟨[], 1, []⟩
        (some 5)).1 rfl],
    (C4_stale_write_rejected exampleEnv
      ((NewServerCodec [frameA, frameB] []).ReadRequestHeader exampleEnv ⟨[], 0⟩).1 ⟨[], 1, []⟩
      (some 5)).2 [Op.ReadRequestHeader ⟨[], 0⟩] ⟨[], 1, []⟩ (some 6) rfl (by decide)⟩

/-- C5 fails on the code.  Requests A (compressType 0, wire ID 7) and B
(compressType 1, wire ID 8) are read in that order and get the sequence
numbers 1 and 2; both compressors are registered.  The `WriteResponse` for
sequence number 1 then zips the body with compressor 1 and sends a header with
`CompressType = 1`: it reads the compressType from the held request header,
which by then is that of B.  Issued before B is read, the same call uses
compressor 0. -/
theorem C5_code_evaluation :
    ((NewServerCodec [frameA, frameB] ([] : List (List Byte))).ReadRequestHeader exampleEnv
        ⟨[], 0⟩).2.1 = ⟨[65], 1⟩ ∧
    ((NewServerCodec [frameA, frameB] ([] : List (List Byte))).ReadRequestHeader exampleEnv
        ⟨[], 0⟩).1.request.CompressType = 0 ∧
    ((((NewServerCodec [frameA, frameB] ([] : List (List Byte))).ReadRequestHeader exampleEnv
        ⟨[], 0⟩).1.ReadRequestHeader exampleEnv ⟨[], 0⟩).1.WriteResponse exampleEnv
          ⟨[], 1, []⟩ (some 5)).2 =
      (Outcome.returned none,
        [Call.serializerMarshal 5, Call.Zip 1 [5],
          Call.sendFrame [1, 0, 7, 0, 2, 142, 21, 85, 214], Call.write [0x78, 5], Call.Flush]) ∧
    (ResponseHeader.Unmarshal ⟨0, 0, [], 0, 0⟩
        (Slice.ofList [1, 0, 7, 0, 2, 142, 21, 85, 214])).1.CompressType = 1 ∧
    (((NewServerCodec [frameA, frameB] ([] : List (List Byte))).ReadRequestHeader exampleEnv
        ⟨[], 0⟩).1.WriteResponse exampleEnv ⟨[], 1, []⟩ (some 5)).2 =
      (Outcome.returned none,
        [Call.serializerMarshal 5, Call.Zip 0 [5],
          Call.sendFrame [0, 0, 7, 0, 1, 2, 27, 104, 162], Call.write [5], Call.Flush]) := by
  decide

/-- C10. Checksum verification and zero-checksum bypass: when the stream
supplies the body `b` for the held request header, `ReadRequestBody` with a
non-nil target returns `UnexpectedChecksumError` if and only if the header's
`Checksum` is non-zero and differs from the CRC-32 (IEEE) of `b`; with
`Checksum = 0` no body produces that error; and when it is returned the only
calls made are the read and the checksum, so neither `Unzip` nor the
serializer's `Unmarshal` is invoked. -/
theorem C10_checksum_verification {V R W : Type} (env : Env V R W) (s : serverCodec R W)
    (target : V) (b : List Byte) (rd : R)
    (hread : env.read s.r s.request.RequestLen = (Except.ok b, rd)) :
    ((s.ReadRequestBody env (some target)).2.1 = some Error.UnexpectedChecksumError ↔
      (s.request.Checksum ≠ 0 ∧ ChecksumIEEE b ≠ s.request.Checksum)) ∧
    (s.request.Checksum = 0 →
      (s.ReadRequestBody env (some target)).2.1 ≠ some Error.UnexpectedChecksumError) ∧
    ((s.ReadRequestBody env (some target)).2.1 = some Error.UnexpectedChecksumError →
      (s.ReadRequestBody env (some target)).2.2 =
        [Call.read s.request.RequestLen, Call.ChecksumIEEE b]) := by
  have main : ((s.ReadRequestBody env (some target)).2.1 = some Error.UnexpectedChecksumError ↔
      (s.request.Checksum ≠ 0 ∧ ChecksumIEEE b ≠ s.request.Checksum)) ∧
    ((s.request.Checksum ≠ 0 ∧ ChecksumIEEE b ≠ s.request.Checksum) →
      (s.ReadRequestBody env (some target)).2.2 =
        [Call.read s.request.RequestLen, Call.ChecksumIEEE b]) := by
    simp only [serverCodec.ReadRequestBody, hread]
    by_cases hc : s.request.Checksum ≠ 0 ∧ ChecksumIEEE b ≠ s.request.Checksum
    · rw [if_pos hc]
      simp [hc]
    · rw [if_neg hc]
      simp only [hc, iff_false, false_implies, and_true]
      cases env.Compressors s.request.CompressType with
      | none => simp
      | some c =>
        simp only []
        cases c.Unzip b with
        | error code => simp
        | ok req =>
          simp only []
          cases env.serializerUnmarshal req target <;> simp
  refine ⟨main.1, ?_, fun h => main.2 (main.1.mp h)⟩
  intro h0 hc
  exact (main.1.mp hc).1 h0

theorem C10_checksum_verification_witness :
    ((serverCodec.ReadRequestBody exampleEnv
        { r := [[1, 2, 3]], w := ([] : List (List Byte)), request := ⟨0, [65], 7, 3, 5⟩, seq := 1,
          pending := fun _ => none } (some 0)).2.1 = some Error.UnexpectedChecksumError ↔
      ((5 : Nat) ≠ 0 ∧ ChecksumIEEE [1, 2, 3] ≠ 5)) :=
  (C10_checksum_verification exampleEnv
    { r := [[1, 2, 3]], w := ([] : List (List Byte)), request := ⟨0, [65], 7, 3, 5⟩, seq := 1,
      pending := fun _ => none } 0 [1, 2, 3] [] rfl).1

/-! ## CRC-32 -/

theorem crc32Bit_lt {x : Nat} (h : x < 2 ^ 32) : crc32Bit x < 2 ^ 32 := by
  have h1 : x >>> 1 < 2 ^ 32 := by
    rw [Nat.shiftRight_eq_div_pow]; omega
  unfold crc32Bit
  split
  · exact Nat.xor_lt_two_pow h1 (by norm_num)
  · exact h1

theorem xor_poly_ge {a : Nat} (h : a < 2 ^ 31) : 2 ^ 31 ≤ a ^^^ 0xEDB88320 := by
  apply Nat.testBit_implies_ge
  rw [Nat.testBit_xor, Nat.testBit_lt_two_pow h]
  decide

theorem crc32Bit_inj {x y : Nat} (hx : x < 2 ^ 32) (hy : y < 2 ^ 32)
    (h : crc32Bit x = crc32Bit y) : x = y := by
  have hx1 : x >>> 1 = x / 2 := by rw [Nat.shiftRight_eq_div_pow]
  have hy1 : y >>> 1 = y / 2 := by rw [Nat.shiftRight_eq_div_pow]
  unfold crc32Bit at h
  by_cases px : x % 2 = 1 <;> by_cases py : y % 2 = 1
  · rw [if_pos px, if_pos py] at h
    have := Nat.xor_left_inj.mp h
    omega
  · rw [if_pos px, if_neg py] at h
    have := xor_poly_ge (a := x >>> 1) (by omega)
    omega
  · rw [if_neg px, if_pos py] at h
    have := xor_poly_ge (a := y >>> 1) (by omega)
    omega
  · rw [if_neg px, if_neg py] at h
    omega

theorem crc32Byte_lt {s : Nat} (b : Byte) (h : s < 2 ^ 32) : crc32Byte s b < 2 ^ 32 := by
  have hb : b.val < 2 ^ 32 := lt_of_lt_of_le b.isLt (by norm_num)
  have h0 := Nat.xor_lt_two_pow h hb
  unfold crc32Byte
  exact crc32Bit_lt (crc32Bit_lt (crc32Bit_lt (crc32Bit_lt (crc32Bit_lt (crc32Bit_lt
    (crc32Bit_lt (crc32Bit_lt h0)))))))

theorem crc32Byte_inj {s t : Nat} {b c : Byte} (hs : s < 2 ^ 32) (ht : t < 2 ^ 32)
    (h : crc32Byte s b = crc32Byte t c) : s ^^^ b.val = t ^^^ c.val := by
  have hb : b.val < 2 ^ 32 := lt_of_lt_of_le b.isLt (by norm_num)
  have hc : c.val < 2 ^ 32 := lt_of_lt_of_le c.isLt (by norm_num)
  have h0 := Nat.xor_lt_two_pow hs hb
  have k0 := Nat.xor_lt_two_pow ht hc
  have h1 := crc32Bit_lt h0
  have k1 := crc32Bit_lt k0
  have h2 := crc32Bit_lt h1
  have k2 := crc32Bit_lt k1
  have h3 := crc32Bit_lt h2
  have k3 := crc32Bit_lt k2
  have h4 := crc32Bit_lt h3
  have k4 := crc32Bit_lt k3
  have h5 := crc32Bit_lt h4
  have k5 := crc32Bit_lt k4
  have h6 := crc32Bit_lt h5
  have k6 := crc32Bit_lt k5
  have h7 := crc32Bit_lt h6
  have k7 := crc32Bit_lt k6
  unfold crc32Byte at h
  exact crc32Bit_inj h0 k0 (crc32Bit_inj h1 k1 (crc32Bit_inj h2 k2 (crc32Bit_inj h3 k3
    (crc32Bit_inj h4 k4 (crc32Bit_inj h5 k5 (crc32Bit_inj h6 k6 (crc32Bit_inj h7 k7 h)))))))

theorem crc32_foldl_lt : ∀ (l : List Byte) (s : Nat), s < 2 ^ 32 →
    l.foldl crc32Byte s < 2 ^ 32 := by
  intro l
  induction l with
  | nil => intro s h; exact h
  | cons b l ih => intro s h; exact ih _ (crc32Byte_lt b h)

theorem crc32_foldl_inj : ∀ (l : List Byte) (s t : Nat), s < 2 ^ 32 → t < 2 ^ 32 →
    l.foldl crc32Byte s = l.foldl crc32Byte t → s = t := by
  intro l
  induction l with
  | nil => intro s t _ _ h; exact h
  | cons b l ih =>
    intro s t hs ht h
    have := ih _ _ (crc32Byte_lt b hs) (crc32Byte_lt b ht) h
    exact Nat.xor_left_inj.mp (crc32Byte_inj hs ht this)

theorem ChecksumIEEE_lt (data : List Byte) : ChecksumIEEE data < 2 ^ 32 :=
  Nat.xor_lt_two_pow (crc32_foldl_lt data _ (by norm_num)) (by norm_num)

/-- Two byte strings that differ in exactly one byte have different CRC-32
values. -/
theorem ChecksumIEEE_single_byte (pre post : List Byte) (x y : Byte) (hxy : x ≠ y) :
    ChecksumIEEE (pre ++ x :: post) ≠ ChecksumIEEE (pre ++ y :: post) := by
  intro h
  unfold ChecksumIEEE at h
  have h1 := Nat.xor_left_inj.mp h
  simp only [List.foldl_append, List.foldl_cons] at h1
  have hs := crc32_foldl_lt pre 0xFFFFFFFF (by norm_num)
  have h2 := crc32_foldl_inj post _ _ (crc32Byte_lt x hs) (crc32Byte_lt y hs) h1
  have h3 := Nat.xor_right_inj.mp (crc32Byte_inj hs hs h2)
  exact hxy (Fin.ext h3)

/-- Two lists of the same length that differ at position `i` and nowhere else
are a common front and back around two different elements. -/
theorem single_byte_decomp : ∀ (b b2 : List Byte) (i : Nat), b2.length = b.length →
    i < b.length → b[i]? ≠ b2[i]? → (∀ j, j ≠ i → b[j]? = b2[j]?) →
    ∃ pre x y post, b = pre ++ x :: post ∧ b2 = pre ++ y :: post ∧ x ≠ y := by
  intro b
  induction b with
  | nil => intro b2 i _ hi; simp at hi
  | cons x bs ih =>
    intro b2 i hlen hi hdiff hsame
    cases b2 with
    | nil => simp at hlen
    | cons y bs2 =>
      cases i with
      | zero =>
        refine ⟨[], x, y, bs, rfl, ?_, ?_⟩
        · have : bs = bs2 := by
            apply List.ext_getElem?
            intro j
            have := hsame (j + 1) (by omega)
            simpa using this
          rw [this]; rfl
        · intro hxy
          apply hdiff
          simp [hxy]
      | succ i =>
        have hxy : x = y := by
          have := hsame 0 (by omega)
          simpa using this
        obtain ⟨pre, u, v, post, h1, h2, huv⟩ := ih bs2 i (by simpa using hlen)
          (by simpa using hi) (by simpa using hdiff)
          (fun j hj => by
            have := hsame (j + 1) (by omega)
            simpa using this)
        exact ⟨x :: pre, u, v, post, by rw [h1]; rfl, by rw [h2, hxy]; rfl, huv⟩

/-! ## The paths through WriteResponse -/

section Paths

variable {V R W : Type}

/-- `WriteResponse` for a pending sequence number and a registered compressor ends
in one of six ways: the serializer fails, the compressor fails, marshalling the
header panics, `sendFrame` fails, `write` fails, or everything is written and
flushed. -/
theorem serverCodec.WriteResponse_paths (env : Env V R W) (s : serverCodec R W) (r : Response)
    (param : Option V) (id : Nat) (hp : s.pending r.Seq = some id) (c : Compressor)
    (hc : env.Compressors s.request.CompressType = some c) :
    (∃ code, (marshalStep env (effectiveParam r param)).1 = Except.error code ∧
      s.WriteResponse env r param =
        ({ s with pending := s.pending.delete r.Seq }, Outcome.returned (some (Error.other code)),
          (marshalStep env (effectiveParam r param)).2)) ∨
    (∃ body code, (marshalStep env (effectiveParam r param)).1 = Except.ok body ∧
      c.Zip body = Except.error code ∧
      s.WriteResponse env r param =
        ({ s with pending := s.pending.delete r.Seq }, Outcome.returned (some (Error.other code)),
          (marshalStep env (effectiveParam r param)).2 ++
            [Call.Zip s.request.CompressType body])) ∨
    (∃ body z, (marshalStep env (effectiveParam r param)).1 = Except.ok body ∧
      c.Zip body = Except.ok z ∧ (responseHeader s id r z).Marshal = none ∧
      s.WriteResponse env r param =
        ({ s with pending := s.pending.delete r.Seq }, Outcome.panicked,
          (marshalStep env (effectiveParam r param)).2 ++
            [Call.Zip s.request.CompressType body])) ∨
    (∃ body z frame err, (marshalStep env (effectiveParam r param)).1 = Except.ok body ∧
      c.Zip body = Except.ok z ∧ (responseHeader s id r z).Marshal = some frame ∧
      (env.sendFrame s.w frame.elems).1 = some err ∧
      s.WriteResponse env r param =
        ({ s with pending := s.pending.delete r.Seq, w := (env.sendFrame s.w frame.elems).2 },
          Outcome.returned (some err),
          (marshalStep env (effectiveParam r param)).2 ++
            [Call.Zip s.request.CompressType body] ++ [Call.sendFrame frame.elems])) ∨
    (∃ body z frame err, (marshalStep env (effectiveParam r param)).1 = Except.ok body ∧
      c.Zip body = Except.ok z ∧ (responseHeader s id r z).Marshal = some frame ∧
      (env.sendFrame s.w frame.elems).1 = none ∧
      (env.write (env.sendFrame s.w frame.elems).2 z).1 = some err ∧
      s.WriteResponse env r param =
        ({ s with pending := s.pending.delete r.Seq,
                  w := (env.write (env.sendFrame s.w frame.elems).2 z).2 },
          Outcome.returned (some err),
          (marshalStep env (effectiveParam r param)).2 ++
            [Call.Zip s.request.CompressType body] ++ [Call.sendFrame frame.elems] ++
            [Call.write z])) ∨
    (∃ body z frame, (marshalStep env (effectiveParam r param)).1 = Except.ok body ∧
      c.Zip body = Except.ok z ∧ (responseHeader s id r z).Marshal = some frame ∧
      (env.sendFrame s.w frame.elems).1 = none ∧
      (env.write (env.sendFrame s.w frame.elems).2 z).1 = none ∧
      s.WriteResponse env r param =
        ({ s with pending := s.pending.delete r.Seq,
                  w := (env.Flush (env.write (env.sendFrame s.w frame.elems).2 z).2).2 },
          Outcome.returned none,
          (marshalStep env (effectiveParam r param)).2 ++
            [Call.Zip s.request.CompressType body] ++ [Call.sendFrame frame.elems] ++
            [Call.write z] ++ [Call.Flush])) := by
  have hM : ∀ q : Option V, (match q with
      | some v => (env.serializerMarshal v, [Call.serializerMarshal v])
      | none => ((Except.ok [] : Except Nat (List Byte)), ([] : List (Call V)))) =
      marshalStep env q := by
    intro q; cases q <;> rfl
  have hE : (if r.Error ≠ [] then none else param) = effectiveParam r param := rfl
  simp only [serverCodec.WriteResponse, hp, hc, hE, hM]
  rcases hm : marshalStep env (effectiveParam r param) with ⟨mres, tM⟩
  cases mres with
  | error code => left; exact ⟨code, rfl, rfl⟩
  | ok body =>
    right
    simp only []
    cases hz : c.Zip body with
    | error code => left; exact ⟨body, code, rfl, hz, rfl⟩
    | ok z =>
      right
      simp only []
      cases hf : (responseHeader s id r z).Marshal with
      | none =>
        left
        refine ⟨body, z, rfl, hz, hf, ?_⟩
        have hf2 : (responseHeader { s with pending := s.pending.delete r.Seq } id r z).Marshal =
            none := hf
        simp only [hf2]
      | some frame =>
        right
        have hf2 : (responseHeader { s with pending := s.pending.delete r.Seq } id r z).Marshal =
            some frame := hf
        simp only [hf2]
        rcases hs : env.sendFrame s.w frame.elems with ⟨_ | err, w1⟩
        · right
          simp only []
          rcases hw : env.write w1 z with ⟨_ | err, w2⟩
          · right
            refine ⟨body, z, frame, rfl, hz, hf, by rw [hs], by rw [hs, hw], ?_⟩
            simp [hs, hw, List.append_assoc]
          · left
            refine ⟨body, z, frame, err, rfl, hz, hf, by rw [hs], by rw [hs, hw], ?_⟩
            simp [hs, hw, List.append_assoc]
        · left
          refine ⟨body, z, frame, err, rfl, hz, hf, by rw [hs], ?_⟩
          simp [hs, List.append_assoc]

end Paths

/-! ## The frame that WriteResponse sends -/

section Frame

variable {V R W : Type}

/-- The marshalled response header of `WriteResponse` decodes to the fields it
was built from. -/
theorem responseHeader_frame (s : serverCodec R W) (id : Nat) (r : Response) (z : List Byte)
    (frame : Slice) (hid : id < 2 ^ 64) (hErr : MaxHeaderSize + r.Error.length < 2 ^ 63)
    (hf : (responseHeader s id r z).Marshal = some frame) (r0 : ResponseHeader)
    (spare : List Byte) :
    r0.Unmarshal ⟨frame.elems, spare⟩ =
      ({ CompressType := s.request.CompressType % 2 ^ 16, ID := id, Error := r.Error,
         ResponseLen := z.length % 2 ^ 32, Checksum := ChecksumIEEE z }, none) := by
  have hrl : (z.length % 2 ^ 32) < 2 ^ 32 := Nat.mod_lt _ (by norm_num)
  have hid2 : (responseHeader s id r z).ID < 2 ^ 64 := hid
  rw [ResponseHeader.Marshal_eq_of _ hid2 hErr hrl] at hf
  simp only [Option.some.injEq] at hf
  subst hf
  simp only []
  rw [ResponseHeader.Unmarshal_layout_of r0 _ hid2 hErr hrl spare]
  simp only [responseHeader, Nat.mod_eq_of_lt (ChecksumIEEE_lt z)]

theorem marshalStep_none (env : Env V R W) :
    marshalStep env (none : Option V) = (Except.ok [], []) := rfl

theorem marshalStep_some (env : Env V R W) (v : V) :
    marshalStep env (some v) = (env.serializerMarshal v, [Call.serializerMarshal v]) := rfl

theorem effectiveParam_of_error {r : Response} (param : Option V) (h : r.Error ≠ []) :
    effectiveParam r param = none := by
  simp [effectiveParam, h]

/-- With an error string in the descriptor the value plays no part. -/
theorem serverCodec.WriteResponse_of_error (env : Env V R W) (s : serverCodec R W)
    (r : Response) (param : Option V) (h : r.Error ≠ []) :
    s.WriteResponse env r param = s.WriteResponse env r none := by
  simp only [serverCodec.WriteResponse, if_pos h, ite_self]

/-- Once the compressor is found, the value serialized and the body zipped,
`WriteResponse` hands the marshalled header to `sendFrame`, then the body to
`write`, then flushes; the writer it leaves is the one these calls return. -/
theorem serverCodec.WriteResponse_emits (env : Env V R W) (s : serverCodec R W) (r : Response)
    (param : Option V) (id : Nat) (c : Compressor) (body z : List Byte)
    (hp : s.pending r.Seq = some id)
    (hc : env.Compressors s.request.CompressType = some c)
    (hm : (marshalStep env (effectiveParam r param)).1 = Except.ok body)
    (hz : c.Zip body = Except.ok z) (hid : id < 2 ^ 64)
    (hErr : MaxHeaderSize + r.Error.length < 2 ^ 63) :
    ∃ frame : Slice, (responseHeader s id r z).Marshal = some frame ∧
      (∀ err, (env.sendFrame s.w frame.elems).1 = some err →
        s.WriteResponse env r param =
          ({ s with pending := s.pending.delete r.Seq, w := (env.sendFrame s.w frame.elems).2 },
            Outcome.returned (some err),
            (marshalStep env (effectiveParam r param)).2 ++
              [Call.Zip s.request.CompressType body, Call.sendFrame frame.elems])) ∧
      ((env.sendFrame s.w frame.elems).1 = none →
        ∀ err, (env.write (env.sendFrame s.w frame.elems).2 z).1 = some err →
        s.WriteResponse env r param =
          ({ s with pending := s.pending.delete r.Seq,
                    w := (env.write (env.sendFrame s.w frame.elems).2 z).2 },
            Outcome.returned (some err),
            (marshalStep env (effectiveParam r param)).2 ++
              [Call.Zip s.request.CompressType body, Call.sendFrame frame.elems,
                Call.write z])) ∧
      ((env.sendFrame s.w frame.elems).1 = none →
        (env.write (env.sendFrame s.w frame.elems).2 z).1 = none →
        s.WriteResponse env r param =
          ({ s with pending := s.pending.delete r.Seq,
                    w := (env.Flush (env.write (env.sendFrame s.w frame.elems).2 z).2).2 },
            Outcome.returned none,
            (marshalStep env (effectiveParam r param)).2 ++
              [Call.Zip s.request.CompressType body, Call.sendFrame frame.elems,
                Call.write z, Call.Flush])) := by
  have hrl : (z.length % 2 ^ 32) < 2 ^ 32 := Nat.mod_lt _ (by norm_num)
  have hid2 : (responseHeader s id r z).ID < 2 ^ 64 := hid
  have hM := ResponseHeader.Marshal_eq_of (responseHeader s id r z) hid2 hErr hrl
  refine ⟨_, hM, ?_⟩
  rcases serverCodec.WriteResponse_paths env s r param id hp c hc with
    ⟨code, hm2, hw⟩ | ⟨b, code, hm2, hz2, hw⟩ | ⟨b, y, hm2, hz2, hf, hw⟩ |
    ⟨b, y, frame, e1, hm2, hz2, hf, hs, hw⟩ | ⟨b, y, frame, e1, hm2, hz2, hf, hs, hwr, hw⟩ |
    ⟨b, y, frame, hm2, hz2, hf, hs, hwr, hw⟩
  · rw [hm] at hm2; cases hm2
  · rw [hm] at hm2
    obtain rfl := Except.ok.inj hm2
    rw [hz] at hz2; cases hz2
  · rw [hm] at hm2
    obtain rfl := Except.ok.inj hm2
    rw [hz] at hz2
    obtain rfl := Except.ok.inj hz2
    rw [hM] at hf; cases hf
  · rw [hm] at hm2
    obtain rfl := Except.ok.inj hm2
    rw [hz] at hz2
    obtain rfl := Except.ok.inj hz2
    rw [hM] at hf
    obtain rfl := Option.some.inj hf
    refine ⟨?_, ?_, ?_⟩
    · intro err he
      rw [hs] at he
      obtain rfl := Option.some.inj he
      rw [hw]; simp [List.append_assoc]
    · intro hn; rw [hs] at hn; cases hn
    · intro hn; rw [hs] at hn; cases hn
  · rw [hm] at hm2
    obtain rfl := Except.ok.inj hm2
    rw [hz] at hz2
    obtain rfl := Except.ok.inj hz2
    rw [hM] at hf
    obtain rfl := Option.some.inj hf
    refine ⟨?_, ?_, ?_⟩
    · intro err he; rw [hs] at he; cases he
    · intro _ err he
      rw [hwr] at he
      obtain rfl := Option.some.inj he
      rw [hw]; simp [List.append_assoc]
    · intro _ hn; rw [hwr] at hn; cases hn
  · rw [hm] at hm2
    obtain rfl := Except.ok.inj hm2
    rw [hz] at hz2
    obtain rfl := Except.ok.inj hz2
    rw [hM] at hf
    obtain rfl := Option.some.inj hf
    refine ⟨?_, ?_, ?_⟩
    · intro err he; rw [hs] at he; cases he
    · intro _ err he; rw [hwr] at he; cases he
    · intro _ _
      rw [hw]; simp [List.append_assoc]

end Frame

/-! ## Invariants of a run -/

section Invariants

variable {V R W : Type}

theorem serverCodec.run_cons (env : Env V R W) (s : serverCodec R W) (op : Op V)
    (ops : List (Op V)) : s.run env (op :: ops) = (s.step env op).run env ops := rfl

/-- The invariant of the bookkeeping, for any start state whose counter is `n`
and whose keys lie in `1..n`, over a run that does not exhaust the counter. -/
theorem serverCodec.history_inv (env : Env V R W) (ops : List (Op V)) :
    ∀ (s : serverCodec R W) (n : Nat), s.seq = n →
      (∀ k, (s.pending k).isSome → 1 ≤ k ∧ k ≤ n) →
      n + (serverCodec.readSeqs env s ops).length < 2 ^ 64 →
      (s.run env ops).seq = n + (serverCodec.readSeqs env s ops).length ∧
      (∀ k, ((s.run env ops).pending k).isSome →
        1 ≤ k ∧ k ≤ n + (serverCodec.readSeqs env s ops).length) ∧
      serverCodec.readSeqs env s ops =
        List.range' (n + 1) (serverCodec.readSeqs env s ops).length ∧
      serverCodec.staleInserts env s ops = [] ∧
      (serverCodec.removedKeys env s ops).Nodup ∧
      ∀ k ∈ serverCodec.removedKeys env s ops, (s.pending k).isSome ∨ n < k := by
  induction ops with
  | nil =>
    intro s n hs hk _
    simp only [serverCodec.readSeqs, serverCodec.staleInserts, serverCodec.removedKeys,
      serverCodec.run, List.foldl_nil, List.length_nil, Nat.add_zero, List.range'_zero,
      List.nodup_nil, List.not_mem_nil, false_implies, implies_true, and_true, true_and]
    exact ⟨hs, hk⟩
  | cons op ops ih =>
    intro s n hs hk hlt
    rw [serverCodec.run_cons]
    cases op with
    | ReadRequestHeader req =>
      simp only [serverCodec.readSeqs, serverCodec.staleInserts, serverCodec.removedKeys,
        serverCodec.step] at hlt ⊢
      rcases serverCodec.ReadRequestHeader_cases env s req with
        ⟨hne, hp, hsq, _⟩ | ⟨hn, hsq, hq, hp⟩
      · rw [if_neg hne] at hlt ⊢
        rw [if_neg (fun h => hne h.1)]
        simp only [List.nil_append] at hlt ⊢
        have hk2 : ∀ k, ((s.ReadRequestHeader env req).1.pending k).isSome → 1 ≤ k ∧ k ≤ n := by
          intro k; rw [hp]; exact hk k
        obtain ⟨h1, h2, h3, h4, h5, h6⟩ := ih _ n (by rw [hsq, hs]) hk2 hlt
        refine ⟨h1, h2, h3, h4, h5, ?_⟩
        intro k hmem
        have := h6 k hmem
        rw [hp] at this
        exact this
      · rw [if_pos hn] at hlt ⊢
        simp only [List.singleton_append, List.length_cons] at hlt ⊢
        have hmod : (s.seq + 1) % 2 ^ 64 = n + 1 := by
          rw [hs]; exact Nat.mod_eq_of_lt (by omega)
        rw [hmod] at hsq hq hp
        have hfresh : ¬ (s.pending (n + 1)).isSome := by
          intro h; have := (hk _ h).2; omega
        rw [hq, if_neg (fun h => hfresh h.2)]
        simp only [List.nil_append]
        have hk2 : ∀ k, ((s.ReadRequestHeader env req).1.pending k).isSome →
            1 ≤ k ∧ k ≤ n + 1 := by
          intro k
          rw [hp]
          simp only [Pending.insert]
          split
          · intro _; omega
          · intro h; have := hk k h; omega
        obtain ⟨h1, h2, h3, h4, h5, h6⟩ := ih _ (n + 1) hsq hk2 (by omega)
        refine ⟨by rw [h1]; omega, ?_, ?_, h4, h5, ?_⟩
        · intro k hk3
          have := h2 k hk3
          omega
        · rw [List.range'_succ]
          congr 1
        · intro k hmem
          rcases h6 k hmem with h | h
          · rw [hp] at h
            simp only [Pending.insert] at h
            split at h
            · right; omega
            · left; exact h
          · right; omega
    | ReadRequestBody param =>
      simp only [serverCodec.readSeqs, serverCodec.staleInserts, serverCodec.removedKeys,
        serverCodec.step] at hlt ⊢
      obtain ⟨hp, hsq, _, _⟩ := serverCodec.ReadRequestBody_state env s param
      have hk2 : ∀ k, ((s.ReadRequestBody env param).1.pending k).isSome → 1 ≤ k ∧ k ≤ n := by
        intro k; rw [hp]; exact hk k
      obtain ⟨h1, h2, h3, h4, h5, h6⟩ := ih _ n (by rw [hsq, hs]) hk2 hlt
      refine ⟨h1, h2, h3, h4, h5, ?_⟩
      intro k hmem
      have := h6 k hmem
      rw [hp] at this
      exact this
    | WriteResponse r param =>
      simp only [serverCodec.readSeqs, serverCodec.staleInserts, serverCodec.removedKeys,
        serverCodec.step] at hlt ⊢
      obtain ⟨hp, hsq, _, _⟩ := serverCodec.WriteResponse_state env s r param
      have hsub : ∀ k, ((s.WriteResponse env r param).1.pending k).isSome →
          (s.pending k).isSome ∧ k ≠ r.Seq := by
        intro k
        rw [hp]
        simp only [Pending.delete]
        split
        · intro h; simp at h
        · rename_i hne; intro h; exact ⟨h, hne⟩
      have hk2 : ∀ k, ((s.WriteResponse env r param).1.pending k).isSome → 1 ≤ k ∧ k ≤ n :=
        fun k h => hk k (hsub k h).1
      obtain ⟨h1, h2, h3, h4, h5, h6⟩ := ih _ n (by rw [hsq, hs]) hk2 hlt
      refine ⟨h1, h2, h3, h4, ?_, ?_⟩
      · by_cases hin : (s.pending r.Seq).isSome
        · rw [if_pos hin]
          simp only [List.singleton_append, List.nodup_cons]
          refine ⟨?_, h5⟩
          intro hmem
          rcases h6 _ hmem with h | h
          · exact (hsub _ h).2 rfl
          · have := (hk _ hin).2; omega
        · rw [if_neg hin]
          simpa using h5
      · intro k hmem
        simp only [List.mem_append] at hmem
        rcases hmem with hmem | hmem
        · split at hmem
          · rename_i hin
            simp only [List.mem_singleton] at hmem
            subst hmem
            left; exact hin
          · simp at hmem
        · rcases h6 k hmem with h | h
          · left; exact (hsub k h).1
          · right; exact h

end Invariants

/-! ## Lengths beyond 32 bits -/

/-- The three varints are complete and the requestLen varint `B` holds any
64-bit value: the length is reduced modulo `2 ^ 32`. -/
theorem RequestHeader.decode_wide_length (ct id len : Nat) (M B T spare : List Byte)
    (hct : ct < 2 ^ 16) (hM : M.length + 10 < 2 ^ 63) (hid : id < 2 ^ 64) (hB : encodesUvarint B len) :
    RequestHeader.decode
        ⟨LE16 ct ++ (uvarint M.length ++ M ++ (uvarint id ++ (B ++ T))), spare⟩ =
      (Uint32 T).map fun ck => ⟨ct, M, id, len % 2 ^ 32, ck⟩ := by
  have hlen : (Slice.mk
      (LE16 ct ++ (uvarint M.length ++ M ++ (uvarint id ++ (B ++ T)))) spare).len ≠ 0 := by
    simp [Slice.len, LE16_length]
  have s0 : Slice.sliceFrom
      ⟨LE16 ct ++ (uvarint M.length ++ M ++ (uvarint id ++ (B ++ T))), spare⟩ 0 =
      some ⟨LE16 ct ++ (uvarint M.length ++ M ++ (uvarint id ++ (B ++ T))), spare⟩ := by
    have := sliceFrom_append []
      (LE16 ct ++ (uvarint M.length ++ M ++ (uvarint id ++ (B ++ T)))) spare 0 rfl
    simpa using this
  have s2 : Slice.sliceFrom
      ⟨LE16 ct ++ (uvarint M.length ++ M ++ (uvarint id ++ (B ++ T))), spare⟩ 2 =
      some ⟨uvarint M.length ++ M ++ (uvarint id ++ (B ++ T)), spare⟩ :=
    sliceFrom_append _ _ _ _ (by simp [LE16_length])
  have s3 : Slice.sliceFrom
      ⟨LE16 ct ++ (uvarint M.length ++ M ++ (uvarint id ++ (B ++ T))), spare⟩
      (2 + (((uvarint M.length).length + M.length : Nat) : Int)) =
      some ⟨uvarint id ++ (B ++ T), spare⟩ := by
    have e : LE16 ct ++ (uvarint M.length ++ M ++ (uvarint id ++ (B ++ T))) =
        (LE16 ct ++ uvarint M.length ++ M) ++ (uvarint id ++ (B ++ T)) := by
      simp [List.append_assoc]
    rw [e]
    exact sliceFrom_append _ _ _ _ (by simp [LE16_length])
  have s4 : Slice.sliceFrom
      ⟨LE16 ct ++ (uvarint M.length ++ M ++ (uvarint id ++ (B ++ T))), spare⟩
      (2 + (((uvarint M.length).length + M.length : Nat) : Int) +
        (((uvarint id).length : Nat) : Int)) = some ⟨B ++ T, spare⟩ := by
    have e : LE16 ct ++ (uvarint M.length ++ M ++ (uvarint id ++ (B ++ T))) =
        (LE16 ct ++ uvarint M.length ++ M ++ uvarint id) ++ (B ++ T) := by
      simp [List.append_assoc]
    rw [e]
    exact sliceFrom_append _ _ _ _ (by simp [LE16_length]; omega)
  have s5 : Slice.sliceFrom
      ⟨LE16 ct ++ (uvarint M.length ++ M ++ (uvarint id ++ (B ++ T))), spare⟩
      (2 + (((uvarint M.length).length + M.length : Nat) : Int) +
        (((uvarint id).length : Nat) : Int) + (((B).length : Nat) : Int)) =
      some ⟨T, spare⟩ := by
    have e : LE16 ct ++ (uvarint M.length ++ M ++ (uvarint id ++ (B ++ T))) =
        (LE16 ct ++ uvarint M.length ++ M ++ uvarint id ++ B) ++ T := by
      simp [List.append_assoc]
    rw [e]
    exact sliceFrom_append _ _ _ _ (by simp [LE16_length]; omega)
  unfold RequestHeader.decode
  rw [if_neg hlen, s0]
  simp only [Option.some_bind, Uint16_LE16 _ _ hct, s2, readString_layout M _ spare hM, s3,
    Uvarint_uvarint _ _ hid, s4, hB _, s5]

/-- The response encoding with any 64-bit value in the responseLen varint. -/
theorem ResponseHeader.decode_wide_response_length (ct id len : Nat) (E B T spare : List Byte)
    (hct : ct < 2 ^ 16) (hE : E.length + 10 < 2 ^ 63) (hid : id < 2 ^ 64)
    (hB : encodesUvarint B len) :
    ResponseHeader.decode
        ⟨LE16 ct ++ (uvarint id ++ (uvarint E.length ++ E ++ (B ++ T))), spare⟩ =
      (Uint32 T).map fun ck => ⟨ct, id, E, len % 2 ^ 32, ck⟩ := by
  have hlen : (Slice.mk
      (LE16 ct ++ (uvarint id ++ (uvarint E.length ++ E ++ (B ++ T)))) spare).len ≠ 0 := by
    simp [Slice.len, LE16_length]
  have s0 : Slice.sliceFrom
      ⟨LE16 ct ++ (uvarint id ++ (uvarint E.length ++ E ++ (B ++ T))), spare⟩ 0 =
      some ⟨LE16 ct ++ (uvarint id ++ (uvarint E.length ++ E ++ (B ++ T))), spare⟩ := by
    have := sliceFrom_append []
      (LE16 ct ++ (uvarint id ++ (uvarint E.length ++ E ++ (B ++ T)))) spare 0 rfl
    simpa using this
  have s2 : Slice.sliceFrom
      ⟨LE16 ct ++ (uvarint id ++ (uvarint E.length ++ E ++ (B ++ T))), spare⟩ 2 =
      some ⟨uvarint id ++ (uvarint E.length ++ E ++ (B ++ T)), spare⟩ :=
    sliceFrom_append _ _ _ _ (by simp [LE16_length])
  have s3 : Slice.sliceFrom
      ⟨LE16 ct ++ (uvarint id ++ (uvarint E.length ++ E ++ (B ++ T))), spare⟩
      (2 + (((uvarint id).length : Nat) : Int)) =
      some ⟨uvarint E.length ++ E ++ (B ++ T), spare⟩ := by
    have e : LE16 ct ++ (uvarint id ++ (uvarint E.length ++ E ++ (B ++ T))) =
        (LE16 ct ++ uvarint id) ++ (uvarint E.length ++ E ++ (B ++ T)) := by
      simp [List.append_assoc]
    rw [e]
    exact sliceFrom_append _ _ _ _ (by simp [LE16_length])
  have s4 : Slice.sliceFrom
      ⟨LE16 ct ++ (uvarint id ++ (uvarint E.length ++ E ++ (B ++ T))), spare⟩
      (2 + (((uvarint id).length : Nat) : Int) +
        (((uvarint E.length).length + E.length : Nat) : Int)) =
      some ⟨B ++ T, spare⟩ := by
    have e : LE16 ct ++ (uvarint id ++ (uvarint E.length ++ E ++ (B ++ T))) =
        (LE16 ct ++ uvarint id ++ uvarint E.length ++ E) ++ (B ++ T) := by
      simp [List.append_assoc]
    rw [e]
    exact sliceFrom_append _ _ _ _ (by simp [LE16_length]; omega)
  have s5 : Slice.sliceFrom
      ⟨LE16 ct ++ (uvarint id ++ (uvarint E.length ++ E ++ (B ++ T))), spare⟩
      (2 + (((uvarint id).length : Nat) : Int) +
        (((uvarint E.length).length + E.length : Nat) : Int) +
        (((B).length : Nat) : Int)) = some ⟨T, spare⟩ := by
    have e : LE16 ct ++ (uvarint id ++ (uvarint E.length ++ E ++ (B ++ T))) =
        (LE16 ct ++ uvarint id ++ uvarint E.length ++ E ++ B) ++ T := by
      simp [List.append_assoc]
    rw [e]
    exact sliceFrom_append _ _ _ _ (by simp [LE16_length]; omega)
  unfold ResponseHeader.decode
  rw [if_neg hlen, s0]
  simp only [Option.some_bind, Uint16_LE16 _ _ hct, s2, Uvarint_uvarint _ _ hid, s3,
    readString_layout E _ spare hE, s4, hB _, s5]

/-! ## Further server codec claims -/

/-- C3. Sequence bridging under out-of-order completion: let a
`ReadRequestHeader` receive a frame that decodes to the header `h`, so that it
succeeds and returns `Seq = S`; let any sequence `ops` of codec calls follow
in which no call is a `WriteResponse` for `S` and no `ReadRequestHeader`
returns `S` again.  Then in a `WriteResponse` for `S` every frame handed to
`sendFrame` is a response header that decodes without error to `ID = h.ID`,
and such a frame is sent whenever the call returns nil.  The frame is really
emitted: when the compressor of the held header is registered and
serialization and `Zip` succeed with the body `z`, the call applies
`sendFrame` to the codec's writer with a frame that decodes to `ID = h.ID`,
then `write` with `z` to the writer that `sendFrame` returns, then `Flush`;
it stops at the first of `sendFrame` and `write` that fails, returning that
error, and the codec keeps the writer that the last of these calls
returned. -/
theorem C3_sequence_bridging {V R W : Type} (env : Env V R W) (s0 : serverCodec R W)
    (req : Request) (data : Slice) (rd : R) (h : RequestHeader)
    (hrecv : env.recvFrame s0.r = (Except.ok data, rd))
    (hdec : s0.request.ResetHeader.Unmarshal data = (h, none))
    (ops : List (Op V))
    (hother : serverCodec.allOtherSeq env ((s0.seq + 1) % 2 ^ 64)
      (s0.ReadRequestHeader env req).1 ops)
    (r : Response) (param : Option V) (hseq : r.Seq = (s0.seq + 1) % 2 ^ 64)
    (hErr : MaxHeaderSize + r.Error.length < 2 ^ 63) :
    (s0.ReadRequestHeader env req).2.2.1 = none ∧
    (s0.ReadRequestHeader env req).2.1.Seq = r.Seq ∧
    (∀ payload, Call.sendFrame payload ∈
        (((s0.ReadRequestHeader env req).1.run env ops).WriteResponse env r param).2.2 →
      ∀ (r0 : ResponseHeader) (spare : List Byte),
        (r0.Unmarshal ⟨payload, spare⟩).2 = none ∧ (r0.Unmarshal ⟨payload, spare⟩).1.ID = h.ID) ∧
    ((((s0.ReadRequestHeader env req).1.run env ops).WriteResponse env r param).2.1 =
        Outcome.returned none →
      ∃ payload, Call.sendFrame payload ∈
        (((s0.ReadRequestHeader env req).1.run env ops).WriteResponse env r param).2.2) ∧
    (∀ (s2 : serverCodec R W) (c : Compressor) (body z : List Byte),
      s2 = (s0.ReadRequestHeader env req).1.run env ops →
      env.Compressors s2.request.CompressType = some c →
      (marshalStep env (effectiveParam r param)).1 = Except.ok body →
      c.Zip body = Except.ok z →
      ∃ frame : List Byte,
        (∀ (r0 : ResponseHeader) (spare : List Byte),
          (r0.Unmarshal ⟨frame, spare⟩).2 = none ∧
          (r0.Unmarshal ⟨frame, spare⟩).1.ID = h.ID) ∧
        (∀ err, (env.sendFrame s2.w frame).1 = some err →
          s2.WriteResponse env r param =
            ({ s2 with pending := s2.pending.delete r.Seq, w := (env.sendFrame s2.w frame).2 },
              Outcome.returned (some err),
              (marshalStep env (effectiveParam r param)).2 ++
                [Call.Zip s2.request.CompressType body, Call.sendFrame frame])) ∧
        ((env.sendFrame s2.w frame).1 = none →
          ∀ err, (env.write (env.sendFrame s2.w frame).2 z).1 = some err →
          s2.WriteResponse env r param =
            ({ s2 with pending := s2.pending.delete r.Seq,
                       w := (env.write (env.sendFrame s2.w frame).2 z).2 },
              Outcome.returned (some err),
              (marshalStep env (effectiveParam r param)).2 ++
                [Call.Zip s2.request.CompressType body, Call.sendFrame frame,
                  Call.write z])) ∧
        ((env.sendFrame s2.w frame).1 = none →
          (env.write (env.sendFrame s2.w frame).2 z).1 = none →
          s2.WriteResponse env r param =
            ({ s2 with pending := s2.pending.delete r.Seq,
                       w := (env.Flush (env.write (env.sendFrame s2.w frame).2 z).2).2 },
              Outcome.returned none,
              (marshalStep env (effectiveParam r param)).2 ++
                [Call.Zip s2.request.CompressType body, Call.sendFrame frame, Call.write z,
                  Call.Flush]))) := by
  have hok := serverCodec.ReadRequestHeader_ok env s0 req data rd h hrecv hdec
  have hpend : ((s0.ReadRequestHeader env req).1.run env ops).pending r.Seq = some h.ID := by
    rw [hseq, serverCodec.run_pending_other env _ ops _ hother, hok]
    exact Pending.insert_self _ _ _
  have hid : h.ID < 2 ^ 64 := RequestHeader.Unmarshal_ID_lt hdec
  refine ⟨by rw [hok], by rw [hok, hseq], ?_, serverCodec.WriteResponse_nil env _ r param, ?_⟩
  · intro payload hmem r0 spare
    obtain ⟨id, z, frame, hp, hf, rfl⟩ :=
      serverCodec.WriteResponse_sendFrame env _ r param _ hmem
    rw [hpend] at hp
    simp only [Option.some.injEq] at hp
    subst hp
    have hrl : (z.length % 2 ^ 32) < 2 ^ 32 := Nat.mod_lt _ (by norm_num)
    rw [ResponseHeader.Marshal_eq_of _ hid hErr hrl] at hf
    simp only [Option.some.injEq] at hf
    subst hf
    simp only []
    rw [ResponseHeader.Unmarshal_layout_of r0 _ hid hErr hrl spare]
    exact ⟨rfl, rfl⟩
  · intro s2 c body z hs2 hc hm hz
    subst hs2
    obtain ⟨frame, hf, h1, h2, h3⟩ :=
      serverCodec.WriteResponse_emits env _ r param h.ID c body z hpend hc hm hz hid hErr
    refine ⟨frame.elems, ?_, h1, h2, h3⟩
    intro r0 spare
    rw [responseHeader_frame _ h.ID r z frame hid hErr hf r0 spare]
    exact ⟨rfl, rfl⟩

theorem C3_sequence_bridging_witness :
    (∀ payload, Call.sendFrame payload ∈
        ((((NewServerCodec [frameA, frameB] ([] : List (List Byte))).ReadRequestHeader exampleEnv
            ⟨[], 0⟩).1.run exampleEnv
              [Op.ReadRequestHeader ⟨[], 0⟩, Op.WriteResponse ⟨[], 2, []⟩ none]).WriteResponse
          exampleEnv ⟨[], 1, []⟩ (some 5)).2.2 →
      ∀ (r0 : ResponseHeader) (spare : List Byte),
        (r0.Unmarshal ⟨payload, spare⟩).2 = none ∧ (r0.Unmarshal ⟨payload, spare⟩).1.ID = 7) ∧
    ((((NewServerCodec [frameA, frameB] ([] : List (List Byte))).ReadRequestHeader exampleEnv
            ⟨[], 0⟩).1.run exampleEnv
              [Op.ReadRequestHeader ⟨[], 0⟩, Op.WriteResponse ⟨[], 2, []⟩ none]).WriteResponse
          exampleEnv ⟨[], 1, []⟩ (some 5)).2 =
      (Outcome.returned none,
        [Call.serializerMarshal 5, Call.Zip 1 [5],
          Call.sendFrame [1, 0, 7, 0, 2, 142, 21, 85, 214], Call.write [0x78, 5],
          Call.Flush]) ∧
    (((NewServerCodec [frameA, frameB] ([] : List (List Byte))).ReadRequestHeader exampleEnv
            ⟨[], 0⟩).1.run exampleEnv
              [Op.ReadRequestHeader ⟨[], 0⟩, Op.WriteResponse ⟨[], 2, []⟩ none]).w =
      [[1, 0, 8, 0, 1, 131, 22, 220, 140], [0x78]] ∧
    ((((NewServerCodec [frameA, frameB] ([] : List (List Byte))).ReadRequestHeader exampleEnv
            ⟨[], 0⟩).1.run exampleEnv
              [Op.ReadRequestHeader ⟨[], 0⟩, Op.WriteResponse ⟨[], 2, []⟩ none]).WriteResponse
          exampleEnv ⟨[], 1, []⟩ (some 5)).1.w =
      [[1, 0, 8, 0, 1, 131, 22, 220, 140], [0x78],
        [1, 0, 7, 0, 2, 142, 21, 85, 214], [0x78, 5]] ∧
    ∃ frame : List Byte,
      (∀ (r0 : ResponseHeader) (spare : List Byte),
        (r0.Unmarshal ⟨frame, spare⟩).2 = none ∧ (r0.Unmarshal ⟨frame, spare⟩).1.ID = 7) ∧
      ((((NewServerCodec [frameA, frameB] ([] : List (List Byte))).ReadRequestHeader exampleEnv
            ⟨[], 0⟩).1.run exampleEnv
              [Op.ReadRequestHeader ⟨[], 0⟩, Op.WriteResponse ⟨[], 2, []⟩ none]).WriteResponse
          exampleEnv ⟨[], 1, []⟩ (some 5)).1.w =
        (exampleEnv.Flush (exampleEnv.write (exampleEnv.sendFrame
          [[1, 0, 8, 0, 1, 131, 22, 220, 140], [0x78]] frame).2 [0x78, 5]).2).2 :=
  ⟨(C3_sequence_bridging exampleEnv (NewServerCodec [frameA, frameB] []) ⟨[], 0⟩
      (Slice.ofList frameA) [frameB] ⟨0, [65], 7, 0, 0⟩ rfl (by decide)
      [Op.ReadRequestHeader ⟨[], 0⟩, Op.WriteResponse ⟨[], 2, []⟩ none] (by decide)
      ⟨[], 1, []⟩ (some 5) (by decide) (by decide)).2.2.1,
    by decide, by decide, by decide,
    Exists.imp (fun _ hx => ⟨hx.1, congrArg (fun x => x.1.w) (hx.2.2.2 rfl rfl)⟩)
      ((C3_sequence_bridging exampleEnv (NewServerCodec [frameA, frameB] []) ⟨[], 0⟩
        (Slice.ofList frameA) [frameB] ⟨0, [65], 7, 0, 0⟩ rfl (by decide)
        [Op.ReadRequestHeader ⟨[], 0⟩, Op.WriteResponse ⟨[], 2, []⟩ none] (by decide)
        ⟨[], 1, []⟩ (some 5) (by decide) (by decide)).2.2.2.2
        (((NewServerCodec [frameA, frameB] ([] : List (List Byte))).ReadRequestHeader exampleEnv
            ⟨[], 0⟩).1.run exampleEnv
              [Op.ReadRequestHeader ⟨[], 0⟩, Op.WriteResponse ⟨[], 2, []⟩ none])
        { Zip := fun b => Except.ok (0x78 :: b),
          Unzip := fun b =>
            match b with
            | [] => Except.error 1
            | c :: rest => if c = 0x78 then Except.ok rest else Except.error 1 }
        [5] [0x78, 5] rfl rfl rfl rfl)⟩

/-- C11. Single-byte corruption is detected: let the held header declare the
checksum `c` of a body `b` with `c ≠ 0`, and let the stream supply a body `b2`
of the same length that differs from `b` at position `i` and at no other
position.  Then `ReadRequestBody` with a non-nil target returns
`UnexpectedChecksumError`. -/
theorem C11_single_byte_corruption {V R W : Type} (env : Env V R W) (s : serverCodec R W)
    (target : V) (b b2 : List Byte) (i : Nat) (rd : R)
    (hlen2 : b2.length = b.length) (hi : i < b.length) (hdiff : b[i]? ≠ b2[i]?)
    (hsame : ∀ j, j ≠ i → b[j]? = b2[j]?)
    (hlen : s.request.RequestLen = b.length)
    (hck : s.request.Checksum = ChecksumIEEE b)
    (hnz : ChecksumIEEE b ≠ 0)
    (hread : env.read s.r s.request.RequestLen = (Except.ok b2, rd)) :
    b2.length = s.request.RequestLen ∧
    (s.ReadRequestBody env (some target)).2.1 = some Error.UnexpectedChecksumError := by
  refine ⟨by rw [hlen, hlen2], ?_⟩
  obtain ⟨pre, x, y, post, rfl, rfl, hxy⟩ := single_byte_decomp b b2 i hlen2 hi hdiff hsame
  simp only [serverCodec.ReadRequestBody, hread]
  rw [if_pos ⟨by rw [hck]; exact hnz,
    by rw [hck]; exact (ChecksumIEEE_single_byte pre post x y hxy).symm⟩]

theorem C11_single_byte_corruption_witness :
    (serverCodec.ReadRequestBody exampleEnv
      { r := [[1, 9, 3]], w := ([] : List (List Byte)),
        request := ⟨0, [65], 7, 3, ChecksumIEEE [1, 2, 3]⟩, seq := 1,
        pending := fun _ => none } (some 0)).2.1 = some Error.UnexpectedChecksumError :=
  (C11_single_byte_corruption exampleEnv
    { r := [[1, 9, 3]], w := ([] : List (List Byte)),
      request := ⟨0, [65], 7, 3, ChecksumIEEE [1, 2, 3]⟩, seq := 1,
      pending := fun _ => none } 0 [1, 2, 3] [1, 9, 3] 1 [] rfl (by decide) (by decide)
    (fun j hj => by
      match j, hj with
      | 0, _ => rfl
      | 1, h => exact absurd rfl h
      | 2, _ => rfl
      | _ + 3, _ => rfl)
    rfl rfl (by decide) rfl).2

/-- C12. Unknown compressor is rejected on both paths, before any zip or
unzip: when the held header's `CompressType` is not registered, (a)
`ReadRequestBody` with a non-nil target whose body passes the checksum step
returns `NotFoundCompressorError` and its only calls are the read and, for a
non-zero checksum, the checksum; (b) `WriteResponse` for a pending sequence
number returns `NotFoundCompressorError` and makes no call at all; and
`NotFoundCompressorError` differs from `UnexpectedChecksumError`. -/
theorem C12_unknown_compressor {V R W : Type} (env : Env V R W) (s : serverCodec R W)
    (hc : env.Compressors s.request.CompressType = none) :
    (∀ (target : V) (b : List Byte) (rd : R),
      env.read s.r s.request.RequestLen = (Except.ok b, rd) →
      ¬ (s.request.Checksum ≠ 0 ∧ ChecksumIEEE b ≠ s.request.Checksum) →
      (s.ReadRequestBody env (some target)).2 =
        (some Error.NotFoundCompressorError,
          if s.request.Checksum ≠ 0 then
            [Call.read s.request.RequestLen, Call.ChecksumIEEE b]
          else [Call.read s.request.RequestLen])) ∧
    (∀ (r : Response) (param : Option V) (id : Nat), s.pending r.Seq = some id →
      (s.WriteResponse env r param).2 =
        (Outcome.returned (some Error.NotFoundCompressorError), [])) ∧
    Error.NotFoundCompressorError ≠ Error.UnexpectedChecksumError := by
  refine ⟨?_, ?_, by decide⟩
  · intro target b rd hread hpass
    simp only [serverCodec.ReadRequestBody, hread, hc]
    rw [if_neg hpass]
    split <;> simp
  · intro r param id hp
    simp only [serverCodec.WriteResponse, hp, hc]

theorem C12_unknown_compressor_witness :
    (serverCodec.ReadRequestBody exampleEnv
      { r := [[1, 2, 3]], w := ([] : List (List Byte)), request := ⟨5, [65], 7, 3, 0⟩, seq := 1,
        pending := fun k => if k = 1 then some 7 else none } (some 0)).2 =
      (some Error.NotFoundCompressorError, [Call.read 3]) ∧
    (serverCodec.WriteResponse exampleEnv
      { r := [[1, 2, 3]], w := ([] : List (List Byte)), request := ⟨5, [65], 7, 3, 0⟩, seq := 1,
        pending := fun k => if k = 1 then some 7 else none } ⟨[], 1, []⟩ (some 0)).2 =
      (Outcome.returned (some Error.NotFoundCompressorError), []) :=
  ⟨(C12_unknown_compressor exampleEnv
      { r := [[1, 2, 3]], w := ([] : List (List Byte)), request := ⟨5, [65], 7, 3, 0⟩, seq := 1,
        pending := fun k => if k = 1 then some 7 else none } rfl).1 0 [1, 2, 3] [] rfl
      (by decide),
    (C12_unknown_compressor exampleEnv
      { r := [[1, 2, 3]], w := ([] : List (List Byte)), request := ⟨5, [65], 7, 3, 0⟩, seq := 1,
        pending := fun k => if k = 1 then some 7 else none } rfl).2.1 ⟨[], 1, []⟩ (some 0) 7
      rfl⟩

/-- C13. Error suppresses body: in a `WriteResponse` on a pending sequence
number with a non-empty `r.Error` the value plays no part (the call is the
call with a nil value); the serializer's `Marshal` is never invoked; the
compressor is given the empty byte string; the body written is `Zip` of the
empty byte string, the same bytes as a nil value with an empty error
produces; and every frame sent decodes to a header with `Error = r.Error`.
The response is really written: with a registered compressor `c` and
`c.Zip [] = z`, the call applies `sendFrame` to the writer with a frame that
decodes to `Error = r.Error` and describes `z`, then `write` with `z`, then
`Flush`, stops at the first of `sendFrame` and `write` that fails with that
error, and leaves the writer that these calls return. -/
theorem C13_error_suppresses_body {V R W : Type} (env : Env V R W) (s : serverCodec R W)
    (r : Response) (param : Option V) (id : Nat) (hp : s.pending r.Seq = some id)
    (hne : r.Error ≠ []) (hid : id < 2 ^ 64)
    (hErr : MaxHeaderSize + r.Error.length < 2 ^ 63) :
    s.WriteResponse env r param = s.WriteResponse env r none ∧
    (∀ v, Call.serializerMarshal v ∉ (s.WriteResponse env r param).2.2) ∧
    (∀ ct body, Call.Zip ct body ∈ (s.WriteResponse env r param).2.2 → body = []) ∧
    (∀ body, Call.write body ∈ (s.WriteResponse env r param).2.2 →
      ∃ c, env.Compressors s.request.CompressType = some c ∧ c.Zip [] = Except.ok body) ∧
    (∀ body body2, Call.write body ∈ (s.WriteResponse env r param).2.2 →
      Call.write body2 ∈
        (s.WriteResponse env { r with Error := [] } (none : Option V)).2.2 →
      body = body2) ∧
    (∀ payload, Call.sendFrame payload ∈ (s.WriteResponse env r param).2.2 →
      ∀ (r0 : ResponseHeader) (spare : List Byte),
        (r0.Unmarshal ⟨payload, spare⟩).2 = none ∧
        (r0.Unmarshal ⟨payload, spare⟩).1.Error = r.Error) ∧
    (∀ (c : Compressor) (z : List Byte), env.Compressors s.request.CompressType = some c →
      c.Zip [] = Except.ok z →
      ∃ frame : List Byte,
        (∀ (r0 : ResponseHeader) (spare : List Byte),
          (r0.Unmarshal ⟨frame, spare⟩).2 = none ∧
          (r0.Unmarshal ⟨frame, spare⟩).1.Error = r.Error ∧
          (r0.Unmarshal ⟨frame, spare⟩).1.ResponseLen = z.length % 2 ^ 32 ∧
          (r0.Unmarshal ⟨frame, spare⟩).1.Checksum = ChecksumIEEE z) ∧
        (∀ err, (env.sendFrame s.w frame).1 = some err →
          s.WriteResponse env r param =
            ({ s with pending := s.pending.delete r.Seq, w := (env.sendFrame s.w frame).2 },
              Outcome.returned (some err),
              [Call.Zip s.request.CompressType [], Call.sendFrame frame])) ∧
        ((env.sendFrame s.w frame).1 = none →
          ∀ err, (env.write (env.sendFrame s.w frame).2 z).1 = some err →
          s.WriteResponse env r param =
            ({ s with pending := s.pending.delete r.Seq,
                      w := (env.write (env.sendFrame s.w frame).2 z).2 },
              Outcome.returned (some err),
              [Call.Zip s.request.CompressType [], Call.sendFrame frame, Call.write z])) ∧
        ((env.sendFrame s.w frame).1 = none →
          (env.write (env.sendFrame s.w frame).2 z).1 = none →
          s.WriteResponse env r param =
            ({ s with pending := s.pending.delete r.Seq,
                      w := (env.Flush (env.write (env.sendFrame s.w frame).2 z).2).2 },
              Outcome.returned none,
              [Call.Zip s.request.CompressType [], Call.sendFrame frame, Call.write z,
                Call.Flush]))) := by
  have hemit : ∀ (c : Compressor) (z : List Byte),
      env.Compressors s.request.CompressType = some c → c.Zip [] = Except.ok z →
      ∃ frame : List Byte,
        (∀ (r0 : ResponseHeader) (spare : List Byte),
          (r0.Unmarshal ⟨frame, spare⟩).2 = none ∧
          (r0.Unmarshal ⟨frame, spare⟩).1.Error = r.Error ∧
          (r0.Unmarshal ⟨frame, spare⟩).1.ResponseLen = z.length % 2 ^ 32 ∧
          (r0.Unmarshal ⟨frame, spare⟩).1.Checksum = ChecksumIEEE z) ∧
        (∀ err, (env.sendFrame s.w frame).1 = some err →
          s.WriteResponse env r param =
            ({ s with pending := s.pending.delete r.Seq, w := (env.sendFrame s.w frame).2 },
              Outcome.returned (some err),
              [Call.Zip s.request.CompressType [], Call.sendFrame frame])) ∧
        ((env.sendFrame s.w frame).1 = none →
          ∀ err, (env.write (env.sendFrame s.w frame).2 z).1 = some err →
          s.WriteResponse env r param =
            ({ s with pending := s.pending.delete r.Seq,
                      w := (env.write (env.sendFrame s.w frame).2 z).2 },
              Outcome.returned (some err),
              [Call.Zip s.request.CompressType [], Call.sendFrame frame, Call.write z])) ∧
        ((env.sendFrame s.w frame).1 = none →
          (env.write (env.sendFrame s.w frame).2 z).1 = none →
          s.WriteResponse env r param =
            ({ s with pending := s.pending.delete r.Seq,
                      w := (env.Flush (env.write (env.sendFrame s.w frame).2 z).2).2 },
              Outcome.returned none,
              [Call.Zip s.request.CompressType [], Call.sendFrame frame, Call.write z,
                Call.Flush])) := by
    intro c z hc hz
    have hep : effectiveParam r param = none := effectiveParam_of_error param hne
    have hm : (marshalStep env (effectiveParam r param)).1 = Except.ok [] := by
      rw [hep]; rfl
    obtain ⟨frame, hf, h1, h2, h3⟩ :=
      serverCodec.WriteResponse_emits env s r param id c [] z hp hc hm hz hid hErr
    have ht : (marshalStep env (effectiveParam r param)).2 = [] := by
      rw [hep]; rfl
    rw [ht] at h1 h2 h3
    simp only [List.nil_append] at h1 h2 h3
    refine ⟨frame.elems, ?_, h1, h2, h3⟩
    intro r0 spare
    rw [responseHeader_frame s id r z frame hid hErr hf r0 spare]
    exact ⟨rfl, rfl, rfl, rfl⟩
  have hwrite : ∀ (q : Response) (body : List Byte), q.Seq = r.Seq →
      effectiveParam q (none : Option V) = none →
      Call.write body ∈ (s.WriteResponse env q none).2.2 →
      ∃ c, env.Compressors s.request.CompressType = some c ∧ c.Zip [] = Except.ok body := by
    intro q body hq he hmem
    have hpq : s.pending q.Seq = some id := by rw [hq]; exact hp
    cases hc : env.Compressors s.request.CompressType with
    | none =>
      simp only [serverCodec.WriteResponse, hpq, hc] at hmem
      simp at hmem
    | some c =>
      refine ⟨c, rfl, ?_⟩
      rcases serverCodec.WriteResponse_paths env s q none id hpq c hc with
        ⟨code, hm, hw⟩ | ⟨b, code, hm, hz, hw⟩ | ⟨b, z, hm, hz, hf, hw⟩ |
        ⟨b, z, frame, err, hm, hz, hf, hs, hw⟩ | ⟨b, z, frame, err, hm, hz, hf, hs, hwr, hw⟩ |
        ⟨b, z, frame, hm, hz, hf, hs, hwr, hw⟩ <;>
      rw [he, marshalStep_none] at hm <;>
      rw [hw, he, marshalStep_none] at hmem <;>
      simp only [Except.ok.injEq] at hm <;>
      simp at hmem
      · subst hm; subst hmem; exact hz
      · subst hm; subst hmem; exact hz
  have he : effectiveParam r (none : Option V) = none := effectiveParam_of_error none hne
  have he2 : effectiveParam { r with Error := [] } (none : Option V) = none := by
    simp [effectiveParam]
  rw [serverCodec.WriteResponse_of_error env s r param hne]
  refine ⟨rfl, ?_, ?_, fun body h => hwrite r body rfl he h, ?_, ?_, ?_⟩
  · intro v hmem
    cases hc : env.Compressors s.request.CompressType with
    | none =>
      simp only [serverCodec.WriteResponse, hp, hc] at hmem
      simp at hmem
    | some c =>
      rcases serverCodec.WriteResponse_paths env s r none id hp c hc with
        ⟨code, hm, hw⟩ | ⟨b, code, hm, hz, hw⟩ | ⟨b, z, hm, hz, hf, hw⟩ |
        ⟨b, z, frame, err, hm, hz, hf, hs, hw⟩ | ⟨b, z, frame, err, hm, hz, hf, hs, hwr, hw⟩ |
        ⟨b, z, frame, hm, hz, hf, hs, hwr, hw⟩ <;>
      rw [hw, he, marshalStep_none] at hmem <;>
      simp at hmem
  · intro ct body hmem
    cases hc : env.Compressors s.request.CompressType with
    | none =>
      simp only [serverCodec.WriteResponse, hp, hc] at hmem
      simp at hmem
    | some c =>
      rcases serverCodec.WriteResponse_paths env s r none id hp c hc with
        ⟨code, hm, hw⟩ | ⟨b, code, hm, hz, hw⟩ | ⟨b, z, hm, hz, hf, hw⟩ |
        ⟨b, z, frame, err, hm, hz, hf, hs, hw⟩ | ⟨b, z, frame, err, hm, hz, hf, hs, hwr, hw⟩ |
        ⟨b, z, frame, hm, hz, hf, hs, hwr, hw⟩ <;>
      rw [he, marshalStep_none] at hm <;>
      rw [hw, he, marshalStep_none] at hmem <;>
      simp only [Except.ok.injEq] at hm <;>
      simp at hmem <;>
      (subst hm; exact hmem.2)
  · intro body body2 h1 h2
    obtain ⟨c1, hc1, hz1⟩ := hwrite r body rfl he h1
    obtain ⟨c2, hc2, hz2⟩ := hwrite { r with Error := [] } body2 rfl he2 h2
    rw [hc1] at hc2
    simp only [Option.some.injEq] at hc2
    subst hc2
    rw [hz1] at hz2
    exact Except.ok.inj hz2
  · intro payload hmem r0 spare
    obtain ⟨id2, z, frame, hp2, hf, rfl⟩ :=
      serverCodec.WriteResponse_sendFrame env s r none payload hmem
    rw [hp] at hp2
    simp only [Option.some.injEq] at hp2
    subst hp2
    rw [responseHeader_frame s id r z frame hid hErr hf r0 spare]
    exact ⟨rfl, rfl⟩
  · have hsame := serverCodec.WriteResponse_of_error env s r param hne
    intro c z hc hz
    obtain ⟨frame, hd, h1, h2, h3⟩ := hemit c z hc hz
    exact ⟨frame, hd, fun err he => by rw [← hsame]; exact h1 err he,
      fun hn err he => by rw [← hsame]; exact h2 hn err he,
      fun hn hw => by rw [← hsame]; exact h3 hn hw⟩

theorem C13_error_suppresses_body_witness :
    (serverCodec.WriteResponse exampleEnv
      { r := [[1, 2, 3]], w := ([] : List (List Byte)), request := ⟨1, [65], 7, 3, 0⟩, seq := 1,
        pending := fun k => if k = 1 then some 7 else none } ⟨[], 1, [111]⟩ (some 5)).2 =
      (Outcome.returned none,
        [Call.Zip 1 [], Call.sendFrame [1, 0, 7, 1, 111, 1, 131, 22, 220, 140],
          Call.write [0x78], Call.Flush]) ∧
    (serverCodec.WriteResponse exampleEnv
      { r := [[1, 2, 3]], w := ([] : List (List Byte)), request := ⟨1, [65], 7, 3, 0⟩, seq := 1,
        pending := fun k => if k = 1 then some 7 else none } ⟨[], 1, [111]⟩ (some 5)).1.w =
      [[1, 0, 7, 1, 111, 1, 131, 22, 220, 140], [0x78]] ∧
    (ResponseHeader.Unmarshal ⟨0, 0, [], 0, 0⟩
      (Slice.ofList [1, 0, 7, 1, 111, 1, 131, 22, 220, 140])).1.Error = [111] ∧
    (∀ v, Call.serializerMarshal v ∉ (serverCodec.WriteResponse exampleEnv
      { r := [[1, 2, 3]], w := ([] : List (List Byte)), request := ⟨1, [65], 7, 3, 0⟩, seq := 1,
        pending := fun k => if k = 1 then some 7 else none } ⟨[], 1, [111]⟩ (some 5)).2.2) ∧
    ∃ frame : List Byte,
      ∀ (r0 : ResponseHeader) (spare : List Byte),
        (r0.Unmarshal ⟨frame, spare⟩).2 = none ∧
        (r0.Unmarshal ⟨frame, spare⟩).1.Error = [111] ∧
        (r0.Unmarshal ⟨frame, spare⟩).1.ResponseLen =
          ([0x78] : List Byte).length % 2 ^ 32 ∧
        (r0.Unmarshal ⟨frame, spare⟩).1.Checksum = ChecksumIEEE [0x78] :=
  ⟨by decide, by decide, by decide,
    (C13_error_suppresses_body exampleEnv
      { r := [[1, 2, 3]], w := ([] : List (List Byte)), request := ⟨1, [65], 7, 3, 0⟩, seq := 1,
        pending := fun k => if k = 1 then some 7 else none } ⟨[], 1, [111]⟩ (some 5) 7 rfl
      (by decide) (by decide) (by decide)).2.1,
    Exists.imp (fun _ h => h.1)
      ((C13_error_suppresses_body exampleEnv
        { r := [[1, 2, 3]], w := ([] : List (List Byte)), request := ⟨1, [65], 7, 3, 0⟩,
          seq := 1, pending := fun k => if k = 1 then some 7 else none } ⟨[], 1, [111]⟩
        (some 5) 7 rfl (by decide) (by decide) (by decide)).2.2.2.2.2.2
        { Zip := fun b => Except.ok (0x78 :: b),
          Unzip := fun b =>
            match b with
            | [] => Except.error 1
            | c :: rest => if c = 0x78 then Except.ok rest else Except.error 1 }
        [0x78] rfl rfl)⟩

/-- C14. Discard path: `ReadRequestBody(nil)` with `RequestLen = 0` makes no call
and returns nil; with `RequestLen ≠ 0` its only call is a read of `RequestLen`
bytes, whose error (nil on success) it returns; no checksum is computed and
no compressor or serializer is consulted, whatever the declared checksum and
compressType are; the held header, the counter and the table are unchanged.
Over a byte stream that holds at least `RequestLen` further bytes the call
returns nil and leaves the stream exactly `RequestLen` bytes further on. -/
theorem C14_discard_path {V R W : Type} (env : Env V R W) (s : serverCodec R W) :
    (s.request.RequestLen = 0 → s.ReadRequestBody env none = (s, none, [])) ∧
    (s.request.RequestLen ≠ 0 →
      s.ReadRequestBody env none =
        ({ s with r := (env.read s.r s.request.RequestLen).2 },
          (match (env.read s.r s.request.RequestLen).1 with
            | Except.error err => some err
            | Except.ok _ => none),
          [Call.read s.request.RequestLen])) ∧
    ((s.ReadRequestBody env none).1.request = s.request ∧
      (s.ReadRequestBody env none).1.seq = s.seq ∧
      (s.ReadRequestBody env none).1.pending = s.pending ∧
      (s.ReadRequestBody env none).1.w = s.w) ∧
    (∀ (senv : Env V (List Byte) W) (t : serverCodec (List Byte) W),
      senv.read = streamRead → t.request.RequestLen ≤ t.r.length →
      (t.ReadRequestBody senv none).2.1 = none ∧
      (t.ReadRequestBody senv none).1.r = t.r.drop t.request.RequestLen ∧
      (t.ReadRequestBody senv none).2.2 =
        (if t.request.RequestLen = 0 then [] else [Call.read t.request.RequestLen])) := by
  refine ⟨?_, ?_, ?_, ?_⟩
  · intro h0
    simp only [serverCodec.ReadRequestBody, h0]
    simp
  · intro hne
    simp only [serverCodec.ReadRequestBody]
    rw [if_pos hne]
    rcases env.read s.r s.request.RequestLen with ⟨_ | _, rd⟩ <;> rfl
  · have h := serverCodec.ReadRequestBody_state env s none
    exact ⟨h.2.2.1, h.2.1, h.1, h.2.2.2⟩
  · intro senv t hread hlen
    simp only [serverCodec.ReadRequestBody, hread, streamRead]
    by_cases h0 : t.request.RequestLen = 0
    · simp [h0]
    · rw [if_pos h0, if_pos hlen, if_neg h0]
      exact ⟨rfl, rfl, rfl⟩

theorem C14_discard_path_witness :
    (serverCodec.ReadRequestBody
        ({ exampleEnv with recvFrame := fun q => (Except.error (Error.other 0), q),
                           read := streamRead } : Env Nat (List Byte) (List (List Byte)))
        { r := [1, 2, 3, 4, 5], w := ([] : List (List Byte)),
          request := ⟨9, [65], 7, 3, 77⟩, seq := 1, pending := fun _ => none } none).2.1 = none ∧
    (serverCodec.ReadRequestBody
        ({ exampleEnv with recvFrame := fun q => (Except.error (Error.other 0), q),
                           read := streamRead } : Env Nat (List Byte) (List (List Byte)))
        { r := [1, 2, 3, 4, 5], w := ([] : List (List Byte)),
          request := ⟨9, [65], 7, 3, 77⟩, seq := 1, pending := fun _ => none } none).1.r =
      List.drop 3 [1, 2, 3, 4, 5] ∧
    (serverCodec.ReadRequestBody
        ({ exampleEnv with recvFrame := fun q => (Except.error (Error.other 0), q),
                           read := streamRead } : Env Nat (List Byte) (List (List Byte)))
        { r := [1, 2, 3, 4, 5], w := ([] : List (List Byte)),
          request := ⟨9, [65], 7, 3, 77⟩, seq := 1, pending := fun _ => none } none).2.2 =
      (if 3 = 0 then [] else [Call.read 3]) :=
  (C14_discard_path exampleEnv (NewServerCodec [] [])).2.2.2
    ({ exampleEnv with recvFrame := fun q => (Except.error (Error.other 0), q),
                       read := streamRead } : Env Nat (List Byte) (List (List Byte)))
    { r := [1, 2, 3, 4, 5], w := ([] : List (List Byte)),
      request := ⟨9, [65], 7, 3, 77⟩, seq := 1, pending := fun _ => none } rfl (by decide)

/-- C15. The response header describes the body actually sent: when a
`WriteResponse` returns nil (the wire IDs in the table being `uint64` values),
a compressor `c` is registered, the body `z` is `c.Zip` of the serialized value (of the empty
byte string when the value is absent or suppressed), the calls made are the
serialization (if any), the zip, one `sendFrame` of the marshalled header,
one `write` of `z` and the flush, in this order, and the header decodes
without error to `ResponseLen = len(z)` modulo `2 ^ 32` (so `len(z)` itself
for a body shorter than `2 ^ 32` bytes), `Checksum = ChecksumIEEE z` and
`Error = r.Error`.  The frame is the marshalled response header built from
the pending wire ID, and the bytes reach the writer: `sendFrame` applied to the
codec's writer with the frame succeeds, `write` applied to the writer that
`sendFrame` returns with `z` succeeds, and the codec is left with its pending
entry removed and the writer that `Flush` returns after these two. -/
theorem C15_header_describes_body {V R W : Type} (env : Env V R W) (s : serverCodec R W)
    (r : Response) (param : Option V)
    (hvals : ∀ k v, s.pending k = some v → v < 2 ^ 64)
    (hErr : MaxHeaderSize + r.Error.length < 2 ^ 63)
    (hnil : (s.WriteResponse env r param).2.1 = Outcome.returned none) :
    ∃ c body z frame, env.Compressors s.request.CompressType = some c ∧
      (∀ v, effectiveParam r param = some v → env.serializerMarshal v = Except.ok body) ∧
      (effectiveParam r param = none → body = []) ∧
      c.Zip body = Except.ok z ∧
      (s.WriteResponse env r param).2.2 =
        (marshalStep env (effectiveParam r param)).2 ++
          [Call.Zip s.request.CompressType body, Call.sendFrame frame, Call.write z,
            Call.Flush] ∧
      (∃ id, s.pending r.Seq = some id ∧
        (responseHeader s id r z).Marshal.map (fun m => m.elems) = some frame) ∧
      (env.sendFrame s.w frame).1 = none ∧
      (env.write (env.sendFrame s.w frame).2 z).1 = none ∧
      (s.WriteResponse env r param).1 =
        { s with pending := s.pending.delete r.Seq,
                 w := (env.Flush (env.write (env.sendFrame s.w frame).2 z).2).2 } ∧
      ∀ (r0 : ResponseHeader) (spare : List Byte),
        (r0.Unmarshal ⟨frame, spare⟩).2 = none ∧
        (r0.Unmarshal ⟨frame, spare⟩).1.ResponseLen = z.length % 2 ^ 32 ∧
        (z.length < 2 ^ 32 → (r0.Unmarshal ⟨frame, spare⟩).1.ResponseLen = z.length) ∧
        (r0.Unmarshal ⟨frame, spare⟩).1.Checksum = ChecksumIEEE z ∧
        (r0.Unmarshal ⟨frame, spare⟩).1.Error = r.Error := by
  obtain ⟨id, hp⟩ : ∃ id, s.pending r.Seq = some id := by
    cases hpe : s.pending r.Seq with
    | none =>
      simp only [serverCodec.WriteResponse, hpe] at hnil
      simp at hnil
    | some id => exact ⟨id, rfl⟩
  have hid : id < 2 ^ 64 := hvals _ _ hp
  cases hc : env.Compressors s.request.CompressType with
  | none =>
    simp only [serverCodec.WriteResponse, hp, hc] at hnil
    simp at hnil
  | some c =>
    rcases serverCodec.WriteResponse_paths env s r param id hp c hc with
      ⟨code, hm, hw⟩ | ⟨b, code, hm, hz, hw⟩ | ⟨b, z, hm, hz, hf, hw⟩ |
      ⟨b, z, frame, err, hm, hz, hf, hs, hw⟩ | ⟨b, z, frame, err, hm, hz, hf, hs, hwr, hw⟩ |
      ⟨b, z, frame, hm, hz, hf, hs, hwr, hw⟩
    · rw [hw] at hnil; simp at hnil
    · rw [hw] at hnil; simp at hnil
    · rw [hw] at hnil; simp at hnil
    · rw [hw] at hnil; simp at hnil
    · rw [hw] at hnil; simp at hnil
    · refine ⟨c, b, z, frame.elems, rfl, ?_, ?_, hz, ?_, ⟨id, hp, by rw [hf]; rfl⟩, hs, hwr,
        ?_, ?_⟩
      · intro v hv
        rw [hv, marshalStep_some] at hm
        exact hm
      · intro hn
        rw [hn, marshalStep_none] at hm
        exact (Except.ok.inj hm).symm
      · rw [hw]
        simp [List.append_assoc]
      · rw [hw]
      · intro r0 spare
        rw [responseHeader_frame s id r z frame hid hErr hf r0 spare]
        exact ⟨rfl, rfl, fun h => Nat.mod_eq_of_lt h, rfl, rfl⟩

theorem C15_header_describes_body_witness :
    (serverCodec.WriteResponse exampleEnv
      { r := [[1, 2, 3]], w := ([] : List (List Byte)), request := ⟨1, [65], 7, 3, 0⟩,
        seq := 1, pending := fun k => if k = 1 then some 7 else none }
      ⟨[], 1, []⟩ (some 5)).2 =
      (Outcome.returned none,
        [Call.serializerMarshal 5, Call.Zip 1 [5],
          Call.sendFrame [1, 0, 7, 0, 2, 142, 21, 85, 214], Call.write [0x78, 5],
          Call.Flush]) ∧
    (serverCodec.WriteResponse exampleEnv
      { r := [[1, 2, 3]], w := ([] : List (List Byte)), request := ⟨1, [65], 7, 3, 0⟩,
        seq := 1, pending := fun k => if k = 1 then some 7 else none }
      ⟨[], 1, []⟩ (some 5)).1.w = [[1, 0, 7, 0, 2, 142, 21, 85, 214], [0x78, 5]] ∧
    ∃ c body z frame, exampleEnv.Compressors 1 = some c ∧
      (∀ v, effectiveParam ⟨[], 1, []⟩ (some 5) = some v →
        exampleEnv.serializerMarshal v = Except.ok body) ∧
      (effectiveParam ⟨[], 1, []⟩ (some 5) = none → body = []) ∧
      c.Zip body = Except.ok z ∧
      (serverCodec.WriteResponse exampleEnv
        { r := [[1, 2, 3]], w := ([] : List (List Byte)), request := ⟨1, [65], 7, 3, 0⟩,
          seq := 1, pending := fun k => if k = 1 then some 7 else none }
        ⟨[], 1, []⟩ (some 5)).2.2 =
        (marshalStep exampleEnv (effectiveParam ⟨[], 1, []⟩ (some 5))).2 ++
          [Call.Zip 1 body, Call.sendFrame frame, Call.write z, Call.Flush] ∧
      (∃ id, (if (1 : Nat) = 1 then some 7 else none) = some id ∧
        (responseHeader
          ({ r := [[1, 2, 3]], w := ([] : List (List Byte)), request := ⟨1, [65], 7, 3, 0⟩,
             seq := 1, pending := fun k => if k = 1 then some 7 else none } :
            serverCodec (List (List Byte)) (List (List Byte)))
          id ⟨[], 1, []⟩ z).Marshal.map (fun m => m.elems) = some frame) ∧
      (exampleEnv.sendFrame ([] : List (List Byte)) frame).1 = none ∧
      (exampleEnv.write (exampleEnv.sendFrame ([] : List (List Byte)) frame).2 z).1 = none ∧
      (serverCodec.WriteResponse exampleEnv
        { r := [[1, 2, 3]], w := ([] : List (List Byte)), request := ⟨1, [65], 7, 3, 0⟩,
          seq := 1, pending := fun k => if k = 1 then some 7 else none }
        ⟨[], 1, []⟩ (some 5)).1 =
        { r := [[1, 2, 3]],
          w := (exampleEnv.Flush
            (exampleEnv.write (exampleEnv.sendFrame ([] : List (List Byte)) frame).2 z).2).2,
          request := ⟨1, [65], 7, 3, 0⟩, seq := 1,
          pending := Pending.delete (fun k => if k = 1 then some 7 else none) 1 } ∧
      ∀ (r0 : ResponseHeader) (spare : List Byte),
        (r0.Unmarshal ⟨frame, spare⟩).2 = none ∧
        (r0.Unmarshal ⟨frame, spare⟩).1.ResponseLen = z.length % 2 ^ 32 ∧
        (z.length < 2 ^ 32 → (r0.Unmarshal ⟨frame, spare⟩).1.ResponseLen = z.length) ∧
        (r0.Unmarshal ⟨frame, spare⟩).1.Checksum = ChecksumIEEE z ∧
        (r0.Unmarshal ⟨frame, spare⟩).1.Error = [] :=
  ⟨by decide, by decide,
    C15_header_describes_body exampleEnv
      { r := [[1, 2, 3]], w := ([] : List (List Byte)), request := ⟨1, [65], 7, 3, 0⟩,
        seq := 1, pending := fun k => if k = 1 then some 7 else none }
      ⟨[], 1, []⟩ (some 5)
      (fun k v h => by
        by_cases hk : k = 1
        · simp only [hk, if_true, Option.some.injEq] at h
          omega
        · simp only [hk, if_false] at h
          exact absurd h (by simp))
      (by decide) (by decide)⟩

/-- C16. `ReadRequestHeader` changes the call bookkeeping exactly when it
succeeds.  If `recvFrame` returns a frame and decoding it gives the header `h`,
the call returns nil, the counter becomes `seq + 1` (as a `uint64`), the table
gains the entry `seq + 1 -> h.ID` with every other entry unchanged, and the
descriptor gets `ServiceMethod = h.Method` and `Seq = seq + 1`.  If
`recvFrame` fails, or decoding fails, that error is returned and counter,
table and descriptor are as before. -/
theorem C16_read_header_bookkeeping {V R W : Type} (env : Env V R W) (s : serverCodec R W)
    (req : Request) :
    (∀ (data : Slice) (rd : R) (h : RequestHeader),
      env.recvFrame s.r = (Except.ok data, rd) →
      s.request.ResetHeader.Unmarshal data = (h, none) →
      (s.ReadRequestHeader env req).2.2.1 = none ∧
      (s.ReadRequestHeader env req).1.seq = (s.seq + 1) % 2 ^ 64 ∧
      (s.seq + 1 < 2 ^ 64 → (s.ReadRequestHeader env req).1.seq = s.seq + 1) ∧
      (s.ReadRequestHeader env req).1.pending ((s.seq + 1) % 2 ^ 64) = some h.ID ∧
      (∀ k, k ≠ (s.seq + 1) % 2 ^ 64 →
        (s.ReadRequestHeader env req).1.pending k = s.pending k) ∧
      (s.ReadRequestHeader env req).2.1 =
        { ServiceMethod := h.Method, Seq := (s.seq + 1) % 2 ^ 64 }) ∧
    (∀ (err : Error) (rd : R), env.recvFrame s.r = (Except.error err, rd) →
      (s.ReadRequestHeader env req).2.2.1 = some err ∧
      (s.ReadRequestHeader env req).1.seq = s.seq ∧
      (s.ReadRequestHeader env req).1.pending = s.pending ∧
      (s.ReadRequestHeader env req).2.1 = req) ∧
    (∀ (data : Slice) (rd : R) (h : RequestHeader) (err : Error),
      env.recvFrame s.r = (Except.ok data, rd) →
      s.request.ResetHeader.Unmarshal data = (h, some err) →
      (s.ReadRequestHeader env req).2.2.1 = some err ∧
      (s.ReadRequestHeader env req).1.seq = s.seq ∧
      (s.ReadRequestHeader env req).1.pending = s.pending ∧
      (s.ReadRequestHeader env req).2.1 = req) := by
  refine ⟨?_, ?_, ?_⟩
  · intro data rd h hrecv hdec
    rw [serverCodec.ReadRequestHeader_ok env s req data rd h hrecv hdec]
    refine ⟨rfl, rfl, fun hlt => Nat.mod_eq_of_lt hlt, Pending.insert_self _ _ _,
      fun k hk => Pending.insert_other _ _ _ _ hk, rfl⟩
  · intro err rd hrecv
    simp [serverCodec.ReadRequestHeader, hrecv]
  · intro data rd h err hrecv hdec
    simp [serverCodec.ReadRequestHeader, hrecv, hdec]

theorem C16_read_header_bookkeeping_witness :
    ((NewServerCodec [frameA, frameB] ([] : List (List Byte))).ReadRequestHeader exampleEnv
        ⟨[], 0⟩).2.2.1 = none ∧
    ((NewServerCodec [frameA, frameB] ([] : List (List Byte))).ReadRequestHeader exampleEnv
        ⟨[], 0⟩).1.seq = (0 + 1) % 2 ^ 64 ∧
    ((NewServerCodec [frameA, frameB] ([] : List (List Byte))).ReadRequestHeader exampleEnv
        ⟨[], 0⟩).1.pending ((0 + 1) % 2 ^ 64) = some 7 ∧
    ((NewServerCodec ([] : List (List Byte)) ([] : List (List Byte))).ReadRequestHeader exampleEnv
        ⟨[9], 4⟩).2 = (⟨[9], 4⟩, some (Error.other 0), [Call.recvFrame]) :=
  ⟨((C16_read_header_bookkeeping exampleEnv (NewServerCodec [frameA, frameB] []) ⟨[], 0⟩).1
      (Slice.ofList frameA) [frameB] ⟨0, [65], 7, 0, 0⟩ rfl (by decide)).1,
    ((C16_read_header_bookkeeping exampleEnv (NewServerCodec [frameA, frameB] []) ⟨[], 0⟩).1
      (Slice.ofList frameA) [frameB] ⟨0, [65], 7, 0, 0⟩ rfl (by decide)).2.1,
    ((C16_read_header_bookkeeping exampleEnv (NewServerCodec [frameA, frameB] []) ⟨[], 0⟩).1
      (Slice.ofList frameA) [frameB] ⟨0, [65], 7, 0, 0⟩ rfl (by decide)).2.2.2.1,
    by decide⟩

/-- C17 fails on the code.  With a buffered writer whose `Flush` fails while
`sendFrame` and `write` succeed, `WriteResponse` for the pending sequence number
1 calls `Flush` and returns nil: the result of `Flush` is dropped. -/
theorem C17_code_evaluation :
    (flushFailEnv.Flush [[0, 0, 7, 0, 1, 2, 27, 104, 162], [5]]).1 = some (Error.other 1) ∧
    (serverCodec.WriteResponse flushFailEnv
      ((NewServerCodec [frameA, frameB] ([] : List (List Byte))).ReadRequestHeader flushFailEnv
        ⟨[], 0⟩).1 ⟨[], 1, []⟩ (some 5)).2 =
      (Outcome.returned none,
        [Call.serializerMarshal 5, Call.Zip 0 [5],
          Call.sendFrame [0, 0, 7, 0, 1, 2, 27, 104, 162], Call.write [5], Call.Flush]) := by
  decide

/-- C18. Sequence numbers are fresh and the pending table stays consistent: in
the state reached from a new codec by any sequence of calls with fewer than
`2 ^ 64` successful header reads, the counter is the number of successful
header reads, every key of the pending table lies in `1..seq`, the
successful header reads have returned `1, 2, 3, ...` in this order, none of
them inserted a key that was already present, and no key was removed twice. -/
theorem C18_fresh_sequence_numbers {V R W : Type} (env : Env V R W) (rd : R) (wr : W)
    (ops : List (Op V))
    (hlt : (serverCodec.readSeqs env (NewServerCodec rd wr) ops).length < 2 ^ 64) :
    ((NewServerCodec rd wr).run env ops).seq =
      (serverCodec.readSeqs env (NewServerCodec rd wr) ops).length ∧
    (∀ k v, ((NewServerCodec rd wr).run env ops).pending k = some v →
      1 ≤ k ∧ k ≤ ((NewServerCodec rd wr).run env ops).seq) ∧
    serverCodec.readSeqs env (NewServerCodec rd wr) ops =
      List.range' 1 (serverCodec.readSeqs env (NewServerCodec rd wr) ops).length ∧
    serverCodec.staleInserts env (NewServerCodec rd wr) ops = [] ∧
    (serverCodec.removedKeys env (NewServerCodec rd wr) ops).Nodup := by
  have h0 : ∀ k, ((NewServerCodec rd wr).pending k).isSome → 1 ≤ k ∧ k ≤ 0 := by
    intro k h; simp [NewServerCodec] at h
  obtain ⟨h1, h2, h3, h4, h5, _⟩ :=
    serverCodec.history_inv env ops (NewServerCodec rd wr) 0 rfl h0 (by omega)
  simp only [Nat.zero_add] at h1 h2 h3
  refine ⟨h1, ?_, h3, h4, h5⟩
  intro k v hkv
  rw [h1]
  exact h2 k (by rw [hkv]; rfl)

theorem C18_fresh_sequence_numbers_witness :
    serverCodec.readSeqs exampleEnv (NewServerCodec [frameA, frameB] ([] : List (List Byte)))
        [Op.ReadRequestHeader ⟨[], 0⟩, Op.ReadRequestHeader ⟨[], 0⟩,
          Op.WriteResponse ⟨[], 2, []⟩ none, Op.WriteResponse ⟨[], 2, []⟩ none,
          Op.ReadRequestHeader ⟨[], 0⟩] = [1, 2] ∧
    serverCodec.removedKeys exampleEnv (NewServerCodec [frameA, frameB] ([] : List (List Byte)))
        [Op.ReadRequestHeader ⟨[], 0⟩, Op.ReadRequestHeader ⟨[], 0⟩,
          Op.WriteResponse ⟨[], 2, []⟩ none, Op.WriteResponse ⟨[], 2, []⟩ none,
          Op.ReadRequestHeader ⟨[], 0⟩] = [2] ∧
    ((NewServerCodec [frameA, frameB] ([] : List (List Byte))).run exampleEnv
        [Op.ReadRequestHeader ⟨[], 0⟩, Op.ReadRequestHeader ⟨[], 0⟩,
          Op.WriteResponse ⟨[], 2, []⟩ none, Op.WriteResponse ⟨[], 2, []⟩ none,
          Op.ReadRequestHeader ⟨[], 0⟩]).seq =
      (serverCodec.readSeqs exampleEnv (NewServerCodec [frameA, frameB] ([] : List (List Byte)))
        [Op.ReadRequestHeader ⟨[], 0⟩, Op.ReadRequestHeader ⟨[], 0⟩,
          Op.WriteResponse ⟨[], 2, []⟩ none, Op.WriteResponse ⟨[], 2, []⟩ none,
          Op.ReadRequestHeader ⟨[], 0⟩]).length :=
  ⟨by decide, by decide,
    (C18_fresh_sequence_numbers exampleEnv [frameA, frameB] ([] : List (List Byte))
      [Op.ReadRequestHeader ⟨[], 0⟩, Op.ReadRequestHeader ⟨[], 0⟩,
        Op.WriteResponse ⟨[], 2, []⟩ none, Op.WriteResponse ⟨[], 2, []⟩ none,
        Op.ReadRequestHeader ⟨[], 0⟩] (by decide)).1⟩

/-- C19. `WriteResponse` consumes the pending entry before it can fail: after any
call, whatever it returns, `r.Seq` is not a key of the pending table, the
counter is as before and every other entry is unchanged; a call that returns
an error has not flushed a response; and every later `WriteResponse` for the
same sequence number returns `InvalidSequenceError`, whatever calls for other
sequence numbers were made in between. -/
theorem C19_write_consumes_entry {V R W : Type} (env : Env V R W) (s : serverCodec R W)
    (r : Response) (param : Option V) :
    (s.WriteResponse env r param).1.pending r.Seq = none ∧
    (s.WriteResponse env r param).1.seq = s.seq ∧
    (∀ k, k ≠ r.Seq → (s.WriteResponse env r param).1.pending k = s.pending k) ∧
    (∀ err, (s.WriteResponse env r param).2.1 = Outcome.returned (some err) →
      Call.Flush ∉ (s.WriteResponse env r param).2.2) ∧
    (∀ (ops : List (Op V)) (r2 : Response) (param2 : Option V), r2.Seq = r.Seq →
      serverCodec.allOtherSeq env r.Seq (s.WriteResponse env r param).1 ops →
      (((s.WriteResponse env r param).1.run env ops).WriteResponse env r2 param2).2.1 =
        Outcome.returned (some Error.InvalidSequenceError)) := by
  obtain ⟨hp, hsq, _, _⟩ := serverCodec.WriteResponse_state env s r param
  refine ⟨by rw [hp]; exact Pending.delete_self _ _, hsq,
    fun k hk => by rw [hp]; exact Pending.delete_other _ _ _ hk, ?_, ?_⟩
  · intro err herr hmem
    cases hpe : s.pending r.Seq with
    | none =>
      simp only [serverCodec.WriteResponse, hpe] at hmem
      simp at hmem
    | some id =>
      cases hc : env.Compressors s.request.CompressType with
      | none =>
        simp only [serverCodec.WriteResponse, hpe, hc] at hmem
        simp at hmem
      | some c =>
        have htM : Call.Flush ∉ (marshalStep env (effectiveParam r param)).2 := by
          cases effectiveParam r param <;> simp [marshalStep]
        rcases serverCodec.WriteResponse_paths env s r param id hpe c hc with
          ⟨code, hm, hw⟩ | ⟨b, code, hm, hz, hw⟩ | ⟨b, z, hm, hz, hf, hw⟩ |
          ⟨b, z, frame, e2, hm, hz, hf, hs, hw⟩ | ⟨b, z, frame, e2, hm, hz, hf, hs, hwr, hw⟩ |
          ⟨b, z, frame, hm, hz, hf, hs, hwr, hw⟩
        · rw [hw] at hmem; exact htM hmem
        · rw [hw] at hmem; simp [htM] at hmem
        · rw [hw] at hmem; simp [htM] at hmem
        · rw [hw] at hmem; simp [htM] at hmem
        · rw [hw] at hmem; simp [htM] at hmem
        · rw [hw] at herr; simp at herr
  · intro ops r2 param2 hseq hother
    have hp2 : ((s.WriteResponse env r param).1.run env ops).pending r2.Seq = none := by
      rw [hseq, serverCodec.run_pending_other env _ ops _ hother, hp]
      exact Pending.delete_self _ _
    have key : ∀ (t : serverCodec R W) (q : Response) (p : Option V), t.pending q.Seq = none →
        (t.WriteResponse env q p).2.1 = Outcome.returned (some Error.InvalidSequenceError) := by
      intro t q p h
      simp only [serverCodec.WriteResponse, h]
    exact key _ r2 param2 hp2

theorem C19_write_consumes_entry_witness :
    (serverCodec.WriteResponse exampleEnv
      { r := [[1, 2, 3]], w := ([] : List (List Byte)), request := ⟨5, [65], 7, 3, 0⟩, seq := 1,
        pending := fun k => if k = 1 then some 7 else none } ⟨[], 1, []⟩ (some 0)).2.1 =
      Outcome.returned (some Error.NotFoundCompressorError) ∧
    ((((serverCodec.WriteResponse exampleEnv
      { r := [[1, 2, 3]], w := ([] : List (List Byte)), request := ⟨5, [65], 7, 3, 0⟩, seq := 1,
        pending := fun k => if k = 1 then some 7 else none } ⟨[], 1, []⟩ (some 0)).1.run
          exampleEnv [Op.ReadRequestBody none]).WriteResponse exampleEnv ⟨[], 1, []⟩
            (some 0)).2.1 = Outcome.returned (some Error.InvalidSequenceError)) :=
  ⟨by decide,
    (C19_write_consumes_entry exampleEnv
      { r := [[1, 2, 3]], w := ([] : List (List Byte)), request := ⟨5, [65], 7, 3, 0⟩, seq := 1,
        pending := fun k => if k = 1 then some 7 else none } ⟨[], 1, []⟩ (some 0)).2.2.2.2
      [Op.ReadRequestBody none] ⟨[], 1, []⟩ (some 0) rfl (by decide)⟩

/-- C20. Declared body lengths are reduced modulo `2 ^ 32` on decode: for a
request header encoding that is well formed and whose requestLen varint `B`
encodes any value `v` (every `v < 2 ^ 64` has such an encoding, the LEB128
one), `Unmarshal` returns no error and sets `RequestLen = v % 2 ^ 32`, the
other fields as encoded; `ResponseHeader.Unmarshal` treats the responseLen
varint the same way; a wire value of exactly `2 ^ 32` decodes as length 0. -/
theorem C20_length_reduced_mod_32 (ct id v ck : Nat) (str B spare : List Byte)
    (hct : ct < 2 ^ 16) (hstr : MaxHeaderSize + str.length < 2 ^ 63) (hid : id < 2 ^ 64)
    (hB : encodesUvarint B v) (hck : ck < 2 ^ 32) :
    (∀ r : RequestHeader,
      r.Unmarshal ⟨LE16 ct ++ uvarint str.length ++ str ++ uvarint id ++ B ++ LE32 ck,
          spare⟩ =
        (⟨ct, str, id, v % 2 ^ 32, ck⟩, none)) ∧
    (∀ r : ResponseHeader,
      r.Unmarshal ⟨LE16 ct ++ uvarint id ++ uvarint str.length ++ str ++ B ++ LE32 ck,
          spare⟩ =
        (⟨ct, id, str, v % 2 ^ 32, ck⟩, none)) ∧
    (v = 2 ^ 32 → v % 2 ^ 32 = 0) ∧
    (∀ w, w < 2 ^ 64 → encodesUvarint (uvarint w) w) := by
  simp only [MaxHeaderSize] at hstr
  refine ⟨?_, ?_, fun h => by rw [h, Nat.mod_self],
    fun w hw rest => Uvarint_uvarint w rest hw⟩
  · intro r
    apply RequestHeader.Unmarshal_of_decode_some
    have e : LE16 ct ++ uvarint str.length ++ str ++ uvarint id ++ B ++ LE32 ck =
        LE16 ct ++ (uvarint str.length ++ str ++ (uvarint id ++ (B ++ (LE32 ck ++ [])))) := by
      simp [List.append_assoc]
    rw [e, RequestHeader.decode_wide_length ct id v str B _ spare hct (by omega) hid hB,
      Uint32_LE32 _ _ hck]
    rfl
  · intro r
    apply ResponseHeader.respUnmarshal_of_decode_some
    have e : LE16 ct ++ uvarint id ++ uvarint str.length ++ str ++ B ++ LE32 ck =
        LE16 ct ++ (uvarint id ++ (uvarint str.length ++ str ++ (B ++ (LE32 ck ++ [])))) := by
      simp [List.append_assoc]
    rw [e, ResponseHeader.decode_wide_response_length ct id v str B _ spare hct (by omega) hid hB,
      Uint32_LE32 _ _ hck]
    rfl

theorem C20_length_reduced_mod_32_witness :
    encodesUvarint [0x80, 0x80, 0x80, 0x80, 0x10] (2 ^ 32) ∧
    (RequestHeader.Unmarshal ⟨9, [], 9, 9, 9⟩
      ⟨LE16 0 ++ uvarint ([65] : List Byte).length ++ [65] ++ uvarint 7 ++
        [0x80, 0x80, 0x80, 0x80, 0x10] ++ LE32 67305985, []⟩ =
      (⟨0, [65], 7, 2 ^ 32 % 2 ^ 32, 67305985⟩, none)) ∧
    RequestHeader.Unmarshal ⟨9, [], 9, 9, 9⟩
      (Slice.ofList [0, 0, 1, 65, 7, 0x80, 0x80, 0x80, 0x80, 0x10, 1, 2, 3, 4]) =
      (⟨0, [65], 7, 0, 67305985⟩, none) ∧
    ResponseHeader.Unmarshal ⟨9, 9, [], 9, 9⟩
      (Slice.ofList [0, 0, 7, 1, 65, 0x80, 0x80, 0x80, 0x80, 0x10, 1, 2, 3, 4]) =
      (⟨0, 7, [65], 0, 67305985⟩, none) :=
  ⟨fun _ => rfl,
    (C20_length_reduced_mod_32 0 7 (2 ^ 32) 67305985 [65] [0x80, 0x80, 0x80, 0x80, 0x10] []
      (by decide) (by decide) (by decide) (fun _ => rfl) (by decide)).1 ⟨9, [], 9, 9, 9⟩,
    by decide, by decide⟩

end TinyRpc
